import Mathlib

/-!
# proof-cli: the HTTP request / authentication core

A shallow embedding of `pkg/utils` (helpers.go, oauth.go, config.go, client.go)
of the proof-cli repository and of the callers its specification speaks of
(the `config` and `scim patch` commands of `cmd`, the file upload of
`internal/real_estate`, the notarization records of `internal/business`), with
the properties of the specification stated and proved over the embedding.

Conventions of the embedding

* A Go `string` is a Lean `String` (a Go string holding valid UTF-8); where the
  Go code works on the bytes of a string (`[]byte(s)`, `url.QueryEscape`,
  `base64`), the bytes are those of `bytesOf`, the UTF-8 encoding.
* A Go `int`/`int64` is an `Int`; where 64-bit overflow can occur the wrap is
  explicit (`wrapInt64`).
* A `time.Time` is an instant in nanoseconds since the Unix epoch together with
  its zone offset; `time.Duration` is an `Int` of nanoseconds.
* A `url.Values` (a Go map from key to list of values) is an association list
  kept strictly ascending in its keys: a canonical form of the finite map, so
  that two maps with the same entries are the same value.
* Functions with effects take the state of the world (configuration file,
  environment, clock, remote server, log of HTTP requests sent) and return it.
-/

namespace ProofCli

/-! ## Strings and bytes -/

/-- UTF-8 encoding of one code point, as a list of bytes. -/
def utf8Char (c : Char) : List Nat :=
  let n := c.toNat
  if n < 0x80 then [n]
  else if n < 0x800 then [0xC0 + n / 64, 0x80 + n % 64]
  else if n < 0x10000 then [0xE0 + n / 4096, 0x80 + (n / 64) % 64, 0x80 + n % 64]
  else [0xF0 + n / 262144, 0x80 + (n / 4096) % 64, 0x80 + (n / 64) % 64, 0x80 + n % 64]

/-- Go `[]byte(s)`: the bytes of a string. -/
def bytesOf (s : String) : List Nat :=
  s.data.flatMap utf8Char

/-- Go `strings.Index(s, sep)` for a one-character ASCII separator: the position
of the first occurrence, or `-1`. The position counts characters; it is used
only to cut the string there (`slicePrefix`), which gives the same prefix as
cutting at the byte index. -/
def stringsIndex (s : String) (sep : Char) : Int :=
  if sep ∈ s.data then (s.data.indexOf sep : Nat) else -1

/-- Lexicographic comparison of two lists of characters by code point. -/
def lessChars : List Char → List Char → Bool
  | _, [] => false
  | [], _ :: _ => true
  | a :: as, b :: bs =>
    if a.toNat < b.toNat then true
    else if b.toNat < a.toNat then false
    else lessChars as bs

/-- Go `a < b` on strings. Go compares the bytes; on valid UTF-8 that is the
order of the code points. -/
def stringLess (a b : String) : Bool :=
  lessChars a.data b.data

/-- Go `s[:idx]`, the index counting characters as in `stringsIndex`. -/
def slicePrefix (s : String) (idx : Int) : String :=
  String.mk (s.data.take idx.toNat)

/-! ## strconv -/

/-- The character of a decimal digit. -/
def digitChar (d : Nat) : Char :=
  Char.ofNat (48 + d)

/-- Decimal digits of a natural number, most significant first; `fuel` bounds
the number of digits. -/
def formatUintAux : Nat → Nat → List Char
  | 0, n => [digitChar (n % 10)]
  | fuel + 1, n => if n < 10 then [digitChar n] else formatUintAux fuel (n / 10) ++ [digitChar (n % 10)]

/-- Decimal rendering of a natural number (the fuel `n` always suffices). -/
def formatUint (n : Nat) : List Char :=
  formatUintAux n n

/-- Go `strconv.FormatInt(v, 10)`. -/
def FormatInt (v : Int) : String :=
  if v < 0 then String.mk ('-' :: formatUint v.natAbs) else String.mk (formatUint v.natAbs)

/-- Value of a decimal digit character, if it is one. -/
def digitVal (c : Char) : Option Nat :=
  if 48 ≤ c.toNat ∧ c.toNat ≤ 57 then some (c.toNat - 48) else none

/-- Reads decimal digits into an accumulator; `none` on a non-digit. -/
def parseDigits : Nat → List Char → Option Nat
  | acc, [] => some acc
  | acc, c :: cs =>
    match digitVal c with
    | none => none
    | some d => parseDigits (acc * 10 + d) cs

/-- Reads a non-empty string of decimal digits. -/
def parseUint (cs : List Char) : Option Nat :=
  match cs with
  | [] => none
  | _ => parseDigits 0 cs

/-- Go `strconv.ParseInt(s, 10, 64)`: an optional sign, then decimal digits,
the value in the range of `int64`; `none` stands for the error result. -/
def ParseInt (s : String) : Option Int :=
  match s.data with
  | [] => none
  | c :: ds =>
    if c = '+' then
      match parseUint ds with
      | some n => if n < 2 ^ 63 then some (n : Int) else none
      | none => none
    else if c = '-' then
      match parseUint ds with
      | some n => if n ≤ 2 ^ 63 then some (-(n : Int)) else none
      | none => none
    else
      match parseUint (c :: ds) with
      | some n => if n < 2 ^ 63 then some (n : Int) else none
      | none => none

/-- Decimal rendering padded with zeros on the left to at least `w` digits. -/
def padUint (w n : Nat) : List Char :=
  List.replicate (w - (formatUint n).length) '0' ++ formatUint n

/-! ## time -/

/-- A `time.Duration`, in nanoseconds. -/
abbrev Duration := Int

/-- Go `time.Second`. -/
def Second : Duration := 1000000000

/-- Go `time.Minute`. -/
def Minute : Duration := 60 * Second

/-- Two's-complement wrap of an integer to 64 bits (signed). -/
def wrapInt64 (x : Int) : Int :=
  (x + 2 ^ 63) % 2 ^ 64 - 2 ^ 63

/-- A `time.Time`: the instant, in nanoseconds since the Unix epoch, and the
offset of its zone in seconds east of UTC. -/
structure Time where
  ns : Int
  offset : Int
  deriving DecidableEq, Repr

/-- Go `t.Add(d)`. -/
def Time.Add (t : Time) (d : Duration) : Time :=
  { t with ns := t.ns + d }

/-- Go `t.After(u)`: whether the instant `t` is after `u`. -/
def Time.After (t u : Time) : Bool :=
  decide (u.ns < t.ns)

/-- Go `t.Before(u)`. -/
def Time.Before (t u : Time) : Bool :=
  decide (t.ns < u.ns)

/-- Year, month and day of the proleptic Gregorian calendar for a number of
days since 1970-01-01. -/
def civilFromDays (days : Int) : Int × Int × Int :=
  let z := days + 719468
  let era := z / 146097
  let doe := z % 146097
  let yoe := (doe - doe / 1460 + doe / 36524 - doe / 146096) / 365
  let doy := doe - (365 * yoe + yoe / 4 - yoe / 100)
  let mp := (5 * doy + 2) / 153
  let d := doy - (153 * mp + 2) / 5 + 1
  let m := if mp < 10 then mp + 3 else mp - 9
  let y := yoe + era * 400 + (if m ≤ 2 then 1 else 0)
  (y, m, d)

/-- Go `t.Format(time.RFC3339)` (layout `2006-01-02T15:04:05Z07:00`). The year
is written with at least four digits, after a `-` when it is negative; the
zone is `Z` for the offset zero and otherwise the offset in whole minutes,
the seconds cut off, with the sign of that number of minutes (`+` when it is
zero). -/
def Time.FormatRFC3339 (t : Time) : String :=
  let secs := t.ns / 1000000000 + t.offset
  let days := secs / 86400
  let rem := secs % 86400
  let (y, m, d) := civilFromDays days
  let year : List Char := if y < 0 then '-' :: padUint 4 y.natAbs else padUint 4 y.toNat
  let zone : List Char :=
    if t.offset = 0 then ['Z']
    else
      let minutes := Int.tdiv t.offset 60
      (if minutes < 0 then '-' else '+') ::
        (padUint 2 (minutes.natAbs / 60) ++ ':' :: padUint 2 (minutes.natAbs % 60))
  String.mk (year ++ '-' :: padUint 2 m.toNat ++ '-' :: padUint 2 d.toNat ++ 'T' ::
    padUint 2 (rem / 3600).toNat ++ ':' :: padUint 2 (rem % 3600 / 60).toNat ++ ':' ::
    padUint 2 (rem % 60).toNat ++ zone)

/-! ## net/url -/

/-- The upper-case hexadecimal digit of a value below 16. -/
def upperHex (d : Nat) : Char :=
  if d < 10 then Char.ofNat (48 + d) else Char.ofNat (55 + d)

/-- Bytes that `url.QueryEscape` leaves as they are: ASCII letters, digits and
`-`, `_`, `.`, `~`. -/
def unreserved (b : Nat) : Bool :=
  (97 ≤ b && b ≤ 122) || (65 ≤ b && b ≤ 90) || (48 ≤ b && b ≤ 57) ||
    b == 45 || b == 95 || b == 46 || b == 126

/-- Escape of one byte in a query component. -/
def escapeByte (b : Nat) : List Char :=
  if unreserved b then [Char.ofNat b]
  else if b = 32 then ['+']
  else ['%', upperHex (b / 16), upperHex (b % 16)]

/-- Go `url.QueryEscape(s)`. -/
def QueryEscape (s : String) : String :=
  String.mk ((bytesOf s).flatMap escapeByte)

/-- Go `url.Values`, a map from key to list of values. A Go map has no order of
its own; it is kept here as the list of its entries with the keys strictly
ascending, so that equal maps are equal lists. -/
abbrev Values := List (String × List String)

/-- The keys of a map are strictly ascending. -/
def Ascending (v : Values) : Prop :=
  List.Pairwise (fun a b => stringLess a.1 b.1 = true) v

/-- Go `v.Set(key, value)`: the key now holds exactly the one value. -/
def Values.Set : Values → String → String → Values
  | [], key, value => [(key, [value])]
  | (k, vs) :: rest, key, value =>
    if stringLess key k then (key, [value]) :: (k, vs) :: rest
    else if key = k then (k, [value]) :: rest
    else (k, vs) :: Values.Set rest key value

/-- The list of values `v[key]` of a key (empty when the key is absent). -/
def Values.lookup : Values → String → List String
  | [], _ => []
  | (k, vs) :: rest, key => if key = k then vs else Values.lookup rest key

/-- Go `v.Get(key)`: the first value of the key, or the empty string. -/
def Values.Get (v : Values) (key : String) : String :=
  (Values.lookup v key).headD ""

/-- The keys of the map, in ascending order (the order `Encode` walks them in). -/
def Values.keys (v : Values) : List String :=
  (v.map Prod.fst).insertionSort (fun a b => stringLess b a = false)

/-- One step of `Encode`: writes `&` unless the buffer is empty, then
`key=value`, both escaped. -/
def encodePair (buf : String) (k value : String) : String :=
  (if buf.length > 0 then buf ++ "&" else buf) ++ QueryEscape k ++ "=" ++ QueryEscape value

/-- Go `v.Encode()`: the pairs `key=value` joined by `&`, keys ascending. -/
def Values.Encode (v : Values) : String :=
  (Values.keys v).foldl (fun buf k => (Values.lookup v k).foldl (fun b value => encodePair b k value) buf) ""

/-! ## encoding/base64 -/

/-- The character of a 6-bit value in the standard base64 alphabet. -/
def b64Char (i : Nat) : Char :=
  if i < 26 then Char.ofNat (65 + i)
  else if i < 52 then Char.ofNat (71 + i)
  else if i < 62 then Char.ofNat (i - 4)
  else if i = 62 then '+' else '/'

/-- The 6-bit value of a character of the standard base64 alphabet. -/
def b64Val (c : Char) : Option Nat :=
  let n := c.toNat
  if 65 ≤ n ∧ n ≤ 90 then some (n - 65)
  else if 97 ≤ n ∧ n ≤ 122 then some (n - 71)
  else if 48 ≤ n ∧ n ≤ 57 then some (n + 4)
  else if c = '+' then some 62
  else if c = '/' then some 63
  else none

/-- Go `base64.StdEncoding.EncodeToString`, on the list of bytes. -/
def base64Encode : List Nat → List Char
  | [] => []
  | [a] => [b64Char (a / 4), b64Char (a % 4 * 16), '=', '=']
  | [a, b] => [b64Char (a / 4), b64Char (a % 4 * 16 + b / 16), b64Char (b % 16 * 4), '=']
  | a :: b :: c :: rest =>
    b64Char (a / 4) :: b64Char (a % 4 * 16 + b / 16) :: b64Char (b % 16 * 4 + c / 64) ::
      b64Char (c % 64) :: base64Encode rest

/-- Go `base64.StdEncoding.DecodeString`: groups of four characters, the last
one possibly padded with `=`; `none` stands for the error result. -/
def base64Decode : List Char → Option (List Nat)
  | [] => some []
  | w :: x :: y :: z :: rest =>
    if y = '=' ∧ z = '=' ∧ rest = [] then
      match b64Val w, b64Val x with
      | some p, some q => if q % 16 = 0 then some [p * 4 + q / 16] else none
      | _, _ => none
    else if z = '=' ∧ rest = [] then
      match b64Val w, b64Val x, b64Val y with
      | some p, some q, some r =>
        if r % 4 = 0 then some [p * 4 + q / 16, q % 16 * 16 + r / 4] else none
      | _, _, _ => none
    else
      match b64Val w, b64Val x, b64Val y, b64Val z, base64Decode rest with
      | some p, some q, some r, some s, some tl =>
        some ((p * 4 + q / 16) :: (q % 16 * 16 + r / 4) :: (r % 4 * 64 + s) :: tl)
      | _, _, _, _, _ => none
  | _ => none

/-! ## reflect: the parameter structs handed to the query builder -/

/-- What a non-nil pointer field points to. -/
inductive Pointee where
  | time (t : Time)
  | otherStruct
  | nonStruct
  deriving DecidableEq, Repr

/-- Kind and value of a struct field, as `reflect` sees it. -/
inductive FieldValue where
  | int (v : Int)
  | uint (v : Nat)
  | string (s : String)
  | bool (b : Bool)
  | float (bits : Nat)
  | slice (elems : List String)
  | ptr (target : Option Pointee)
  | other
  deriving DecidableEq, Repr

/-- A struct field: its name, whether it is exported (`CanInterface`), the
value of the `json` key of its tag (`Tag.Get("json")`, empty when there is
none), and its value. -/
structure Field where
  Name : String
  Exported : Bool
  Tag : String
  Value : FieldValue
  deriving DecidableEq, Repr

/-- The argument `params any` of `BuildQueryParams`. -/
inductive Params where
  | nil
  | struct (fields : List Field)
  | ptrNil
  | ptrStruct (fields : List Field)
  | ptrOther
  | other
  deriving DecidableEq, Repr

/-- One iteration of the loop of `BuildQueryParams` (helpers.go, lines 45-92):
the map `queryParams` after the field `f`. -/
def fieldStep (queryParams : Values) (f : Field) : Values :=
  if !f.Exported then queryParams
  else
    let tag := f.Tag
    if tag = "" ∨ tag = "-" then queryParams
    else
      let idx := stringsIndex tag ','
      let paramName := if idx ≠ -1 then slicePrefix tag idx else tag
      if paramName = "" then queryParams
      else
        match f.Value with
        | .int value =>
          if value > 0 then Values.Set queryParams paramName (FormatInt value) else queryParams
        | .string value =>
          if value ≠ "" then Values.Set queryParams paramName value else queryParams
        | .ptr (some (.time timeVal)) => Values.Set queryParams paramName timeVal.FormatRFC3339
        | _ => queryParams

/-- Go `BuildQueryParams(params)` of helpers.go. -/
def BuildQueryParams : Params → Values
  | .nil => []
  | .ptrNil => []
  | .ptrOther => []
  | .other => []
  | .struct fields => fields.foldl fieldStep []
  | .ptrStruct fields => fields.foldl fieldStep []

/-! ### The loop body, read field by field -/

/-- The part of a tag before its first comma, the whole tag when it has none
(lines 61-64 of helpers.go). -/
def tagName (tag : String) : String :=
  let idx := stringsIndex tag ','
  if idx ≠ -1 then slicePrefix tag idx else tag

/-- The parameter name the loop gives a field; `none` when the loop skips the
field before the `switch` (unexported, tag empty or `-`, name empty). -/
def paramName (f : Field) : Option String :=
  if !f.Exported then none
  else if f.Tag = "" ∨ f.Tag = "-" then none
  else if tagName f.Tag = "" then none
  else some (tagName f.Tag)

/-- The string a case of the `switch field.Kind()` sets for a value; `none`
when no case sets one. -/
def renderValue : FieldValue → Option String
  | .int v => if v > 0 then some (FormatInt v) else none
  | .string s => if s ≠ "" then some s else none
  | .ptr (some (.time t)) => some t.FormatRFC3339
  | _ => none

/-- The pair that the iteration for a field sets, if it sets one. -/
def fieldPair (f : Field) : Option (String × String) :=
  match paramName f with
  | none => none
  | some name =>
    match renderValue f.Value with
    | none => none
    | some value => some (name, value)

/-- Go `ListTransactionsParams` of real_estate/transactions.go, as `reflect`
sees a value of it: the fields in the order of their declaration. -/
def ListTransactionsParams (limit offset : Int) (organizationID loanNumber : String)
    (createdDateStart createdDateEnd lastUpdatedDateStart lastUpdatedDateEnd : Option Time)
    (transactionStatus documentURLVersion : String) : List Field :=
  [ ⟨"Limit", true, "limit,omitempty", .int limit⟩,
    ⟨"Offset", true, "offset,omitempty", .int offset⟩,
    ⟨"OrganizationID", true, "organization_id,omitempty", .string organizationID⟩,
    ⟨"LoanNumber", true, "loan_number,omitempty", .string loanNumber⟩,
    ⟨"CreatedDateStart", true, "created_date_start,omitempty", .ptr (createdDateStart.map Pointee.time)⟩,
    ⟨"CreatedDateEnd", true, "created_date_end,omitempty", .ptr (createdDateEnd.map Pointee.time)⟩,
    ⟨"LastUpdatedDateStart", true, "last_updated_date_start,omitempty",
      .ptr (lastUpdatedDateStart.map Pointee.time)⟩,
    ⟨"LastUpdatedDateEnd", true, "last_updated_date_end,omitempty",
      .ptr (lastUpdatedDateEnd.map Pointee.time)⟩,
    ⟨"TransactionStatus", true, "transaction_status,omitempty", .string transactionStatus⟩,
    ⟨"DocumentURLVersion", true, "document_url_version,omitempty", .string documentURLVersion⟩ ]

/-- A value of `ListTransactionsParams` used to run the query builder: limit 10,
offset 0, an organization, a loan number and a start date. -/
def sampleParams : List Field :=
  ListTransactionsParams 10 0 "org_1" "LN-7" (some ⟨1705314600 * Second, 0⟩) none none none "" ""

/-- A struct with one exported integer field whose tag gives options but no
name, as in `Page int` tagged `json:",omitempty"`. -/
def unnamedParams : List Field :=
  [⟨"Page", true, ",omitempty", .int 5⟩]

/-! ## config.go: the configuration and its file -/

/-- Go `OAuthConfig`. -/
structure OAuthConfig where
  Enabled : Bool
  ClientID : String
  ClientSecret : String
  Scope : String
  deriving DecidableEq, Repr

/-- Go `OAuthToken`. -/
structure OAuthToken where
  AccessToken : String
  RefreshToken : String
  TokenType : String
  ExpiresIn : Int
  ExpiresAt : Time
  Scope : String
  deriving DecidableEq, Repr

/-- Go `Config`; a nil pointer is `none`. -/
structure Config where
  APIEndpoint : String
  Timeout : Duration
  OAuth : Option OAuthConfig
  APIKey : String
  OAuthToken : Option OAuthToken
  deriving DecidableEq, Repr

/-- The JSON document of a configuration file: each top-level key is present
or absent. In the nested objects an absent key and the zero value of its field
decode alike, so they are kept as the decoded records. A time is the time
that its JSON text decodes to, with a zone offset of whole minutes. -/
structure ConfigDoc where
  api_endpoint : Option String
  timeout : Option Duration
  oauth : Option OAuthConfig
  api_key : Option String
  oauth_token : Option OAuthToken
  deriving DecidableEq, Repr

/-- What the configuration file holds: a JSON document of the configuration, or
bytes that `json.Unmarshal` rejects. -/
inductive FileContent where
  | doc (d : ConfigDoc)
  | garbage
  deriving DecidableEq, Repr

/-- The state of `~/.proof-cli/config.json`. -/
inductive ConfigFile where
  | noDir
  | noFile
  | present (c : FileContent)
  deriving DecidableEq, Repr

/-! ## net/http -/

/-- Whether a byte may occur in a header field name (an HTTP token). -/
def tokenChar (c : Char) : Bool :=
  let n := c.toNat
  (97 ≤ n && n ≤ 122) || (65 ≤ n && n ≤ 90) || (48 ≤ n && n ≤ 57) ||
    n ∈ [33, 35, 36, 37, 38, 39, 42, 43, 45, 46, 94, 95, 96, 124, 126]

/-- The loop of `textproto.CanonicalMIMEHeaderKey`: a letter is made upper case
at the start and after a hyphen, lower case elsewhere. -/
def canonicalChars : Bool → List Char → List Char
  | _, [] => []
  | upper, c :: cs =>
    let n := c.toNat
    let c1 :=
      if upper && 97 ≤ n && n ≤ 122 then Char.ofNat (n - 32)
      else if !upper && 65 ≤ n && n ≤ 90 then Char.ofNat (n + 32)
      else c
    c1 :: canonicalChars (c == '-') cs

/-- Go `textproto.CanonicalMIMEHeaderKey(key)`: a key holding a byte that is
not a token byte is returned unchanged. -/
def canonicalKey (key : String) : String :=
  if key.data.all tokenChar then String.mk (canonicalChars true key.data) else key

/-- Go `http.Header`. -/
abbrev Header := Values

/-- Go `h.Set(key, value)`. -/
def Header.Set (h : Header) (key value : String) : Header :=
  Values.Set h (canonicalKey key) value

/-- Go `h.Get(key)`. -/
def Header.Get (h : Header) (key : String) : String :=
  Values.Get h (canonicalKey key)

/-- Go `h.Values(key)`: all values of the key. -/
def Header.Values (h : Header) (key : String) : List String :=
  Values.lookup h (canonicalKey key)

/-- An HTTP request; `Body` is `none` for a nil reader; `Timeout` is the
timeout of the client that sent it (zero until it is sent). -/
structure HttpRequest where
  Method : String
  URL : String
  Body : Option String
  Header : Header
  Timeout : Duration
  deriving DecidableEq, Repr

/-- The outcome of `httpClient.Do` followed by `io.ReadAll(resp.Body)`. -/
inductive HttpResult where
  | failed (err : String)
  | unreadable (status : Int) (err : String)
  | response (status : Int) (body : String)
  deriving DecidableEq, Repr

deriving instance DecidableEq for Except

/-! ## The world the program runs in -/

/-- The state outside the program. `server` answers a request given the
requests sent before it; `sent` logs the requests handed to `httpClient.Do`,
oldest first; `clock` gives the successive readings of `time.Now()`;
`urlParses` tells whether `http.NewRequest` accepts a URL; `jsonToken` is
`json.Unmarshal` into an `OAuthToken`. -/
structure World where
  home : Bool
  readable : Bool
  writable : Bool
  oserr : String
  file : ConfigFile
  envAPIKey : String
  clock : Nat → Time
  tick : Nat
  server : List HttpRequest → HttpRequest → HttpResult
  sent : List HttpRequest
  urlParses : String → Bool
  jsonToken : String → Except String OAuthToken

/-- Go `time.Now()`: reads the clock; the next reading is the next one. -/
def timeNow (w : World) : Time × World :=
  (w.clock w.tick, { w with tick := w.tick + 1 })

/-- Go `httpClient.Do(req)` by a client with the given timeout, and the reading
of the response body. -/
def httpDo (w : World) (timeout : Duration) (req : HttpRequest) : HttpResult × World :=
  let r := { req with Timeout := timeout }
  (w.server w.sent r, { w with sent := w.sent ++ [r] })

/-- Whether `http.NewRequest` accepts the method: empty, or made of token
bytes. -/
def validMethod (method : String) : Bool :=
  method.data.all tokenChar

/-- Go `http.NewRequest(method, url, body)` (an empty method means GET). The
texts of its errors are abridged: Go quotes the method, and gives the URL with
the detail of what `url.Parse` rejects. -/
def newRequest (w : World) (method url : String) (body : Option String) :
    Except String HttpRequest :=
  if !validMethod method then .error ("net/http: invalid method " ++ method)
  else if !w.urlParses url then .error ("parse " ++ url)
  else .ok { Method := if method = "" then "GET" else method, URL := url, Body := body, Header := [], Timeout := 0 }

/-! ## config.go: loading and saving -/

/-- The default configuration `LoadConfig` starts from. -/
def defaultConfig : Config :=
  { APIEndpoint := "https://api.proof.com", Timeout := 30 * Second, OAuth := none, APIKey := "",
    OAuthToken := none }

/-- Whether `time.Time.MarshalJSON` accepts the time: the year, in the zone of
the time, lies in 0..9999 and the zone offset is below 24 hours. -/
def timeMarshals (t : Time) : Bool :=
  let y := (civilFromDays ((t.ns / 1000000000 + t.offset) / 86400)).1
  decide (0 ≤ y ∧ y ≤ 9999 ∧ t.offset.natAbs < 86400)

/-- The time that `time.Time.UnmarshalJSON` reads from the text that
`MarshalJSON` wrote for `t`. The text (RFC 3339 with nanoseconds) shows the
clock of the zone of `t` and the offset of that zone in whole minutes, the
seconds cut off: the zone read back has that offset, and the instant read back
is later than that of `t` by the seconds cut off. -/
def jsonTime (t : Time) : Time :=
  let offset := Int.tdiv t.offset 60 * 60
  { ns := t.ns + (t.offset - offset) * 1000000000, offset := offset }

/-- A token as the configuration file holds it: its `expires_at` is the time
that its JSON text gives back. -/
def storedToken (tok : OAuthToken) : OAuthToken :=
  { tok with ExpiresAt := jsonTime tok.ExpiresAt }

/-- A configuration as the configuration file gives it back: the expiry of its
token is the time that its JSON text gives back. -/
def storedConfig (c : Config) : Config :=
  { c with OAuthToken := c.OAuthToken.map storedToken }

/-- Go `json.MarshalIndent(config, "", "  ")`: `api_endpoint` and `timeout` are
always written; `oauth`, `api_key` and `oauth_token` carry `omitempty`. The
document holds what the text written decodes to. -/
def marshalConfig (c : Config) : Except String ConfigDoc :=
  match c.OAuthToken with
  | some tok =>
    if timeMarshals tok.ExpiresAt then
      .ok { api_endpoint := some c.APIEndpoint, timeout := some c.Timeout, oauth := c.OAuth,
            api_key := if c.APIKey = "" then none else some c.APIKey,
            oauth_token := some (storedToken tok) }
    else .error "json: error calling MarshalJSON for type time.Time"
  | none =>
    .ok { api_endpoint := some c.APIEndpoint, timeout := some c.Timeout, oauth := c.OAuth,
          api_key := if c.APIKey = "" then none else some c.APIKey, oauth_token := none }

/-- Go `json.Unmarshal(configData, config)` on a well-formed document: the keys
present overwrite the fields of `config`, the others leave them. The expiry of
the token is read as its JSON text gives it, with a zone offset of whole
minutes. -/
def unmarshalConfig (d : ConfigDoc) (config : Config) : Config :=
  { APIEndpoint := d.api_endpoint.getD config.APIEndpoint,
    Timeout := d.timeout.getD config.Timeout,
    OAuth := match d.oauth with
      | some o => some o
      | none => config.OAuth,
    APIKey := d.api_key.getD config.APIKey,
    OAuthToken := match d.oauth_token with
      | some t => some (storedToken t)
      | none => config.OAuthToken }

/-- Go `LoadConfig()`. -/
def LoadConfig (w : World) : Except String Config × World :=
  let config := defaultConfig
  if !w.home then (.error ("error getting home directory: " ++ w.oserr), w)
  else
    match w.file with
    | .noDir =>
      if !w.writable then (.error ("error creating config directory: " ++ w.oserr), w)
      else
        match marshalConfig config with
        | .error e => (.error ("error marshaling config: " ++ e), { w with file := .noFile })
        | .ok d => (.ok config, { w with file := .present (.doc d) })
    | .noFile =>
      match marshalConfig config with
      | .error e => (.error ("error marshaling config: " ++ e), w)
      | .ok d =>
        if !w.writable then (.error ("error writing config file: " ++ w.oserr), w)
        else (.ok config, { w with file := .present (.doc d) })
    | .present content =>
      if !w.readable then (.error ("error reading config file: " ++ w.oserr), w)
      else
        match content with
        | .garbage => (.error ("error parsing config file: " ++ w.oserr), w)
        | .doc d => (.ok (unmarshalConfig d config), w)

/-- Go `SaveConfig(config)`. -/
def SaveConfig (config : Config) (w : World) : Option String × World :=
  if !w.home then (some ("error getting home directory: " ++ w.oserr), w)
  else if w.file = .noDir ∧ !w.writable then (some ("error creating config directory: " ++ w.oserr), w)
  else
    let w1 : World := if w.file = .noDir then { w with file := .noFile } else w
    match marshalConfig config with
    | .error e => (some ("error marshaling config: " ++ e), w1)
    | .ok d =>
      if !w1.writable then (some ("error writing config file: " ++ w.oserr), w1)
      else (none, { w1 with file := .present (.doc d) })

/-- Go `GetAPIKey()`. -/
def GetAPIKey (w : World) : Except String String × World :=
  let apiKey := w.envAPIKey
  if apiKey ≠ "" then (.ok apiKey, w)
  else
    match LoadConfig w with
    | (.error e, w1) => (.error ("error loading config: " ++ e), w1)
    | (.ok config, w1) =>
      if config.APIKey = "" then
        (.error "API key not found. Set PROOF_API_KEY environment variable or run 'proof config set-api-key'", w1)
      else (.ok config.APIKey, w1)

/-- Go `SaveAPIKey(apiKey)`. -/
def SaveAPIKey (apiKey : String) (w : World) : Option String × World :=
  match LoadConfig w with
  | (.error e, w1) => (some ("error loading config: " ++ e), w1)
  | (.ok config, w1) =>
    match SaveConfig { config with APIKey := apiKey } w1 with
    | (some e, w2) => (some ("error saving config: " ++ e), w2)
    | (none, w2) => (none, w2)

/-! ## oauth.go -/

/-- Go `OAuthRequest`; `Headers` is the map from header name to value, as its
list of entries. -/
structure OAuthRequest where
  URL : String
  FormData : String
  Headers : List (String × String)
  deriving DecidableEq, Repr

/-- Go `PrepareOAuthTokenRequest(config)`. -/
def PrepareOAuthTokenRequest (config : Config) : Except String OAuthRequest :=
  match config.OAuth with
  | none => .error "OAuth not enabled in configuration"
  | some oauth =>
    if !oauth.Enabled then .error "OAuth not enabled in configuration"
    else if oauth.ClientID = "" ∨ oauth.ClientSecret = "" then
      .error "OAuth client ID and secret are required"
    else
      let tokenURL := config.APIEndpoint ++ "/oauth/v2/token"
      let formData : Values := Values.Set [] "grant_type" "client_credentials"
      let formData := if oauth.Scope ≠ "" then Values.Set formData "scope" oauth.Scope else formData
      let auth := String.mk (base64Encode (bytesOf (oauth.ClientID ++ ":" ++ oauth.ClientSecret)))
      .ok { URL := tokenURL, FormData := Values.Encode formData,
            Headers := [("Accept", "application/json"), ("Authorization", "Basic " ++ auth),
              ("Content-Type", "application/x-www-form-urlencoded")] }

/-- Go `time.Duration(token.ExpiresIn) * time.Second`: a product of 64-bit
integers, which wraps. -/
def expiresInDuration (expiresIn : Int) : Duration :=
  wrapInt64 (expiresIn * Second)

/-- Go `ParseOAuthTokenResponse(responseBody)`. -/
def ParseOAuthTokenResponse (responseBody : String) (w : World) : Except String OAuthToken × World :=
  match w.jsonToken responseBody with
  | .error e => (.error ("error parsing OAuth token: " ++ e), w)
  | .ok token =>
    let (now, w1) := timeNow w
    (.ok { token with ExpiresAt := now.Add (expiresInDuration token.ExpiresIn) }, w1)

/-- Go `SaveOAuthToken(token)`. -/
def SaveOAuthToken (token : OAuthToken) (w : World) : Option String × World :=
  match LoadConfig w with
  | (.error e, w1) => (some ("error loading config: " ++ e), w1)
  | (.ok config, w1) =>
    match SaveConfig { config with OAuthToken := some token } w1 with
    | (some e, w2) => (some ("error saving config: " ++ e), w2)
    | (none, w2) => (none, w2)

/-- Go `LoadOAuthToken()`. -/
def LoadOAuthToken (w : World) : Except String OAuthToken × World :=
  match LoadConfig w with
  | (.error e, w1) => (.error ("error loading config: " ++ e), w1)
  | (.ok config, w1) =>
    match config.OAuthToken with
    | none => (.error "OAuth token not found", w1)
    | some token => (.ok token, w1)

/-- Go `(t *OAuthToken).IsExpired()`. -/
def OAuthToken.IsExpired (t : OAuthToken) (w : World) : Bool × World :=
  let (now, w1) := timeNow w
  ((now.Add (5 * Minute)).After t.ExpiresAt, w1)

/-- Go `ShouldRefreshToken(config)`. -/
def ShouldRefreshToken (config : Config) (w : World) : Except String Bool × World :=
  match config.OAuth with
  | none => (.error "OAuth not enabled", w)
  | some oauth =>
    if !oauth.Enabled then (.error "OAuth not enabled", w)
    else
      match LoadOAuthToken w with
      | (.error _, w1) => (.ok true, w1)
      | (.ok token, w1) =>
        match token.IsExpired w1 with
        | (true, w2) => (.ok true, w2)
        | (false, w2) => (.ok false, w2)

/-! ## client.go -/

/-- Go `ProofClient`; `timeout` is the timeout of its `httpClient`. -/
structure ProofClient where
  config : Config
  timeout : Duration
  apiKey : String
  oauthToken : Option OAuthToken
  deriving DecidableEq, Repr

/-- Go `NewProofClient()`. -/
def NewProofClient (w : World) : Except String ProofClient × World :=
  match LoadConfig w with
  | (.error e, w1) => (.error ("failed to load config: " ++ e), w1)
  | (.ok config, w1) =>
    let client : ProofClient :=
      { config := config, timeout := config.Timeout, apiKey := "", oauthToken := none }
    let oauthOn : Bool :=
      match config.OAuth with
      | some oauth => oauth.Enabled
      | none => false
    if oauthOn then (.ok client, w1)
    else
      match GetAPIKey w1 with
      | (.error e, w2) => (.error ("failed to get API key: " ++ e), w2)
      | (.ok apiKey, w2) => (.ok { client with apiKey := apiKey }, w2)

/-- Go `(c *ProofClient).AuthenticateOAuth()`. -/
def ProofClient.AuthenticateOAuth (c : ProofClient) (w : World) : Except String OAuthToken × World :=
  match PrepareOAuthTokenRequest c.config with
  | .error e => (.error e, w)
  | .ok req =>
    match newRequest w "POST" req.URL (some req.FormData) with
    | .error e => (.error ("error creating OAuth request: " ++ e), w)
    | .ok httpReq =>
      let httpReq := { httpReq with
        Header := req.Headers.foldl (fun h kv => Header.Set h kv.1 kv.2) httpReq.Header }
      match httpDo w c.timeout httpReq with
      | (.failed e, w1) => (.error ("error making OAuth request: " ++ e), w1)
      | (.unreadable _ e, w1) => (.error ("error reading OAuth response: " ++ e), w1)
      | (.response status respBody, w1) =>
        if status ≠ 200 then
          (.error ("OAuth authentication failed (status " ++ FormatInt status ++ "): " ++ respBody), w1)
        else
          match ParseOAuthTokenResponse respBody w1 with
          | (.error e, w2) => (.error e, w2)
          | (.ok token, w2) => (.ok token, w2)

/-- Go `(c *ProofClient).getValidOAuthToken()`. -/
def ProofClient.getValidOAuthToken (c : ProofClient) (w : World) : Except String OAuthToken × World :=
  match ShouldRefreshToken c.config w with
  | (.error e, w1) => (.error e, w1)
  | (.ok true, w1) =>
    match c.AuthenticateOAuth w1 with
    | (.error e, w2) => (.error ("error getting OAuth token: " ++ e), w2)
    | (.ok token, w2) =>
      match SaveOAuthToken token w2 with
      | (some e, w3) => (.error ("error saving OAuth token: " ++ e), w3)
      | (none, w3) => (.ok token, w3)
  | (.ok false, w1) => LoadOAuthToken w1

/-- Go `(c *ProofClient).TestOAuthAuthentication()`. -/
def ProofClient.TestOAuthAuthentication (c : ProofClient) (w : World) : Except String OAuthToken × World :=
  match c.AuthenticateOAuth w with
  | (.error e, w1) => (.error ("error testing OAuth authentication: " ++ e), w1)
  | (.ok token, w1) =>
    match SaveOAuthToken token w1 with
    | (some e, w2) => (.error ("error saving OAuth token: " ++ e), w2)
    | (none, w2) => (.ok token, w2)

/-- Go `RequestOptions`. -/
structure RequestOptions where
  ContentType : String
  Accept : String
  deriving DecidableEq, Repr

/-- The first of the variadic options when it is there and not nil. -/
def firstOption (opts : List (Option RequestOptions)) : Option RequestOptions :=
  match opts with
  | some o :: _ => some o
  | _ => none

/-- Go `(c *ProofClient).Request(method, path, body, opts...)`. The argument
`body` is `none` for a nil body and otherwise the result of
`json.Marshal(body)`. -/
def ProofClient.Request (c : ProofClient) (method path : String) (body : Option (Except String String))
    (opts : List (Option RequestOptions)) (w : World) : Except String String × World :=
  let url := c.config.APIEndpoint ++ path
  match (match body with
      | none => Except.ok none
      | some (.error e) => Except.error e
      | some (.ok jsonBody) => Except.ok (some jsonBody)) with
  | .error e => (.error ("failed to marshal request body: " ++ e), w)
  | .ok bodyReader =>
    match newRequest w method url bodyReader with
    | .error e => (.error ("failed to create request: " ++ e), w)
    | .ok req =>
      let oauthOn : Bool :=
        match c.config.OAuth with
        | some oauth => oauth.Enabled
        | none => false
      match (if oauthOn then
          match c.getValidOAuthToken w with
          | (.error e, w1) => (Except.error ("failed to get OAuth token: " ++ e), w1)
          | (.ok token, w1) =>
            (Except.ok (Header.Set req.Header "Authorization" ("Bearer " ++ token.AccessToken)), w1)
        else (Except.ok (Header.Set req.Header "ApiKey" c.apiKey), w)) with
      | (.error e, w1) => (.error e, w1)
      | (.ok header, w1) =>
        let contentType :=
          match firstOption opts with
          | some o => if o.ContentType ≠ "" then o.ContentType else "application/json"
          | none => "application/json"
        let header := Header.Set header "Content-Type" contentType
        let accept :=
          match firstOption opts with
          | some o => if o.Accept ≠ "" then o.Accept else "application/json"
          | none => "application/json"
        let header := Header.Set header "Accept" accept
        match httpDo w1 c.timeout { req with Header := header } with
        | (.failed e, w2) => (.error ("failed to execute request: " ++ e), w2)
        | (.unreadable _ e, w2) => (.error ("failed to read response: " ++ e), w2)
        | (.response status respBody, w2) =>
          if status < 200 ∨ status ≥ 300 then
            (.error ("API error (status " ++ FormatInt status ++ "): " ++ respBody), w2)
          else (.ok respBody, w2)

/-- The token that the configuration file holds, if it holds one, as
`json.Unmarshal` reads it. -/
def persistedToken : ConfigFile → Option OAuthToken
  | .present (.doc d) => d.oauth_token.map storedToken
  | _ => none

/-! ## Parts of `AuthenticateOAuth` and `Request`, named for the statements -/

/-- The test `config.OAuth != nil && config.OAuth.Enabled` of client.go. -/
def oauthEnabled (config : Config) : Bool :=
  match config.OAuth with
  | some oauth => oauth.Enabled
  | none => false

/-- The HTTP request that `AuthenticateOAuth` hands to `httpClient.Do` for a
prepared token request (client.go, lines 58-69). -/
def tokenRequestOf (c : ProofClient) (req : OAuthRequest) : HttpRequest :=
  { Method := "POST", URL := req.URL, Body := some req.FormData,
    Header := req.Headers.foldl (fun h kv => Header.Set h kv.1 kv.2) [], Timeout := c.timeout }

/-- The body reader of `Request` (client.go, lines 145-152): `none` for a nil
body, the marshalled JSON otherwise, or the error of `json.Marshal`. -/
def bodyReaderOf (body : Option (Except String String)) : Except String (Option String) :=
  match body with
  | none => .ok none
  | some (.error e) => .error e
  | some (.ok jsonBody) => .ok (some jsonBody)

/-- The content type that `Request` sets (client.go, lines 171-175). -/
def contentTypeOf (opts : List (Option RequestOptions)) : String :=
  match firstOption opts with
  | some o => if o.ContentType ≠ "" then o.ContentType else "application/json"
  | none => "application/json"

/-- The accept header that `Request` sets (client.go, lines 178-182). -/
def acceptOf (opts : List (Option RequestOptions)) : String :=
  match firstOption opts with
  | some o => if o.Accept ≠ "" then o.Accept else "application/json"
  | none => "application/json"

/-- The request that `Request` hands to `httpClient.Do`, given the header
`authKey: authValue` that its authentication step sets (client.go, lines
143-185). -/
def businessRequest (c : ProofClient) (method path : String) (bodyReader : Option String)
    (authKey authValue : String) (opts : List (Option RequestOptions)) : HttpRequest :=
  { Method := if method = "" then "GET" else method, URL := c.config.APIEndpoint ++ path,
    Body := bodyReader,
    Header := Header.Set (Header.Set (Header.Set [] authKey authValue) "Content-Type"
      (contentTypeOf opts)) "Accept" (acceptOf opts),
    Timeout := c.timeout }

/-- The authentication step of `Request` (client.go, lines 159-169): the name
and value of the header it sets, or its error, and the world after it. -/
def authStep (c : ProofClient) (w : World) : Except String (String × String) × World :=
  if oauthEnabled c.config then
    match c.getValidOAuthToken w with
    | (.error e, w1) => (.error ("failed to get OAuth token: " ++ e), w1)
    | (.ok token, w1) => (.ok ("Authorization", "Bearer " ++ token.AccessToken), w1)
  else (.ok ("ApiKey", c.apiKey), w)

/-- What `Request` returns for the outcome of `httpClient.Do` and of the
reading of the body (client.go, lines 185-200). -/
def requestOutcome : HttpResult → Except String String
  | .failed e => .error ("failed to execute request: " ++ e)
  | .unreadable _ e => .error ("failed to read response: " ++ e)
  | .response status respBody =>
    if status < 200 ∨ status ≥ 300 then
      .error ("API error (status " ++ FormatInt status ++ "): " ++ respBody)
    else .ok respBody

/-! ## Sample states of the world -/

/-- A token as the token endpoint answers it: valid for 3600 seconds; the
`expires_at` it carries is the zero time. -/
def sampleToken : OAuthToken :=
  { AccessToken := "tok_1", RefreshToken := "", TokenType := "Bearer", ExpiresIn := 3600,
    ExpiresAt := ⟨0, 0⟩, Scope := "" }

/-- A configuration file with OAuth enabled and a stored token that expires
3600 seconds after the instant 1000 s. -/
def sampleDoc : ConfigDoc :=
  { api_endpoint := some "https://api.proof.com", timeout := some (30 * Second),
    oauth := some { Enabled := true, ClientID := "id", ClientSecret := "secret", Scope := "" },
    api_key := none,
    oauth_token := some { sampleToken with AccessToken := "tok_0", ExpiresAt := ⟨4600 * Second, 0⟩ } }

/-- A world whose clock reads 1000 s, 1001 s, ... and whose server answers the
given status with the body `token-body` to every request; `json.Unmarshal`
decodes that body to `sampleToken` and rejects every other body. -/
def sampleWorld (status : Int) : World where
  home := true
  readable := true
  writable := true
  oserr := "permission denied"
  file := .present (.doc sampleDoc)
  envAPIKey := ""
  clock := fun n => ⟨(1000 + (n : Int)) * Second, 0⟩
  tick := 0
  server := fun _ _ => .response status "token-body"
  sent := []
  urlParses := fun _ => true
  jsonToken := fun body => if body = "token-body" then .ok sampleToken else .error "invalid character"

/-- The client that `NewProofClient` builds in `sampleWorld`. -/
def sampleClient : ProofClient :=
  { config := unmarshalConfig sampleDoc defaultConfig, timeout := 30 * Second, apiKey := "",
    oauthToken := none }

/-- The token request that `sampleClient` sends. -/
def sampleTokenRequest : HttpRequest :=
  { Method := "POST", URL := "https://api.proof.com/oauth/v2/token",
    Body := some "grant_type=client_credentials",
    Header := [("Accept", ["application/json"]), ("Authorization", ["Basic aWQ6c2VjcmV0"]),
      ("Content-Type", ["application/x-www-form-urlencoded"])],
    Timeout := 30 * Second }

/-- The world of `sampleWorld 200` at the reading 4400 s of the clock: the
stored token, which expires at 4600 s, is within the five-minute buffer. -/
def expiredWorld : World :=
  { sampleWorld 200 with tick := 3400 }

/-- The world `expiredWorld` with `http.NewRequest` rejecting the URL whose
path ends in the invalid escape `%zz`. -/
def badURLWorld : World :=
  { expiredWorld with urlParses := fun u => !(u == "https://api.proof.com/v1/transactions/%zz") }

/-- A client whose configuration has OAuth enabled with an empty client secret,
as `proof config set-oauth id ""` leaves it. -/
def noSecretClient : ProofClient :=
  { sampleClient with
    config := { sampleClient.config with
      OAuth := some { Enabled := true, ClientID := "id", ClientSecret := "", Scope := "" } } }

/-- A client whose configuration has no OAuth section. -/
def noOAuthClient : ProofClient :=
  { sampleClient with config := { sampleClient.config with OAuth := none }, apiKey := "key_1" }

/-- The prepared token request of `sampleClient`. -/
def sampleOAuthRequest : OAuthRequest :=
  { URL := "https://api.proof.com/oauth/v2/token", FormData := "grant_type=client_credentials",
    Headers := [("Accept", "application/json"), ("Authorization", "Basic aWQ6c2VjcmV0"),
      ("Content-Type", "application/x-www-form-urlencoded")] }

/-- The world of `sampleWorld 200` with `PROOF_API_KEY=abc` and no
configuration file yet. -/
def envWorld : World :=
  { sampleWorld 200 with envAPIKey := "abc", file := .noFile }

/-- The world of `sampleWorld 200` with the clock in a zone 19815 seconds east
of UTC (5 h 30 min 15 s). -/
def oddZoneWorld : World :=
  { sampleWorld 200 with clock := fun n => ⟨(1000 + (n : Int)) * Second, 19815⟩ }

/-- The world of `sampleWorld 200` before any configuration file exists. -/
def freshWorld : World :=
  { sampleWorld 200 with file := .noFile }

/-- The document that `LoadConfig` writes when there is no configuration file:
the default configuration. -/
def defaultDoc : ConfigDoc :=
  { api_endpoint := some "https://api.proof.com", timeout := some (30 * Second), oauth := none,
    api_key := none, oauth_token := none }

/-! ## cmd/config.go: the commands that write the configuration -/

/-- The `Run` function of `configSetOAuthCmd` (`proof config set-oauth
<client-id> <client-secret>`, with the value of the flag `--scope`): `some` of
the error line it prints before `os.Exit(1)`, `none` when it returns. The lines
it prints on success are left out. -/
def configSetOAuthCmd (clientID clientSecret scope : String) (w : World) : Option String × World :=
  match LoadConfig w with
  | (.error e, w1) => (some ("Error loading config: " ++ e), w1)
  | (.ok config, w1) =>
    let oauth : OAuthConfig :=
      match config.OAuth with
      | none => { Enabled := false, ClientID := "", ClientSecret := "", Scope := "" }
      | some o => o
    let oauth := { oauth with Enabled := true }
    let oauth := { oauth with ClientID := clientID }
    let oauth := { oauth with ClientSecret := clientSecret }
    let oauth := { oauth with Scope := scope }
    match SaveConfig { config with OAuth := some oauth } w1 with
    | (some e, w2) => (some ("Error saving config: " ++ e), w2)
    | (none, w2) => (none, w2)

/-- The `Run` function of `configDisableOAuthCmd` (`proof config
disable-oauth`): `some` of the error line it prints before `os.Exit(1)`, `none`
when it returns. -/
def configDisableOAuthCmd (w : World) : Option String × World :=
  match LoadConfig w with
  | (.error e, w1) => (some ("Error loading config: " ++ e), w1)
  | (.ok config, w1) =>
    let config : Config :=
      match config.OAuth with
      | some o => { config with OAuth := some { o with Enabled := false } }
      | none => config
    match SaveConfig config w1 with
    | (some e, w2) => (some ("Error saving config: " ++ e), w2)
    | (none, w2) => (none, w2)

/-! ## client.go: the verbs -/

/-- Go `(c *ProofClient).Get(path, opts...)`. -/
def ProofClient.Get (c : ProofClient) (path : String) (opts : List (Option RequestOptions))
    (w : World) : Except String String × World :=
  c.Request "GET" path none opts w

/-! ## real_estate/documents.go: the upload of a file -/

/-- Go `TransactionsEndpoint` of the package `real_estate`. -/
def TransactionsEndpoint : String := "/mortgage/v2/transactions"

/-- Go `AddDocumentRequest`. -/
structure AddDocumentRequest where
  File : String
  FileName : String
  ExternalID : String
  DocumentType : String
  Tags : List String
  deriving DecidableEq, Repr

/-- What `os.Open`, `file.Stat` and `io.Copy` meet at a path; `size` is the
size that `Stat` reports, an `int64`. -/
inductive UploadFile where
  | openFails (err : String)
  | statFails (err : String)
  | copyFails (size : Int) (err : String)
  | readable (size : Int) (content : String)
  deriving DecidableEq, Repr

/-- What `AddDocument` uses besides the configuration and the network: the
files, `filepath.Base`, the boundary that `multipart.NewWriter` draws, the
bytes that the multipart writer has written when it is closed (for its
boundary, the name and the content of the file part, and the fields written
after it, in order), and `json.Marshal` of a slice of strings. -/
structure UploadEnv where
  file : String → UploadFile
  base : String → String
  boundary : String
  form : String → String → String → List (String × String) → String
  jsonTags : List String → String

/-- The timeout of the HTTP client of `AddDocument` (documents.go, line 158),
`time.Duration(fileInfo.Size()/1024/10+30) * time.Second`: the divisions are
those of `int64`, the product is one of 64-bit integers, which wraps. -/
def uploadTimeout (size : Int) : Duration :=
  wrapInt64 ((Int.tdiv (Int.tdiv size 1024) 10 + 30) * Second)

/-- The fields that `AddDocument` writes after the file (documents.go, lines
121-132). -/
def uploadFields (env : UploadEnv) (request : Option AddDocumentRequest) : List (String × String) :=
  match request with
  | none => []
  | some request =>
    (if request.ExternalID ≠ "" then [("external_id", request.ExternalID)] else []) ++
    (if request.DocumentType ≠ "" then [("document_type", request.DocumentType)] else []) ++
    (if request.Tags.length > 0 then [("tags", env.jsonTags request.Tags)] else [])

/-- Go `AddDocument(client, transactionID, filePath, request)`. The writer
writes to a buffer in memory, so `CreateFormFile` and `writer.Close` do not
fail. When the status is neither 200 nor 201 and the body cannot be read, the
bytes read before the failure are taken to be none. -/
def AddDocument (env : UploadEnv) (_client : ProofClient) (transactionID filePath : String)
    (request : Option AddDocumentRequest) (w : World) : Except String String × World :=
  match LoadConfig w with
  | (.error e, w1) => (.error ("failed to load config: " ++ e), w1)
  | (.ok config, w1) =>
    let endpoint := config.APIEndpoint ++ TransactionsEndpoint ++ "/" ++ transactionID ++ "/documents"
    match env.file filePath with
    | .openFails e => (.error ("failed to open file: " ++ e), w1)
    | .statFails e => (.error ("failed to get file info: " ++ e), w1)
    | .copyFails _ e => (.error ("failed to copy file: " ++ e), w1)
    | .readable size content =>
      let fileName :=
        match request with
        | some r => if r.FileName ≠ "" then r.FileName else env.base filePath
        | none => env.base filePath
      let requestBody := env.form env.boundary fileName content (uploadFields env request)
      match newRequest w1 "POST" endpoint (some requestBody) with
      | .error e => (.error ("failed to create request: " ++ e), w1)
      | .ok req =>
        match GetAPIKey w1 with
        | (.error e, w2) => (.error ("failed to get API key: " ++ e), w2)
        | (.ok apiKey, w2) =>
          let header := Header.Set req.Header "ApiKey" apiKey
          let header := Header.Set header "Content-Type"
            ("multipart/form-data; boundary=" ++ env.boundary)
          match httpDo w2 (uploadTimeout size) { req with Header := header } with
          | (.failed e, w3) => (.error ("failed to send request: " ++ e), w3)
          | (.unreadable status e, w3) =>
            if status ≠ 200 ∧ status ≠ 201 then
              (.error ("API request failed with status " ++ FormatInt status ++ ": "), w3)
            else (.error ("failed to read response body: " ++ e), w3)
          | (.response status respBody, w3) =>
            if status ≠ 200 ∧ status ≠ 201 then
              (.error ("API request failed with status " ++ FormatInt status ++ ": " ++ respBody), w3)
            else (.ok respBody, w3)

/-- The request that `AddDocument` hands to `httpClient.Do` for a file of the
given size and content, with the API key `apiKey` (documents.go, lines
141-159). -/
def uploadRequest (env : UploadEnv) (config : Config) (transactionID filePath : String)
    (request : Option AddDocumentRequest) (size : Int) (content apiKey : String) : HttpRequest :=
  { Method := "POST",
    URL := config.APIEndpoint ++ TransactionsEndpoint ++ "/" ++ transactionID ++ "/documents",
    Body := some (env.form env.boundary
      (match request with
        | some r => if r.FileName ≠ "" then r.FileName else env.base filePath
        | none => env.base filePath) content (uploadFields env request)),
    Header := Header.Set (Header.Set [] "ApiKey" apiKey) "Content-Type"
      ("multipart/form-data; boundary=" ++ env.boundary),
    Timeout := uploadTimeout size }

/-! ## cmd/scim.go: the operations of the patch command -/

/-- The loop of `strings.SplitN` (`genSplit`) for a one-character separator:
at most `n` more cuts, each at the first separator of what is left; the rest
is the last piece. -/
def splitLoop (sep : Char) : Nat → List Char → List (List Char)
  | 0, s => [s]
  | n + 1, s =>
    if sep ∈ s then
      s.takeWhile (fun c => c ≠ sep) :: splitLoop sep n ((s.dropWhile (fun c => c ≠ sep)).drop 1)
    else [s]

/-- Go `strings.SplitN(s, sep, n)` for a one-character ASCII separator and
`n ≥ 0`: at most `n` pieces, the last one the unsplit rest. -/
def SplitN (s : String) (sep : Char) (n : Nat) : List String :=
  if n = 0 then []
  else
    let n := if n > (bytesOf s).length + 1 then (bytesOf s).length + 1 else n
    (splitLoop sep (n - 1) s.data).map String.mk

/-- A Go value of type `any` as the patch command holds one: what
`json.Unmarshal` decodes into an `interface{}` (nil for `null`, a `bool`, a
`float64`, a `string`, a slice or a map), or a Go string. -/
inductive Any where
  | nil
  | bool (b : Bool)
  | float64 (bits : Nat)
  | string (s : String)
  | slice (elems : List Any)
  | map (entries : List (String × Any))

/-- Go `scim.PatchOperation`; the zero value of `Value` is nil. -/
structure PatchOperation where
  Op : String
  Path : String
  Value : Any

/-- One iteration of the loop of `scimPatchUserCmd` (scim.go, lines 246-272):
the operation parsed from the string `op`, or the line printed before
`os.Exit(1)`. The argument `unmarshal` is `json.Unmarshal` into an
`interface{}`. -/
def patchOperation (unmarshal : String → Except String Any) (op : String) :
    Except String PatchOperation :=
  let parts := SplitN op ':' 3
  if parts.length < 2 then
    .error ("Error: invalid operation format: " ++ op ++ ". Expected format: op:path[:value]")
  else
    let patchOp : PatchOperation := { Op := parts.getD 0 "", Path := parts.getD 1 "", Value := .nil }
    if parts.length = 3 then
      let value := parts.getD 2 ""
      match unmarshal value with
      | .ok jsonValue => .ok { patchOp with Value := jsonValue }
      | .error _ => .ok { patchOp with Value := .string value }
    else .ok patchOp

/-- The operations that `scimPatchUserCmd` builds from `operations`, the slice
of strings that `GetStringSlice("operation")` returns (scim.go, lines 240-272),
or the line printed before `os.Exit(1)`: the loop stops at the first string it
cannot parse. -/
def patchOperations (unmarshal : String → Except String Any) (operations : List String) :
    Except String (List PatchOperation) :=
  if operations.length = 0 then
    .error "Error: at least one operation is required. Use --operation flag"
  else
    operations.foldl (fun acc op =>
      match acc with
      | .error e => .error e
      | .ok patchOps =>
        match patchOperation unmarshal op with
        | .error e => .error e
        | .ok patchOp => .ok (patchOps ++ [patchOp])) (.ok [])

/-! ## spf13/pflag: the flag `--operation`, a `StringSlice` -/

/-- The loop `parseField` of `(*csv.Reader).readRecord` on a line that holds no
double quote: the fields of the line, cut at every comma. `field` holds the
characters of the current field, last one first. -/
def csvFields : List Char → List Char → List String
  | field, [] => [String.mk field.reverse]
  | field, c :: line =>
    if c = ',' then String.mk field.reverse :: csvFields [] line
    else csvFields (c :: field) line

/-- Go `readAsCSV(val)` of pflag, that is `csv.NewReader(val).Read()`, for an
argument that holds no double quote, carriage return or line feed: its one
record, cut at the commas. Arguments that hold one of those characters are
not covered: `none`. -/
def readAsCSV (val : String) : Option (List String) :=
  if val = "" then some []
  else if val.data.any (fun c => c = '"' ∨ c = '\r' ∨ c = '\n') then none
  else some (csvFields [] val.data)

/-- Go `unicode.IsSpace(r)`. -/
def isSpace (r : Char) : Bool :=
  let n := r.toNat
  (9 ≤ n && n ≤ 13) || n == 32 || n == 133 || n == 160 || n == 5760 ||
    (8192 ≤ n && n ≤ 8202) || n == 8232 || n == 8233 || n == 8239 || n == 8287 || n == 12288

/-- Go `(*csv.Writer).fieldNeedsQuotes(field)` with the comma as separator. -/
def fieldNeedsQuotes (field : String) : Bool :=
  if field = "" then false
  else if field = "\\." then true
  else if field.data.any (fun c => c = '\n' ∨ c = '\r' ∨ c = '"' ∨ c = ',') then true
  else
    match field.data with
    | [] => false
    | r1 :: _ => isSpace r1

/-- Go `writeAsCSV(vals)` of pflag for values of which none needs quotes: the
values joined by commas. Values that need quotes are not covered: `none`. -/
def writeAsCSV (vals : List String) : Option String :=
  if vals.any fieldNeedsQuotes then none else some (String.intercalate "," vals)

/-- Go `stringSliceValue` of pflag. -/
structure StringSliceValue where
  value : List String
  changed : Bool
  deriving DecidableEq, Repr

/-- Go `(s *stringSliceValue).Set(val)`: the first argument replaces the
default, the later ones are appended. -/
def StringSliceValue.Set (s : StringSliceValue) (val : String) : Option StringSliceValue :=
  match readAsCSV val with
  | none => none
  | some rv => some { value := if !s.changed then rv else s.value ++ rv, changed := true }

/-- Go `(s *stringSliceValue).String()`. -/
def StringSliceValue.String (s : StringSliceValue) : Option String :=
  match writeAsCSV s.value with
  | none => none
  | some str => some ("[" ++ str ++ "]")

/-- Go `stringSliceConv(sval)` of pflag. -/
def stringSliceConv (sval : String) : Option (List String) :=
  let sval := String.mk ((sval.data.drop 1).dropLast)
  if sval.length = 0 then some [] else readAsCSV sval

/-- Go `cmd.Flags().GetStringSlice("operation")` in `scimPatchUserCmd`
(scim.go, lines 238 and 430) when the command line gave `--operation` the
arguments `args`, in this order: the flag, whose default is the empty slice,
is set with each argument, and `GetStringSlice` reads back the text that
`String()` gives of it. `none` where `readAsCSV` or `writeAsCSV` is not
covered. -/
def operationFlag (args : List String) : Option (List String) :=
  match args.foldl (fun (s : Option StringSliceValue) val => s.bind (fun s => s.Set val))
      (some { value := [], changed := false }) with
  | none => none
  | some s =>
    match s.String with
    | none => none
    | some sval => stringSliceConv sval

/-! ## business/notarization_records.go -/

/-- Go `DocumentURLVersion` of the package `business`. -/
def DocumentURLVersion : String := "v2"

/-- Go `NotarizationRecordsEndpoint`. -/
def NotarizationRecordsEndpoint : String := "/v1/notarization_records"

/-- Go `GetNotarizationRecordsParams`, as `reflect` sees a value of it. -/
def GetNotarizationRecordsParams (limit offset : Int) (documentURLVersion : String) : List Field :=
  [ ⟨"Limit", true, "limit,omitempty", .int limit⟩,
    ⟨"Offset", true, "offset,omitempty", .int offset⟩,
    ⟨"DocumentURLVersion", true, "document_url_version,omitempty", .string documentURLVersion⟩ ]

/-- Go `GetNotarizationRecordParams`, as `reflect` sees a value of it. -/
def GetNotarizationRecordParams (documentURLVersion : String) : List Field :=
  [ ⟨"DocumentURLVersion", true, "document_url_version,omitempty", .string documentURLVersion⟩ ]

/-- Go `GetNotarizationRecords(client, params)`. -/
def GetNotarizationRecords (client : ProofClient) (params : Params) (w : World) :
    Except String String × World :=
  let queryParams := BuildQueryParams params
  let queryParams := Values.Set queryParams "document_url_version" DocumentURLVersion
  let path := NotarizationRecordsEndpoint
  let path := path ++ "?" ++ Values.Encode queryParams
  client.Get path [] w

/-- Go `GetNotarizationRecord(client, recordID, params)`. -/
def GetNotarizationRecord (client : ProofClient) (recordID : String) (params : Params) (w : World) :
    Except String String × World :=
  let queryParams := BuildQueryParams params
  let queryParams := Values.Set queryParams "document_url_version" DocumentURLVersion
  let path := NotarizationRecordsEndpoint ++ "/" ++ recordID
  let path := path ++ "?" ++ Values.Encode queryParams
  client.Get path [] w

/-- What `AddDocument` returns for the outcome of `httpClient.Do` and of the
reading of the body (documents.go, lines 162-180). -/
def uploadOutcome : HttpResult → Except String String
  | .failed e => .error ("failed to send request: " ++ e)
  | .unreadable status e =>
    if status ≠ 200 ∧ status ≠ 201 then
      .error ("API request failed with status " ++ FormatInt status ++ ": ")
    else .error ("failed to read response body: " ++ e)
  | .response status respBody =>
    if status ≠ 200 ∧ status ≠ 201 then
      .error ("API request failed with status " ++ FormatInt status ++ ": " ++ respBody)
    else .ok respBody

/-- A file system with the one file `deed.pdf` of 20480 bytes, and a writer
that draws the boundary `b0`; the body is laid out part by part. -/
def sampleUploadEnv : UploadEnv where
  file := fun path => if path = "deed.pdf" then .readable 20480 "%PDF-1.7" else .openFails "no such file"
  base := fun path => path
  boundary := "b0"
  form := fun boundary fileName content fields =>
    "--" ++ boundary ++ " file " ++ fileName ++ " " ++ content ++
      fields.foldl (fun acc kv => acc ++ "--" ++ boundary ++ " " ++ kv.1 ++ " " ++ kv.2) "" ++
      "--" ++ boundary ++ "--"
  jsonTags := fun tags => "[" ++ ",".intercalate (tags.map (fun t => "\"" ++ t ++ "\"")) ++ "]"

/-- The world of `sampleWorld` with `PROOF_API_KEY=abc`. -/
def uploadWorld (status : Int) : World :=
  { sampleWorld status with envAPIKey := "abc" }

/-- A stand-in for `json.Unmarshal` into an `interface{}` that knows the
documents `true`, `false` and `null` and rejects every other text. -/
def sampleUnmarshal (value : String) : Except String Any :=
  if value = "true" then .ok (.bool true)
  else if value = "false" then .ok (.bool false)
  else if value = "null" then .ok .nil
  else .error "invalid character"

/-! # Properties -/

/-! ## The order of strings -/

theorem char_eq_of_toNat_eq {a b : Char} (h : a.toNat = b.toNat) : a = b := by
  rw [← Char.ofNat_toNat a, ← Char.ofNat_toNat b, h]

theorem lessChars_irrefl (a : List Char) : lessChars a a = false := by
  induction a with
  | nil => rfl
  | cons c cs ih => simp [lessChars, ih]

theorem lessChars_asymm : ∀ (a b : List Char), lessChars a b = true → lessChars b a = false
  | _, [], h => by simp [lessChars] at h
  | [], _ :: _, _ => by simp [lessChars]
  | a :: as, b :: bs, h => by
    simp only [lessChars] at h ⊢
    by_cases h1 : a.toNat < b.toNat
    · have h2 : ¬ b.toNat < a.toNat := by omega
      simp [h1, h2]
    · by_cases h2 : b.toNat < a.toNat
      · simp [h1, h2] at h
      · simp only [h1, h2, if_false] at h ⊢
        exact lessChars_asymm as bs h

theorem lessChars_trans : ∀ (a b c : List Char), lessChars a b = true → lessChars b c = true →
    lessChars a c = true
  | _, _, [], _, h2 => by simp [lessChars] at h2
  | _, [], _ :: _, h1, _ => by simp [lessChars] at h1
  | [], _ :: _, _ :: _, _, _ => by simp [lessChars]
  | a :: as, b :: bs, c :: cs, h1, h2 => by
    simp only [lessChars] at h1 h2 ⊢
    by_cases hab : a.toNat < b.toNat
    · by_cases hbc : b.toNat < c.toNat
      · have : a.toNat < c.toNat := by omega
        simp [this]
      · by_cases hcb : c.toNat < b.toNat
        · simp [hbc, hcb] at h2
        · have : a.toNat < c.toNat := by omega
          simp [this]
    · by_cases hba : b.toNat < a.toNat
      · simp [hab, hba] at h1
      · simp only [hab, hba, if_false] at h1
        by_cases hbc : b.toNat < c.toNat
        · have : a.toNat < c.toNat := by omega
          simp [this]
        · by_cases hcb : c.toNat < b.toNat
          · simp [hbc, hcb] at h2
          · simp only [hbc, hcb, if_false] at h2
            have e1 : ¬ a.toNat < c.toNat := by omega
            have e2 : ¬ c.toNat < a.toNat := by omega
            simp only [e1, e2, if_false]
            exact lessChars_trans as bs cs h1 h2

theorem lessChars_total : ∀ (a b : List Char), lessChars a b = false → lessChars b a = false → a = b
  | [], [], _, _ => rfl
  | [], _ :: _, h, _ => by simp [lessChars] at h
  | _ :: _, [], _, h => by simp [lessChars] at h
  | a :: as, b :: bs, h1, h2 => by
    simp only [lessChars] at h1 h2
    by_cases hab : a.toNat < b.toNat
    · simp [hab] at h1
    · by_cases hba : b.toNat < a.toNat
      · simp [hba] at h2
      · simp only [hab, hba, if_false] at h1 h2
        have e : a = b := char_eq_of_toNat_eq (by omega)
        rw [e, lessChars_total as bs h1 h2]

theorem stringLess_irrefl (a : String) : stringLess a a = false :=
  lessChars_irrefl a.data

theorem stringLess_asymm {a b : String} (h : stringLess a b = true) : stringLess b a = false :=
  lessChars_asymm _ _ h

theorem stringLess_trans {a b c : String} (h1 : stringLess a b = true) (h2 : stringLess b c = true) :
    stringLess a c = true :=
  lessChars_trans _ _ _ h1 h2

theorem stringLess_total {a b : String} (h1 : stringLess a b = false) (h2 : a ≠ b) :
    stringLess b a = true := by
  by_contra h
  have h3 : stringLess b a = false := by simpa using h
  exact h2 (String.ext (lessChars_total _ _ h1 h3))

/-! ## url.Values -/

theorem mem_Set {q : Values} {k v : String} {e : String × List String}
    (h : e ∈ Values.Set q k v) : e = (k, [v]) ∨ e ∈ q := by
  induction q with
  | nil => simpa [Values.Set] using h
  | cons hd tl ih =>
    obtain ⟨k0, vs⟩ := hd
    simp only [Values.Set] at h
    split at h
    · simpa using h
    · split at h
      · rcases List.mem_cons.1 h with h | h
        · left; subst_vars; rfl
        · right; exact List.mem_cons_of_mem _ h
      · rcases List.mem_cons.1 h with h | h
        · right; rw [h]; exact List.mem_cons_self _ _
        · rcases ih h with h | h
          · left; exact h
          · right; exact List.mem_cons_of_mem _ h

theorem lookup_Set (q : Values) (k v k1 : String) :
    Values.lookup (Values.Set q k v) k1 = if k1 = k then [v] else Values.lookup q k1 := by
  induction q with
  | nil => simp [Values.Set, Values.lookup]
  | cons hd tl ih =>
    obtain ⟨k0, vs⟩ := hd
    simp only [Values.Set]
    split
    · simp [Values.lookup]
    · split
      · subst_vars
        by_cases h : k1 = k0 <;> simp [Values.lookup, h]
      · rename_i h1 h2
        by_cases h : k1 = k0
        · have : ¬ k1 = k := by rw [h]; exact fun e => h2 e.symm
          simp [Values.lookup, h, this]
          rw [← h]; simp [this]
        · simp [Values.lookup, h, ih]

theorem Set_ascending {q : Values} (k v : String) (h : Ascending q) : Ascending (Values.Set q k v) := by
  induction q with
  | nil => simp [Values.Set, Ascending]
  | cons hd tl ih =>
    obtain ⟨k0, vs⟩ := hd
    unfold Ascending at h ⊢
    rw [List.pairwise_cons] at h
    simp only [Values.Set]
    split
    · rename_i h1
      refine List.Pairwise.cons ?_ (List.Pairwise.cons h.1 h.2)
      intro e he
      rcases List.mem_cons.1 he with he | he
      · rw [he]; exact h1
      · exact stringLess_trans h1 (h.1 e he)
    · split
      · exact List.Pairwise.cons h.1 h.2
      · rename_i h1 h2
        refine List.Pairwise.cons ?_ (ih h.2)
        intro e he
        rcases mem_Set he with he | he
        · rw [he]; exact stringLess_total (by simpa using h1) h2
        · exact h.1 e he

/-! ## The query builder -/

theorem fieldStep_eq (q : Values) (f : Field) :
    fieldStep q f =
      match fieldPair f with
      | none => q
      | some (name, value) => Values.Set q name value := by
  have hdef : fieldStep q f =
      if !f.Exported then q
      else if f.Tag = "" ∨ f.Tag = "-" then q
      else if tagName f.Tag = "" then q
      else
        match f.Value with
        | .int value => if value > 0 then Values.Set q (tagName f.Tag) (FormatInt value) else q
        | .string value => if value ≠ "" then Values.Set q (tagName f.Tag) value else q
        | .ptr (some (.time timeVal)) => Values.Set q (tagName f.Tag) timeVal.FormatRFC3339
        | _ => q := rfl
  rw [hdef]
  unfold fieldPair paramName
  by_cases h1 : f.Exported = true
  · by_cases h2 : f.Tag = "" ∨ f.Tag = "-"
    · simp [h1, h2]
    · by_cases h3 : tagName f.Tag = ""
      · simp [h1, h2, h3]
      · simp only [h1, h2, h3, Bool.not_true, Bool.false_eq_true, if_false]
        cases f.Value with
        | int v => by_cases h : v > 0 <;> simp [renderValue, h]
        | string s => by_cases h : s = "" <;> simp [renderValue, h]
        | ptr target =>
          cases target with
          | none => simp [renderValue]
          | some pt => cases pt <;> simp [renderValue]
        | uint v => simp [renderValue]
        | bool b => simp [renderValue]
        | float x => simp [renderValue]
        | slice l => simp [renderValue]
        | other => simp [renderValue]
  · simp [h1]

theorem foldl_fieldStep_mem {fs : List Field} {q : Values} {e : String × List String}
    (h : e ∈ fs.foldl fieldStep q) :
    e ∈ q ∨ ∃ f ∈ fs, ∃ v, fieldPair f = some (e.1, v) ∧ e.2 = [v] := by
  induction fs generalizing q with
  | nil => left; simpa using h
  | cons f fs ih =>
    rw [List.foldl_cons] at h
    rcases ih h with h1 | ⟨g, hg, v, hv⟩
    · rw [fieldStep_eq] at h1
      split at h1
      · left; exact h1
      · rename_i name value hp
        rcases mem_Set h1 with h2 | h2
        · right
          refine ⟨f, List.mem_cons_self _ _, value, ?_, ?_⟩
          · rw [hp, h2]
          · rw [h2]
        · left; exact h2
    · right; exact ⟨g, List.mem_cons_of_mem _ hg, v, hv⟩

theorem paramName_some {f : Field} {k : String} (h : paramName f = some k) :
    f.Exported = true ∧ f.Tag ≠ "" ∧ f.Tag ≠ "-" ∧ tagName f.Tag = k ∧ k ≠ "" := by
  unfold paramName at h
  split_ifs at h with h1 h2 h3
  simp only [Option.some.injEq] at h
  refine ⟨by simpa using h1, fun e => h2 (Or.inl e), fun e => h2 (Or.inr e), h, ?_⟩
  rw [← h]; exact h3

theorem paramName_of_tag {f : Field} (h1 : f.Exported = true) (h2 : f.Tag ≠ "") (h3 : f.Tag ≠ "-")
    (h4 : tagName f.Tag ≠ "") : paramName f = some (tagName f.Tag) := by
  unfold paramName
  simp [h1, h2, h3, h4]

theorem renderValue_some {x : FieldValue} {v : String} (h : renderValue x = some v) :
    (∃ n, x = .int n ∧ 0 < n ∧ v = FormatInt n) ∨ (∃ s, x = .string s ∧ s ≠ "" ∧ v = s) ∨
      (∃ t, x = .ptr (some (.time t)) ∧ v = t.FormatRFC3339) := by
  unfold renderValue at h
  split at h
  · rename_i n
    split at h
    · rename_i hn
      left; exact ⟨n, rfl, hn, by simpa using h.symm⟩
    · simp at h
  · rename_i s
    split at h
    · rename_i hs
      right; left; exact ⟨s, rfl, hs, by simpa using h.symm⟩
    · simp at h
  · rename_i t
    right; right; exact ⟨t, rfl, by simpa using h.symm⟩
  · simp at h

theorem fieldPair_some {f : Field} {k v : String} (h : fieldPair f = some (k, v)) :
    paramName f = some k ∧ renderValue f.Value = some v := by
  unfold fieldPair at h
  split at h
  · simp at h
  · rename_i name hn
    split at h
    · simp at h
    · rename_i value hv
      simp only [Option.some.injEq, Prod.mk.injEq] at h
      rw [hn, hv, h.1, h.2]
      exact ⟨rfl, rfl⟩

theorem fieldPair_none_of_render {f : Field} (h : renderValue f.Value = none) : fieldPair f = none := by
  unfold fieldPair
  split
  · rfl
  · simp [h]

theorem fieldPair_none_of_name {f : Field} (h : paramName f = none) : fieldPair f = none := by
  unfold fieldPair
  simp [h]

theorem foldl_fieldStep_skip {f : Field} (h : fieldPair f = none) (pre post : List Field) (q : Values) :
    (pre ++ f :: post).foldl fieldStep q = (pre ++ post).foldl fieldStep q := by
  rw [List.foldl_append, List.foldl_append, List.foldl_cons]
  congr 1
  rw [fieldStep_eq]
  simp [h]

/-- C1. For a struct handed to `BuildQueryParams` by value or by pointer, every
entry of the output comes from a field that is exported, has a json tag that is
neither empty nor `-`, and holds an integer above zero, a non-empty string or a
non-nil pointer to a timestamp; and a field holding an integer that is zero or
negative, an empty string, a nil pointer, a bool, a float, a slice or a pointer
to something other than a timestamp, as well as an unexported or untagged
field, can be dropped from the struct without changing the output. -/
theorem buildQueryParams_only_present (fields : List Field) (p : Params)
    (hp : p = .struct fields ∨ p = .ptrStruct fields) :
    (∀ k vs, (k, vs) ∈ BuildQueryParams p →
      ∃ f ∈ fields, f.Exported = true ∧ f.Tag ≠ "" ∧ f.Tag ≠ "-" ∧ paramName f = some k ∧
        ((∃ n, f.Value = .int n ∧ 0 < n ∧ vs = [FormatInt n]) ∨
         (∃ s, f.Value = .string s ∧ s ≠ "" ∧ vs = [s]) ∨
         (∃ t, f.Value = .ptr (some (.time t)) ∧ vs = [t.FormatRFC3339]))) ∧
    (∀ pre f post, fields = pre ++ f :: post →
      ((∃ n, f.Value = .int n ∧ n ≤ 0) ∨ f.Value = .string "" ∨ f.Value = .ptr none ∨
        (∃ b, f.Value = .bool b) ∨ (∃ x, f.Value = .float x) ∨ (∃ l, f.Value = .slice l) ∨
        f.Value = .ptr (some .otherStruct) ∨ f.Value = .ptr (some .nonStruct) ∨
        f.Exported = false ∨ f.Tag = "" ∨ f.Tag = "-") →
      BuildQueryParams p = BuildQueryParams (.struct (pre ++ post))) := by
  have hb : BuildQueryParams p = fields.foldl fieldStep [] := by
    rcases hp with hp | hp <;> rw [hp] <;> rfl
  refine ⟨?_, ?_⟩
  · intro k vs hmem
    rw [hb] at hmem
    rcases foldl_fieldStep_mem hmem with h | ⟨f, hf, v, hv, hvs⟩
    · simp at h
    · obtain ⟨hn, hr⟩ := fieldPair_some hv
      obtain ⟨h1, h2, h3, _, _⟩ := paramName_some hn
      refine ⟨f, hf, h1, h2, h3, hn, ?_⟩
      simp only at hvs
      rcases renderValue_some hr with ⟨n, e1, e2, e3⟩ | ⟨s, e1, e2, e3⟩ | ⟨t, e1, e2⟩
      · left; exact ⟨n, e1, e2, by rw [hvs, e3]⟩
      · right; left; exact ⟨s, e1, e2, by rw [hvs, e3]⟩
      · right; right; exact ⟨t, e1, by rw [hvs, e2]⟩
  · intro pre f post hfields hskip
    have hnone : fieldPair f = none := by
      rcases hskip with ⟨n, e, hn⟩ | e | e | ⟨b, e⟩ | ⟨x, e⟩ | ⟨l, e⟩ | e | e | e | e | e
      · apply fieldPair_none_of_render; rw [e]; simp [renderValue]; omega
      · apply fieldPair_none_of_render; rw [e]; simp [renderValue]
      · apply fieldPair_none_of_render; rw [e]; simp [renderValue]
      · apply fieldPair_none_of_render; rw [e]; simp [renderValue]
      · apply fieldPair_none_of_render; rw [e]; simp [renderValue]
      · apply fieldPair_none_of_render; rw [e]; simp [renderValue]
      · apply fieldPair_none_of_render; rw [e]; simp [renderValue]
      · apply fieldPair_none_of_render; rw [e]; simp [renderValue]
      · apply fieldPair_none_of_name; simp [paramName, e]
      · apply fieldPair_none_of_name; simp [paramName, e]
      · apply fieldPair_none_of_name; simp [paramName, e]
    rw [hb, hfields]
    exact foldl_fieldStep_skip hnone pre post []

/-- Witness of C1 on `sampleParams`: the entry `limit=10` of the output comes
from an exported, tagged field holding the integer 10. -/
theorem buildQueryParams_only_present_witness :
    ∃ f ∈ sampleParams, f.Exported = true ∧ f.Tag ≠ "" ∧ f.Tag ≠ "-" ∧ paramName f = some "limit" ∧
        ((∃ n, f.Value = .int n ∧ 0 < n ∧ ["10"] = [FormatInt n]) ∨
         (∃ s, f.Value = .string s ∧ s ≠ "" ∧ ["10"] = [s]) ∨
         (∃ t, f.Value = .ptr (some (.time t)) ∧ ["10"] = [t.FormatRFC3339])) :=
  (buildQueryParams_only_present sampleParams (.struct sampleParams) (Or.inl rfl)).1 "limit" ["10"]
    (by decide)

/-! ### Decimal rendering and parsing -/

theorem digitVal_digitChar (d : Nat) (h : d < 10) : digitVal (digitChar d) = some d := by
  interval_cases d <;> rfl

theorem digitChar_not_sign (d : Nat) (h : d < 10) : digitChar d ≠ '+' ∧ digitChar d ≠ '-' := by
  interval_cases d <;> decide

theorem parseDigits_append (l1 l2 : List Char) (acc : Nat) :
    parseDigits acc (l1 ++ l2) = (parseDigits acc l1).bind (fun a => parseDigits a l2) := by
  induction l1 generalizing acc with
  | nil => rfl
  | cons c cs ih =>
    simp only [List.cons_append, parseDigits]
    cases digitVal c with
    | none => rfl
    | some d => exact ih _

theorem parseDigits_formatUintAux (fuel n : Nat) (h : n ≤ fuel) :
    parseDigits 0 (formatUintAux fuel n) = some n := by
  induction fuel generalizing n with
  | zero =>
    have : n = 0 := by omega
    subst this
    rfl
  | succ fuel ih =>
    unfold formatUintAux
    split
    · rename_i hlt
      simp [parseDigits, digitVal_digitChar n hlt]
    · rw [parseDigits_append, ih (n / 10) (by omega)]
      simp only [Option.some_bind, parseDigits, digitVal_digitChar (n % 10) (Nat.mod_lt _ (by decide))]
      congr 1
      omega

theorem formatUintAux_head (fuel n : Nat) :
    ∃ d cs, d < 10 ∧ formatUintAux fuel n = digitChar d :: cs := by
  induction fuel generalizing n with
  | zero => exact ⟨n % 10, [], Nat.mod_lt _ (by decide), rfl⟩
  | succ fuel ih =>
    unfold formatUintAux
    split
    · rename_i hlt
      exact ⟨n, [], hlt, rfl⟩
    · obtain ⟨d, cs, hd, e⟩ := ih (n / 10)
      exact ⟨d, cs ++ [digitChar (n % 10)], hd, by rw [e]; rfl⟩

theorem parseUint_formatUint (n : Nat) : parseUint (formatUint n) = some n := by
  obtain ⟨d, cs, _, e⟩ := formatUintAux_head n n
  have h := parseDigits_formatUintAux n n (Nat.le_refl n)
  unfold formatUint
  rw [e] at h ⊢
  exact h

/-- Parsing the decimal rendering of a 64-bit integer gives the integer back. -/
theorem parseInt_formatInt (n : Int) (h1 : -2 ^ 63 ≤ n) (h2 : n < 2 ^ 63) :
    ParseInt (FormatInt n) = some n := by
  unfold FormatInt
  by_cases hneg : n < 0
  · simp only [hneg, if_true, ParseInt]
    have e1 : ¬ ('-' = '+') := by decide
    simp only [e1, if_false, if_true, parseUint_formatUint]
    have e2 : n.natAbs ≤ 2 ^ 63 := by omega
    simp only [e2, if_true, Option.some.injEq]
    omega
  · simp only [hneg, if_false]
    obtain ⟨d, cs, hd, e⟩ := formatUintAux_head n.natAbs n.natAbs
    have hp := parseUint_formatUint n.natAbs
    unfold formatUint at hp
    unfold ParseInt formatUint
    simp only [e] at hp ⊢
    simp only [(digitChar_not_sign d hd).1, (digitChar_not_sign d hd).2, if_false, hp]
    have e2 : n.natAbs < 2 ^ 63 := by omega
    simp only [e2, if_true, Option.some.injEq]
    omega

/-! ### What the loop leaves in the map -/

theorem lookup_foldl_fieldStep_other {fs : List Field} {k : String}
    (h : ∀ g ∈ fs, paramName g ≠ some k) (q : Values) :
    Values.lookup (fs.foldl fieldStep q) k = Values.lookup q k := by
  induction fs generalizing q with
  | nil => rfl
  | cons g fs ih =>
    rw [List.foldl_cons, ih (fun x hx => h x (List.mem_cons_of_mem _ hx))]
    rw [fieldStep_eq]
    split
    · rfl
    · rename_i name value hp
      have hne : k ≠ name := by
        intro e
        apply h g (List.mem_cons_self _ _)
        rw [(fieldPair_some hp).1, e]
      rw [lookup_Set]
      simp [hne]

theorem lookup_foldl_fieldStep_last {pre post : List Field} {f : Field} {k v : String}
    (hf : fieldPair f = some (k, v)) (h : ∀ g ∈ post, paramName g ≠ some k) (q : Values) :
    Values.lookup ((pre ++ f :: post).foldl fieldStep q) k = [v] := by
  rw [List.foldl_append, List.foldl_cons, lookup_foldl_fieldStep_other h]
  rw [fieldStep_eq]
  rw [hf]
  simp only
  rw [lookup_Set]
  simp

theorem later_names_differ {pre post : List Field} {f : Field} {k : String}
    (hd : ((pre ++ f :: post).filterMap paramName).Nodup) (hf : paramName f = some k) :
    ∀ g ∈ post, paramName g ≠ some k := by
  rw [List.filterMap_append, List.filterMap_cons, hf] at hd
  have h2 := (List.nodup_append.1 hd).2.1
  rw [List.nodup_cons] at h2
  intro g hg e
  exact h2.1 (List.mem_filterMap.2 ⟨g, hg, e⟩)

theorem lookup_buildQueryParams {fields : List Field} {f : Field} {k v : String}
    (hd : (fields.filterMap paramName).Nodup) (hf : f ∈ fields) (hp : fieldPair f = some (k, v)) :
    Values.lookup (fields.foldl fieldStep []) k = [v] := by
  obtain ⟨pre, post, e⟩ := List.append_of_mem hf
  subst e
  exact lookup_foldl_fieldStep_last hp (later_names_differ hd (fieldPair_some hp).1) []

theorem fieldPair_of {f : Field} {k v : String} (h1 : paramName f = some k)
    (h2 : renderValue f.Value = some v) : fieldPair f = some (k, v) := by
  unfold fieldPair
  rw [h1]
  simp only
  rw [h2]

/-- The zone and the year in `Format(time.RFC3339)`: the sign of the zone is
that of the offset in whole minutes, so half a minute west of UTC prints
`+00:00`, and a year before 0 prints with a minus sign and four digits. -/
theorem formatRFC3339_examples :
    Time.FormatRFC3339 ⟨0, -30⟩ = "1969-12-31T23:59:30+00:00" ∧
    Time.FormatRFC3339 ⟨0, -90⟩ = "1969-12-31T23:58:30-00:01" ∧
    Time.FormatRFC3339 ⟨0, 19815⟩ = "1970-01-01T05:30:15+05:30" ∧
    Time.FormatRFC3339 ⟨-62198755200 * Second, 0⟩ = "-0001-01-01T00:00:00Z" := by
  refine ⟨?_, ?_, ?_, ?_⟩ <;> decide

/-- C2, the claim as stated fails: in `unnamedParams` the one field is
exported, carries a tag that is neither empty nor `-` and holds the integer 5,
yet the output is empty, and nothing stands under the part of the tag before
its first comma (the empty name). -/
theorem buildQueryParams_emits_counterexample :
    (unnamedParams.map (fun f => tagName f.Tag)).Nodup ∧
    (∀ f ∈ unnamedParams, f.Exported = true ∧ f.Tag ≠ "" ∧ f.Tag ≠ "-" ∧ f.Value = .int 5 ∧
      tagName f.Tag = "" ∧
      Values.lookup (BuildQueryParams (.struct unnamedParams)) (tagName f.Tag) ≠ [FormatInt 5]) ∧
    BuildQueryParams (.struct unnamedParams) = [] := by
  decide

/-- C2, amended. For a struct whose parameter names are pairwise distinct,
every exported field whose tag is neither empty nor `-` and whose name (the
part of the tag before the first comma) is not empty stands in the output of
`BuildQueryParams` under that name with exactly one value: the decimal
rendering of the integer when it holds an integer of a signed kind above zero,
the string itself when it holds a non-empty string, the RFC 3339 rendering when
it is a non-nil pointer to a timestamp. -/
theorem buildQueryParams_emits (fields : List Field) (p : Params)
    (hp : p = .struct fields ∨ p = .ptrStruct fields)
    (hd : (fields.filterMap paramName).Nodup) (f : Field) (hf : f ∈ fields)
    (he : f.Exported = true) (ht1 : f.Tag ≠ "") (ht2 : f.Tag ≠ "-") (hn : tagName f.Tag ≠ "") :
    (∀ n, f.Value = .int n → 0 < n →
      Values.lookup (BuildQueryParams p) (tagName f.Tag) = [FormatInt n]) ∧
    (∀ s, f.Value = .string s → s ≠ "" →
      Values.lookup (BuildQueryParams p) (tagName f.Tag) = [s]) ∧
    (∀ t, f.Value = .ptr (some (.time t)) →
      Values.lookup (BuildQueryParams p) (tagName f.Tag) = [t.FormatRFC3339]) := by
  have hb : BuildQueryParams p = fields.foldl fieldStep [] := by
    rcases hp with hp | hp <;> rw [hp] <;> rfl
  have hname := paramName_of_tag he ht1 ht2 hn
  rw [hb]
  refine ⟨?_, ?_, ?_⟩
  · intro n hv hpos
    exact lookup_buildQueryParams hd hf (fieldPair_of hname (by rw [hv]; simp [renderValue, hpos]))
  · intro s hv hs
    exact lookup_buildQueryParams hd hf (fieldPair_of hname (by rw [hv]; simp [renderValue, hs]))
  · intro t hv
    exact lookup_buildQueryParams hd hf (fieldPair_of hname (by rw [hv]; simp [renderValue]))

/-- Witness of C2 (amended) on `sampleParams`: the field `Limit` stands under
`limit` with the one value `10`, the field `OrganizationID` under
`organization_id` with `org_1`, and the field `CreatedDateStart` under
`created_date_start` with the RFC 3339 text of its time. -/
theorem buildQueryParams_emits_witness :
    Values.lookup (BuildQueryParams (.struct sampleParams)) "limit" = ["10"] ∧
    Values.lookup (BuildQueryParams (.struct sampleParams)) "organization_id" = ["org_1"] ∧
    Values.lookup (BuildQueryParams (.struct sampleParams)) "created_date_start" =
      ["2024-01-15T10:30:00Z"] :=
  ⟨(buildQueryParams_emits sampleParams (.struct sampleParams) (Or.inl rfl) (by decide)
      ⟨"Limit", true, "limit,omitempty", .int 10⟩ (by decide) rfl (by decide) (by decide)
      (by decide)).1 10 rfl (by decide),
    (buildQueryParams_emits sampleParams (.struct sampleParams) (Or.inl rfl) (by decide)
      ⟨"OrganizationID", true, "organization_id,omitempty", .string "org_1"⟩ (by decide) rfl
      (by decide) (by decide) (by decide)).2.1 "org_1" rfl (by decide),
    (buildQueryParams_emits sampleParams (.struct sampleParams) (Or.inl rfl) (by decide)
      ⟨"CreatedDateStart", true, "created_date_start,omitempty",
        .ptr (some (.time ⟨1705314600 * Second, 0⟩))⟩ (by decide) rfl (by decide) (by decide)
      (by decide)).2.2 ⟨1705314600 * Second, 0⟩ rfl⟩

/-! ### The order of the output -/

theorem foldl_fieldStep_ascending (fs : List Field) {q : Values} (h : Ascending q) :
    Ascending (fs.foldl fieldStep q) := by
  induction fs generalizing q with
  | nil => exact h
  | cons f fs ih =>
    rw [List.foldl_cons]
    apply ih
    rw [fieldStep_eq]
    split
    · exact h
    · exact Set_ascending _ _ h

theorem buildQueryParams_ascending (p : Params) : Ascending (BuildQueryParams p) := by
  cases p with
  | struct fields => exact foldl_fieldStep_ascending fields List.Pairwise.nil
  | ptrStruct fields => exact foldl_fieldStep_ascending fields List.Pairwise.nil
  | nil => exact List.Pairwise.nil
  | ptrNil => exact List.Pairwise.nil
  | ptrOther => exact List.Pairwise.nil
  | other => exact List.Pairwise.nil

theorem keys_of_ascending {v : Values} (h : Ascending v) : Values.keys v = v.map Prod.fst := by
  unfold Values.keys
  apply List.Sorted.insertionSort_eq
  unfold Ascending at h
  unfold List.Sorted
  rw [List.pairwise_map]
  exact h.imp (fun hab => stringLess_asymm hab)

theorem encodePair_next (buf k value : String) (h : 0 < buf.length) :
    encodePair buf k value = buf ++ "&" ++ QueryEscape k ++ "=" ++ QueryEscape value := by
  unfold encodePair
  simp only [gt_iff_lt, h, if_true]

theorem lookup_of_mem {q : Values} (h : Ascending q) {e : String × List String} (he : e ∈ q) :
    Values.lookup q e.1 = e.2 := by
  induction q with
  | nil => simp at he
  | cons x rest ih =>
    obtain ⟨k, vs⟩ := x
    unfold Ascending at h
    rw [List.pairwise_cons] at h
    rcases List.mem_cons.1 he with h1 | h1
    · rw [h1]
      simp [Values.lookup]
    · have hlt := h.1 e h1
      have hne : ¬ (e.1 = k) := by
        intro e1
        simp only at hlt
        rw [e1, stringLess_irrefl] at hlt
        exact Bool.false_ne_true hlt
      simp only [Values.lookup, hne, if_false]
      exact ih h.2 h1

theorem mem_of_lookup {q : Values} {k : String} {vs : List String}
    (h : Values.lookup q k = vs) (hne : vs ≠ []) : (k, vs) ∈ q := by
  induction q with
  | nil => exact absurd h.symm hne
  | cons x rest ih =>
    obtain ⟨k1, vs1⟩ := x
    simp only [Values.lookup] at h
    split_ifs at h with hk
    · rw [hk, h]
      exact List.mem_cons_self _ _
    · exact List.mem_cons_of_mem _ (ih h)

theorem foldl_lookup (q : Values) : ∀ (l : Values) (buf : String),
    (∀ e ∈ l, Values.lookup q e.1 = e.2) →
    (l.map Prod.fst).foldl
        (fun buf k => (Values.lookup q k).foldl (fun b value => encodePair b k value) buf) buf =
      l.foldl (fun buf e => e.2.foldl (fun b value => encodePair b e.1 value) buf) buf
  | [], _, _ => rfl
  | e :: l, buf, h => by
    rw [List.map_cons, List.foldl_cons, List.foldl_cons, h e (List.mem_cons_self _ _)]
    exact foldl_lookup q l _ (fun x hx => h x (List.mem_cons_of_mem _ hx))

theorem encodePair_empty (k v : String) :
    encodePair "" k v = QueryEscape k ++ "=" ++ QueryEscape v := by
  unfold encodePair
  have h : ¬ ("".length > 0) := by decide
  rw [if_neg h]
  apply String.ext
  simp [String.data_append]

theorem foldl_encodePair : ∀ (l : List (String × String)) (acc : String), 0 < acc.length →
    l.foldl (fun buf kv => encodePair buf kv.1 kv.2) acc =
      String.intercalate.go acc "&" (l.map (fun kv => QueryEscape kv.1 ++ "=" ++ QueryEscape kv.2))
  | [], _, _ => rfl
  | kv :: l, acc, h => by
    rw [List.foldl_cons, List.map_cons, String.intercalate.go, encodePair_next _ _ _ h]
    have e : acc ++ "&" ++ QueryEscape kv.1 ++ "=" ++ QueryEscape kv.2 =
        acc ++ "&" ++ (QueryEscape kv.1 ++ "=" ++ QueryEscape kv.2) := by
      apply String.ext
      simp [String.data_append]
    rw [e]
    apply foldl_encodePair
    simp only [String.length_append]
    omega

theorem encode_pairs (pairs : List (String × String))
    (h : pairs.Pairwise (fun a b => stringLess a.1 b.1 = true)) :
    Values.Encode (pairs.map (fun kv => (kv.1, [kv.2]))) =
      String.intercalate "&" (pairs.map (fun kv => QueryEscape kv.1 ++ "=" ++ QueryEscape kv.2)) := by
  have ha : Ascending (pairs.map (fun kv => (kv.1, [kv.2]))) := by
    unfold Ascending
    rw [List.pairwise_map]
    exact h
  unfold Values.Encode
  rw [keys_of_ascending ha, foldl_lookup _ _ _ (fun e he => lookup_of_mem ha he), List.foldl_map]
  simp only [List.foldl_cons, List.foldl_nil]
  cases pairs with
  | nil => rfl
  | cons kv l =>
    rw [List.foldl_cons, List.map_cons, String.intercalate, encodePair_empty]
    apply foldl_encodePair
    simp only [String.length_append]
    have : "=".length = 1 := by decide
    omega

theorem ascending_nodup {q : Values} (h : Ascending q) : q.Nodup := by
  unfold Ascending at h
  exact h.imp (fun {a b} hab e => by
    rw [e, stringLess_irrefl] at hab
    exact Bool.false_ne_true hab)

theorem ascending_ext {q1 q2 : Values} (h1 : Ascending q1) (h2 : Ascending q2)
    (h : ∀ e, e ∈ q1 ↔ e ∈ q2) : q1 = q2 := by
  have hp : q1.Perm q2 := (List.perm_ext_iff_of_nodup (ascending_nodup h1) (ascending_nodup h2)).2 h
  haveI : IsAntisymm (String × List String) (fun a b => stringLess a.1 b.1 = true) :=
    ⟨fun a b hab hba => by
      rw [stringLess_asymm hab] at hba
      exact absurd hba Bool.false_ne_true⟩
  exact List.eq_of_perm_of_sorted hp h1 h2

theorem mem_foldl_fieldStep {fields : List Field} (hd : (fields.filterMap paramName).Nodup)
    (e : String × List String) :
    e ∈ fields.foldl fieldStep [] ↔ ∃ v, e.2 = [v] ∧ (e.1, v) ∈ fields.filterMap fieldPair := by
  constructor
  · intro he
    rcases foldl_fieldStep_mem he with h | ⟨f, hf, v, hv, h2⟩
    · simp at h
    · exact ⟨v, h2, List.mem_filterMap.2 ⟨f, hf, hv⟩⟩
  · rintro ⟨v, h2, hm⟩
    obtain ⟨f, hf, hv⟩ := List.mem_filterMap.1 hm
    have hl := lookup_buildQueryParams hd hf hv
    have := mem_of_lookup hl (by simp)
    rw [← h2] at this
    exact this

theorem foldl_fieldStep_perm {fields fields2 : List Field} (hperm : fields2.Perm fields)
    (hd : (fields.filterMap paramName).Nodup) :
    fields2.foldl fieldStep [] = fields.foldl fieldStep [] := by
  have hd2 : (fields2.filterMap paramName).Nodup := (hperm.filterMap paramName).nodup_iff.2 hd
  apply ascending_ext (foldl_fieldStep_ascending fields2 List.Pairwise.nil)
    (foldl_fieldStep_ascending fields List.Pairwise.nil)
  intro e
  rw [mem_foldl_fieldStep hd2, mem_foldl_fieldStep hd]
  constructor
  · rintro ⟨v, h1, h2⟩
    exact ⟨v, h1, (hperm.filterMap fieldPair).mem_iff.1 h2⟩
  · rintro ⟨v, h1, h2⟩
    exact ⟨v, h1, (hperm.filterMap fieldPair).mem_iff.2 h2⟩

theorem foldl_fieldStep_pairs (fields : List Field) :
    fields.foldl fieldStep [] =
      ((fields.foldl fieldStep []).map (fun e => (e.1, e.2.headD ""))).map
        (fun kv => (kv.1, [kv.2])) := by
  rw [List.map_map]
  conv_lhs => rw [← List.map_id (fields.foldl fieldStep [])]
  apply List.map_congr_left
  intro e he
  rcases foldl_fieldStep_mem he with h | ⟨f, hf, v, hv, h2⟩
  · simp at h
  · obtain ⟨k, vs⟩ := e
    simp only at h2
    simp [h2]

/-- C3, the claim as stated fails: in `sampleParams` (a value of
`ListTransactionsParams`) the emitted fields are declared in the order limit,
organization_id, loan_number, created_date_start. The output is a map, which
has no order; `Encode` walks its keys in the order created_date_start, limit,
loan_number, organization_id, and that is the order of the pairs in the query
string: `organization_id` is declared before `loan_number` and comes after
it. -/
theorem buildQueryParams_order_counterexample :
    (sampleParams.filterMap fieldPair).map Prod.fst =
      ["limit", "organization_id", "loan_number", "created_date_start"] ∧
    Values.keys (BuildQueryParams (.struct sampleParams)) =
      ["created_date_start", "limit", "loan_number", "organization_id"] ∧
    Values.Encode (BuildQueryParams (.struct sampleParams)) =
      "created_date_start=2024-01-15T10%3A30%3A00Z&limit=10&loan_number=LN-7&organization_id=org_1" := by
  decide

/-- C3, amended. The output of `BuildQueryParams` is a map from name to values,
which has no order of its own. The query string that `Encode` builds from it
is the emitted pairs `name=value`, escaped and joined by `&`, in strictly
ascending order of name: `pairs` lists the entries of the map (each name with
its one value), which are the pairs that the fields set when the names are
pairwise distinct. So the declaration order leaves no trace: a struct with the
same fields declared in another order gives the same query string. -/
theorem buildQueryParams_sorted_by_name (fields : List Field) (p : Params)
    (hp : p = .struct fields ∨ p = .ptrStruct fields) :
    ∃ pairs : List (String × String),
      (∀ k v, (k, v) ∈ pairs ↔ Values.lookup (BuildQueryParams p) k = [v]) ∧
      ((fields.filterMap paramName).Nodup →
        ∀ kv, kv ∈ pairs ↔ kv ∈ fields.filterMap fieldPair) ∧
      pairs.Pairwise (fun a b => stringLess a.1 b.1 = true) ∧
      Values.Encode (BuildQueryParams p) =
        String.intercalate "&"
          (pairs.map (fun kv => QueryEscape kv.1 ++ "=" ++ QueryEscape kv.2)) ∧
      ∀ (fields2 : List Field) (p2 : Params), fields2.Perm fields →
        (p2 = .struct fields2 ∨ p2 = .ptrStruct fields2) → (fields.filterMap paramName).Nodup →
        Values.Encode (BuildQueryParams p2) = Values.Encode (BuildQueryParams p) := by
  have hb : BuildQueryParams p = fields.foldl fieldStep [] := by
    rcases hp with hp | hp <;> rw [hp] <;> rfl
  have hasc : Ascending (fields.foldl fieldStep []) :=
    foldl_fieldStep_ascending fields List.Pairwise.nil
  have hpw : ((fields.foldl fieldStep []).map (fun e => (e.1, e.2.headD ""))).Pairwise
      (fun a b => stringLess a.1 b.1 = true) := by
    rw [List.pairwise_map]
    exact hasc
  have hmem : ∀ k v, (k, v) ∈ (fields.foldl fieldStep []).map (fun e => (e.1, e.2.headD "")) ↔
      (k, [v]) ∈ fields.foldl fieldStep [] := by
    intro k v
    constructor
    · intro h
      obtain ⟨e, he, h1⟩ := List.mem_map.1 h
      rcases foldl_fieldStep_mem he with h0 | ⟨f, hf, v1, hv, h2⟩
      · simp at h0
      · obtain ⟨k1, vs⟩ := e
        simp only at h2
        simp only [h2, List.headD_cons, Prod.mk.injEq] at h1
        rw [← h1.1, ← h1.2, ← h2]
        exact he
    · intro h
      exact List.mem_map.2 ⟨(k, [v]), h, by simp⟩
  refine ⟨(fields.foldl fieldStep []).map (fun e => (e.1, e.2.headD "")), ?_, ?_, hpw, ?_, ?_⟩
  · intro k v
    rw [hb, hmem]
    constructor
    · intro h
      exact lookup_of_mem hasc h
    · intro h
      exact mem_of_lookup h (by simp)
  · intro hd kv
    obtain ⟨k, v⟩ := kv
    rw [hmem, mem_foldl_fieldStep hd]
    constructor
    · rintro ⟨v1, h1, h2⟩
      simp only [List.cons.injEq, and_true] at h1
      rw [h1]
      exact h2
    · intro h
      exact ⟨v, rfl, h⟩
  · rw [hb]
    conv_lhs => rw [foldl_fieldStep_pairs fields]
    exact encode_pairs _ hpw
  · intro fields2 p2 hperm hp2 hd
    have hb2 : BuildQueryParams p2 = fields2.foldl fieldStep [] := by
      rcases hp2 with hp2 | hp2 <;> rw [hp2] <;> rfl
    rw [hb, hb2, foldl_fieldStep_perm hperm hd]

/-- Witness of C3 (amended): `sampleParams` declared in the reverse order gives
the same query string. -/
theorem buildQueryParams_sorted_by_name_witness :
    Values.Encode (BuildQueryParams (.struct sampleParams.reverse)) =
      Values.Encode (BuildQueryParams (.struct sampleParams)) :=
  match buildQueryParams_sorted_by_name sampleParams (.struct sampleParams) (Or.inl rfl) with
  | ⟨_, _, _, _, _, h⟩ =>
    h sampleParams.reverse (.struct sampleParams.reverse) (List.reverse_perm _) (Or.inl rfl)
      (by decide)

/-- C4. For a struct with a field holding a positive integer `n` (of a 64-bit
kind at most), the value that the loop of `BuildQueryParams` sets for the field
parses as a decimal integer back to `n`; when the parameter names of the
struct are pairwise distinct, that value is the one value under the name of
the field in the output. -/
theorem buildQueryParams_int_roundtrip (fields : List Field) (p : Params)
    (hp : p = .struct fields ∨ p = .ptrStruct fields) (f : Field) (hf : f ∈ fields) (n : Int)
    (hv : f.Value = .int n) (hpos : 0 < n) (hmax : n < 2 ^ 63) :
    (∀ k v, fieldPair f = some (k, v) → ParseInt v = some n) ∧
    ((fields.filterMap paramName).Nodup → ∀ k, paramName f = some k →
      ∃ v, Values.lookup (BuildQueryParams p) k = [v] ∧ ParseInt v = some n) := by
  have hb : BuildQueryParams p = fields.foldl fieldStep [] := by
    rcases hp with hp | hp <;> rw [hp] <;> rfl
  have hr : renderValue f.Value = some (FormatInt n) := by rw [hv]; simp [renderValue, hpos]
  have hparse : ParseInt (FormatInt n) = some n := parseInt_formatInt n (by omega) hmax
  refine ⟨?_, ?_⟩
  · intro k v hkv
    have h2 := (fieldPair_some hkv).2
    rw [hr] at h2
    rw [← Option.some.inj h2]
    exact hparse
  · intro hd k hk
    refine ⟨FormatInt n, ?_, hparse⟩
    rw [hb]
    exact lookup_buildQueryParams hd hf (fieldPair_of hk hr)

/-- Witness of C4 on `sampleParams`: the value under `limit` parses back to 10. -/
theorem buildQueryParams_int_roundtrip_witness :
    ∃ v, Values.lookup (BuildQueryParams (.struct sampleParams)) "limit" = [v] ∧ ParseInt v = some 10 :=
  (buildQueryParams_int_roundtrip sampleParams (.struct sampleParams) (Or.inl rfl)
    ⟨"Limit", true, "limit,omitempty", .int 10⟩ (by decide) 10 rfl (by decide) (by decide)).2
    (by decide) "limit" (by decide)

/-! ## Token expiry -/

theorem isExpired_eq (t : OAuthToken) (w : World) :
    (t.IsExpired w).1 = decide (t.ExpiresAt.ns < (w.clock w.tick).ns + 300000000000) := by
  simp only [OAuthToken.IsExpired, timeNow, Time.After, Time.Add, Minute, Second]
  norm_num

/-- C5, the claim as stated fails: with the clock at 1000 s and a token expiring
at 1300 s, five minutes after the reading is not strictly before the expiry
(they are equal), so the claim wants `IsExpired` to return true; it returns
false. -/
theorem isExpired_boundary_counterexample :
    ((sampleWorld 200).clock (sampleWorld 200).tick).Add (5 * Minute) = ⟨1300 * Second, 0⟩ ∧
    Time.Before (((sampleWorld 200).clock (sampleWorld 200).tick).Add (5 * Minute))
      ⟨1300 * Second, 0⟩ = false ∧
    (OAuthToken.IsExpired { sampleToken with ExpiresAt := ⟨1300 * Second, 0⟩ } (sampleWorld 200)).1 =
      false := by
  decide

/-- C5, amended. For every token and every reading `now` of the clock,
`IsExpired` returns false exactly when `now` plus five minutes is at or before
`expires_at` (equality included), and returns true exactly when `now` plus five
minutes is strictly after `expires_at`. -/
theorem isExpired_iff (t : OAuthToken) (w : World) :
    ((t.IsExpired w).1 = false ↔ ((w.clock w.tick).Add (5 * Minute)).ns ≤ t.ExpiresAt.ns) ∧
    ((t.IsExpired w).1 = true ↔ t.ExpiresAt.ns < ((w.clock w.tick).Add (5 * Minute)).ns) := by
  simp only [OAuthToken.IsExpired, timeNow, Time.After, Time.Add]
  constructor
  · simp
  · simp

/-- C6. For every instant `t0`, a token whose `expires_at` is `t0` plus 3600 s
is not expired when `IsExpired` reads the clock at `t0`, and is expired when it
reads the clock at `t0` plus 3596 s or at any later time. -/
theorem isExpired_one_hour (t : OAuthToken) (t0 : Time) (w : World)
    (h : t.ExpiresAt = t0.Add (3600 * Second)) :
    (w.clock w.tick = t0 → (t.IsExpired w).1 = false) ∧
    ((t0.Add (3596 * Second)).ns ≤ (w.clock w.tick).ns → (t.IsExpired w).1 = true) := by
  rw [isExpired_eq, h]
  simp only [Time.Add, Second]
  constructor
  · intro e
    rw [e]
    simp
  · intro hle
    simp only [decide_eq_true_eq]
    omega

/-- Witness of C6: the token of `sampleWorld`, issued at 1000 s for 3600 s, is
not expired at 1000 s. -/
theorem isExpired_one_hour_witness :
    (OAuthToken.IsExpired { sampleToken with ExpiresAt := ⟨4600 * Second, 0⟩ } (sampleWorld 200)).1 =
      false :=
  (isExpired_one_hour { sampleToken with ExpiresAt := ⟨4600 * Second, 0⟩ } ⟨1000 * Second, 0⟩
    (sampleWorld 200) (by decide)).1 (by decide)

/-! ## Parsing the token response -/

theorem wrapInt64_of_range (x : Int) (h1 : -2 ^ 63 ≤ x) (h2 : x < 2 ^ 63) : wrapInt64 x = x := by
  unfold wrapInt64
  omega

theorem expiresInDuration_of_range (s : Int) (h1 : -9223372036 ≤ s) (h2 : s ≤ 9223372036) :
    expiresInDuration s = s * 1000000000 := by
  unfold expiresInDuration Second
  apply wrapInt64_of_range <;> omega

/-- C7, the claim as stated fails: a body whose `expires_in` is 9223372037
seconds is accepted, and the `expires_at` of the returned token is not the
clock reading plus that many seconds; the 64-bit duration has wrapped and the
time lies about 292 years before the reading. -/
theorem parseOAuthTokenResponse_counterexample :
    ∃ tok w1,
      ParseOAuthTokenResponse "token-body"
        { sampleWorld 200 with jsonToken := fun _ => .ok { sampleToken with ExpiresIn := 9223372037 } } =
        (.ok tok, w1) ∧
      tok.ExpiresIn = 9223372037 ∧
      tok.ExpiresAt.ns ≠ ((sampleWorld 200).clock 0).ns + 9223372037 * 1000000000 ∧
      tok.ExpiresAt.ns = ((sampleWorld 200).clock 0).ns - 9223372036709551616 := by
  refine ⟨_, _, rfl, ?_, ?_, ?_⟩ <;> decide

/-- C7, amended. For every response body that `ParseOAuthTokenResponse`
accepts with an `expires_in` between -9223372036 and 9223372036 seconds (the
range of a 64-bit duration), the returned token is the decoded one with its
`expires_at` replaced by the clock reading at parse time plus `expires_in`
seconds, whatever `expires_at` the body carried; a body that `json.Unmarshal`
rejects yields an error, no token, and an unchanged world. -/
theorem parseOAuthTokenResponse_expiresAt (body : String) (w : World) :
    (∀ tok w1, ParseOAuthTokenResponse body w = (.ok tok, w1) →
      -9223372036 ≤ tok.ExpiresIn → tok.ExpiresIn ≤ 9223372036 →
      tok.ExpiresAt = (w.clock w.tick).Add (tok.ExpiresIn * 1000000000) ∧
      ∃ decoded, w.jsonToken body = .ok decoded ∧
        tok = { decoded with ExpiresAt := (w.clock w.tick).Add (decoded.ExpiresIn * 1000000000) }) ∧
    (∀ e, w.jsonToken body = .error e →
      ParseOAuthTokenResponse body w = (.error ("error parsing OAuth token: " ++ e), w)) := by
  constructor
  · intro tok w1 h hlo hhi
    unfold ParseOAuthTokenResponse at h
    cases hj : w.jsonToken body with
    | error e => rw [hj] at h; simp at h
    | ok decoded =>
      rw [hj] at h
      simp only [timeNow, Prod.mk.injEq, Except.ok.injEq] at h
      obtain ⟨h1, _⟩ := h
      have hin : tok.ExpiresIn = decoded.ExpiresIn := by rw [← h1]
      rw [hin] at hlo hhi
      rw [expiresInDuration_of_range _ hlo hhi] at h1
      refine ⟨?_, decoded, rfl, h1.symm⟩
      rw [hin, ← h1]
  · intro e he
    unfold ParseOAuthTokenResponse
    rw [he]

/-- Witness of C7 (amended) on `sampleWorld`: the body decodes to a token that
carries the zero time as `expires_at`; the returned token expires at the
reading 1000 s plus 3600 s. -/
theorem parseOAuthTokenResponse_expiresAt_witness :
    ({ sampleToken with ExpiresAt := ⟨4600 * Second, 0⟩ } : OAuthToken).ExpiresAt =
        ((sampleWorld 200).clock (sampleWorld 200).tick).Add
          (({ sampleToken with ExpiresAt := ⟨4600 * Second, 0⟩ } : OAuthToken).ExpiresIn * 1000000000) ∧
      ∃ decoded, (sampleWorld 200).jsonToken "token-body" = .ok decoded ∧
        ({ sampleToken with ExpiresAt := ⟨4600 * Second, 0⟩ } : OAuthToken) =
          { decoded with ExpiresAt :=
            ((sampleWorld 200).clock (sampleWorld 200).tick).Add (decoded.ExpiresIn * 1000000000) } :=
  (parseOAuthTokenResponse_expiresAt "token-body" (sampleWorld 200)).1
    { sampleToken with ExpiresAt := ⟨4600 * Second, 0⟩ } { sampleWorld 200 with tick := 1 }
    (by rfl) (by decide) (by decide)

/-! ## base64 -/

theorem b64Val_b64Char (i : Nat) (h : i < 64) : b64Val (b64Char i) = some i := by
  interval_cases i <;> rfl

theorem b64Char_ne_pad (i : Nat) : b64Char i ≠ '=' := by
  by_cases h : i < 64
  · interval_cases i <;> decide
  · have h1 : ¬ i < 26 := by omega
    have h2 : ¬ i < 52 := by omega
    have h3 : ¬ i < 62 := by omega
    have h4 : ¬ i = 62 := by omega
    simp only [b64Char, h1, h2, h3, h4, if_false]
    decide

theorem base64Decode_encode : ∀ (bs : List Nat), (∀ b ∈ bs, b < 256) →
    base64Decode (base64Encode bs) = some bs
  | [], _ => rfl
  | [a], h => by
    have ha : a < 256 := h a (by simp)
    simp only [base64Encode, base64Decode, true_and, and_self, if_true]
    rw [b64Val_b64Char _ (by omega), b64Val_b64Char _ (by omega)]
    simp only
    have e : a % 4 * 16 % 16 = 0 := by omega
    simp only [e, if_true, Option.some.injEq, List.cons.injEq, and_true]
    omega
  | [a, b], h => by
    have ha : a < 256 := h a (by simp)
    have hb : b < 256 := h b (by simp)
    simp only [base64Encode, base64Decode, true_and, and_true, b64Char_ne_pad, false_and, if_false,
      if_true]
    rw [b64Val_b64Char _ (by omega), b64Val_b64Char _ (by omega), b64Val_b64Char _ (by omega)]
    simp only
    have e : b % 16 * 4 % 4 = 0 := by omega
    simp only [e, if_true, Option.some.injEq, List.cons.injEq, and_true]
    constructor <;> omega
  | a :: b :: c :: rest, h => by
    have ha : a < 256 := h a (by simp)
    have hb : b < 256 := h b (by simp)
    have hc : c < 256 := h c (by simp)
    have ih := base64Decode_encode rest (fun x hx => h x (by simp [hx]))
    simp only [base64Encode, base64Decode, b64Char_ne_pad, false_and, if_false]
    rw [b64Val_b64Char _ (by omega), b64Val_b64Char _ (by omega), b64Val_b64Char _ (by omega),
      b64Val_b64Char _ (by omega), ih]
    simp only [Option.some.injEq, List.cons.injEq, and_true]
    refine ⟨?_, ?_, ?_⟩ <;> omega

theorem char_toNat_lt (c : Char) : c.toNat < 1114112 := by
  have h := c.valid
  simp only [UInt32.isValidChar, Nat.isValidChar] at h
  unfold Char.toNat
  omega

theorem utf8Char_lt (c : Char) : ∀ b ∈ utf8Char c, b < 256 := by
  have h := char_toNat_lt c
  unfold utf8Char
  simp only
  split_ifs <;> simp <;> omega

theorem bytesOf_lt (s : String) : ∀ b ∈ bytesOf s, b < 256 := by
  intro b hb
  unfold bytesOf at hb
  rw [List.mem_flatMap] at hb
  obtain ⟨c, _, hc⟩ := hb
  exact utf8Char_lt c b hc

/-! ## The token request -/

theorem encode_grant_only :
    Values.Encode (Values.Set [] "grant_type" "client_credentials") = "grant_type=client_credentials" := by
  decide

theorem encode_grant_scope (scope : String) :
    Values.Encode (Values.Set (Values.Set [] "grant_type" "client_credentials") "scope" scope) =
      "grant_type=client_credentials&scope=" ++ QueryEscape scope := by
  have h1 : Values.Set (Values.Set [] "grant_type" "client_credentials") "scope" scope =
      [("grant_type", ["client_credentials"]), ("scope", [scope])] := by
    have e1 : stringLess "scope" "grant_type" = false := by decide
    have e2 : ¬ ("scope" = "grant_type") := by decide
    simp [Values.Set, e1, e2]
  have h2 : Values.keys [("grant_type", ["client_credentials"]), ("scope", [scope])] =
      ["grant_type", "scope"] := by
    apply keys_of_ascending
    unfold Ascending
    simp only [List.pairwise_cons, List.mem_singleton, forall_eq, List.not_mem_nil, false_implies,
      implies_true, List.Pairwise.nil, and_true]
    decide
  have e3 : ¬ ("scope" = "grant_type") := by decide
  have e4 : encodePair "" "grant_type" "client_credentials" = "grant_type=client_credentials" := by
    decide
  have e5 : ("grant_type=client_credentials".length > 0) := by decide
  have e6 : QueryEscape "scope" = "scope" := by decide
  rw [h1]
  unfold Values.Encode
  rw [h2]
  simp only [List.foldl_cons, List.foldl_nil, Values.lookup, if_true, e3, if_false, e4]
  unfold encodePair
  simp only [e5, if_true, e6]
  apply String.ext
  simp only [String.data_append]
  rfl

/-- C8. For every configuration with OAuth enabled and a non-empty client id and
client secret, `PrepareOAuthTokenRequest` returns a request whose URL is the
API endpoint followed by `/oauth/v2/token`, whose form body is
`grant_type=client_credentials` when the scope is empty and
`grant_type=client_credentials&scope=` followed by the form-encoded scope
otherwise, whose `Content-Type` is `application/x-www-form-urlencoded`, and
whose `Authorization` header is `Basic ` followed by the standard base64
encoding of `client_id:client_secret`; decoding that payload gives back the
bytes of `client_id:client_secret`. -/
theorem prepareOAuthTokenRequest_shape (config : Config) (oauth : OAuthConfig)
    (ho : config.OAuth = some oauth) (he : oauth.Enabled = true)
    (hid : oauth.ClientID ≠ "") (hsec : oauth.ClientSecret ≠ "") :
    ∃ req, PrepareOAuthTokenRequest config = .ok req ∧
      req.URL = config.APIEndpoint ++ "/oauth/v2/token" ∧
      (oauth.Scope = "" → req.FormData = "grant_type=client_credentials") ∧
      (oauth.Scope ≠ "" →
        req.FormData = "grant_type=client_credentials&scope=" ++ QueryEscape oauth.Scope) ∧
      req.Headers.lookup "Content-Type" = some "application/x-www-form-urlencoded" ∧
      req.Headers.lookup "Authorization" =
        some ("Basic " ++ String.mk (base64Encode (bytesOf (oauth.ClientID ++ ":" ++ oauth.ClientSecret)))) ∧
      base64Decode (base64Encode (bytesOf (oauth.ClientID ++ ":" ++ oauth.ClientSecret))) =
        some (bytesOf (oauth.ClientID ++ ":" ++ oauth.ClientSecret)) := by
  have hreq : PrepareOAuthTokenRequest config = .ok
      { URL := config.APIEndpoint ++ "/oauth/v2/token",
        FormData := Values.Encode
          (if oauth.Scope ≠ "" then
            Values.Set (Values.Set [] "grant_type" "client_credentials") "scope" oauth.Scope
          else Values.Set [] "grant_type" "client_credentials"),
        Headers := [("Accept", "application/json"),
          ("Authorization", "Basic " ++
            String.mk (base64Encode (bytesOf (oauth.ClientID ++ ":" ++ oauth.ClientSecret)))),
          ("Content-Type", "application/x-www-form-urlencoded")] } := by
    unfold PrepareOAuthTokenRequest
    rw [ho]
    simp only [he, Bool.not_true, Bool.false_eq_true, if_false, hid, hsec, or_self]
  refine ⟨_, hreq, rfl, ?_, ?_, rfl, rfl, base64Decode_encode _ (bytesOf_lt _)⟩
  · intro hs
    simp only [hs, ne_eq, not_true_eq_false, if_false]
    exact encode_grant_only
  · intro hs
    simp only [hs, ne_eq, not_false_eq_true, if_true]
    exact encode_grant_scope _

/-- Witness of C8 on the configuration of `sampleClient` (client id `id`,
secret `secret`, no scope). -/
theorem prepareOAuthTokenRequest_shape_witness :
    ∃ req, PrepareOAuthTokenRequest sampleClient.config = .ok req ∧
      req.URL = sampleClient.config.APIEndpoint ++ "/oauth/v2/token" ∧
      ("" = "" → req.FormData = "grant_type=client_credentials") ∧
      ("" ≠ "" → req.FormData = "grant_type=client_credentials&scope=" ++ QueryEscape "") ∧
      req.Headers.lookup "Content-Type" = some "application/x-www-form-urlencoded" ∧
      req.Headers.lookup "Authorization" =
        some ("Basic " ++ String.mk (base64Encode (bytesOf ("id" ++ ":" ++ "secret")))) ∧
      base64Decode (base64Encode (bytesOf ("id" ++ ":" ++ "secret"))) =
        some (bytesOf ("id" ++ ":" ++ "secret")) :=
  prepareOAuthTokenRequest_shape sampleClient.config
    { Enabled := true, ClientID := "id", ClientSecret := "secret", Scope := "" } rfl rfl
    (by decide) (by decide)

/-! ## Effects of the configuration functions -/

theorem loadConfig_frame (w : World) :
    ∃ f, (LoadConfig w).2 = { w with file := f } ∧ persistedToken f = persistedToken w.file := by
  rcases w with ⟨home, readable, writable, oserr, file, env, clock, tick, server, sent, urlParses, jsonToken⟩
  cases home
  · exact ⟨_, rfl, rfl⟩
  · cases file with
    | noDir => cases writable <;> exact ⟨_, rfl, rfl⟩
    | noFile => cases writable <;> exact ⟨_, rfl, rfl⟩
    | present content => cases readable <;> cases content <;> exact ⟨_, rfl, rfl⟩

theorem saveConfig_frame (config : Config) (w : World) :
    ∃ f, (SaveConfig config w).2 = { w with file := f } ∧
      (∀ e, (SaveConfig config w).1 = some e → persistedToken f = persistedToken w.file) := by
  rcases w with ⟨home, readable, writable, oserr, file, env, clock, tick, server, sent, urlParses, jsonToken⟩
  cases home
  · exact ⟨_, rfl, fun _ _ => rfl⟩
  · cases hm : marshalConfig config with
    | error e =>
      cases file with
      | noDir =>
        cases writable
        · exact ⟨_, rfl, fun _ _ => rfl⟩
        · refine ⟨.noFile, ?_, fun _ _ => rfl⟩
          simp [SaveConfig, hm]
      | noFile =>
        refine ⟨.noFile, ?_, fun _ _ => rfl⟩
        simp [SaveConfig, hm]
      | present content =>
        refine ⟨.present content, ?_, fun _ _ => rfl⟩
        simp [SaveConfig, hm]
    | ok d =>
      cases writable
      · cases file with
        | noDir => exact ⟨_, rfl, fun _ _ => rfl⟩
        | noFile =>
          refine ⟨.noFile, ?_, fun _ _ => rfl⟩
          simp [SaveConfig, hm]
        | present content =>
          refine ⟨.present content, ?_, fun _ _ => rfl⟩
          simp [SaveConfig, hm]
      · refine ⟨.present (.doc d), ?_, ?_⟩
        · cases file <;> simp [SaveConfig, hm]
        · intro e he
          cases file <;> simp [SaveConfig, hm] at he

/-! ## Effects of the token functions -/

theorem parse_frame (body : String) (w : World) :
    ∃ t, (ParseOAuthTokenResponse body w).2 = { w with tick := t } := by
  unfold ParseOAuthTokenResponse
  cases w.jsonToken body with
  | error e => exact ⟨w.tick, rfl⟩
  | ok token => exact ⟨w.tick + 1, rfl⟩

/-- The four ways `AuthenticateOAuth` ends: before any request is sent, or after
the one request `req`, by a transport failure, by a status other than 200, or
by the parsing of the body of a 200 response. -/
theorem authenticate_cases (c : ProofClient) (w : World) :
    (∃ e, c.AuthenticateOAuth w = (.error e, w)) ∨
    ∃ req,
      ((∃ e, c.AuthenticateOAuth w = (.error e, { w with sent := w.sent ++ [req] }) ∧
          ∀ status body, w.server w.sent req ≠ .response status body) ∨
       (∃ status body, w.server w.sent req = .response status body ∧ status ≠ 200 ∧
          c.AuthenticateOAuth w =
            (.error ("OAuth authentication failed (status " ++ FormatInt status ++ "): " ++ body),
              { w with sent := w.sent ++ [req] })) ∨
       (∃ body, w.server w.sent req = .response 200 body ∧
          c.AuthenticateOAuth w = ParseOAuthTokenResponse body { w with sent := w.sent ++ [req] })) := by
  unfold ProofClient.AuthenticateOAuth
  cases PrepareOAuthTokenRequest c.config with
  | error e => left; exact ⟨e, rfl⟩
  | ok req =>
    simp only
    cases newRequest w "POST" req.URL (some req.FormData) with
    | error e => left; exact ⟨_, rfl⟩
    | ok httpReq =>
      right
      simp only [httpDo]
      refine ⟨{ httpReq with
        Header := req.Headers.foldl (fun h kv => Header.Set h kv.1 kv.2) httpReq.Header,
        Timeout := c.timeout }, ?_⟩
      cases hs : w.server w.sent { httpReq with
        Header := req.Headers.foldl (fun h kv => Header.Set h kv.1 kv.2) httpReq.Header,
        Timeout := c.timeout } with
      | failed e =>
        left
        refine ⟨_, rfl, ?_⟩
        intro status body
        simp
      | unreadable st e =>
        left
        refine ⟨_, rfl, ?_⟩
        intro status body
        simp
      | response status body =>
        right
        by_cases h200 : status = 200
        · right
          subst h200
          refine ⟨body, rfl, ?_⟩
          simp only [ne_eq, not_true_eq_false, if_false]
          cases hp : ParseOAuthTokenResponse body { w with sent := w.sent ++ [_] } with
          | mk r w2 =>
            cases r <;> rfl
        · left
          refine ⟨status, body, rfl, h200, ?_⟩
          simp only [ne_eq, h200, not_false_eq_true, if_true]

theorem loadOAuthToken_world (w : World) : (LoadOAuthToken w).2 = (LoadConfig w).2 := by
  unfold LoadOAuthToken
  cases h : LoadConfig w with
  | mk r w1 =>
    cases r with
    | error e => rfl
    | ok config =>
      simp only
      cases config.OAuthToken <;> rfl

theorem loadOAuthToken_frame (w : World) :
    ∃ f, (LoadOAuthToken w).2 = { w with file := f } ∧ persistedToken f = persistedToken w.file := by
  rw [loadOAuthToken_world]
  exact loadConfig_frame w

theorem saveOAuthToken_frame (token : OAuthToken) (w : World) :
    ∃ f, (SaveOAuthToken token w).2 = { w with file := f } ∧
      (∀ e, (SaveOAuthToken token w).1 = some e → persistedToken f = persistedToken w.file) := by
  unfold SaveOAuthToken
  obtain ⟨f1, h1, p1⟩ := loadConfig_frame w
  cases h : LoadConfig w with
  | mk r w1 =>
    rw [h] at h1
    simp only at h1
    cases r with
    | error e => exact ⟨f1, h1, fun _ _ => p1⟩
    | ok config =>
      simp only
      obtain ⟨f2, h2, p2⟩ := saveConfig_frame { config with OAuthToken := some token } w1
      cases hs : SaveConfig { config with OAuthToken := some token } w1 with
      | mk r2 w2 =>
        rw [hs] at h2 p2
        simp only at h2 p2
        cases r2 with
        | some e =>
          refine ⟨f2, ?_, fun _ _ => ?_⟩
          · simp only [h2, h1]
          · rw [p2 e rfl, h1]
            exact p1
        | none =>
          refine ⟨f2, ?_, fun e he => ?_⟩
          · simp only [h2, h1]
          · simp at he

theorem shouldRefresh_frame (config : Config) (w : World) :
    ∃ f t, (ShouldRefreshToken config w).2 = { w with file := f, tick := t } ∧
      persistedToken f = persistedToken w.file := by
  unfold ShouldRefreshToken
  cases config.OAuth with
  | none => exact ⟨w.file, w.tick, rfl, rfl⟩
  | some oauth =>
    simp only
    cases oauth.Enabled with
    | false => exact ⟨w.file, w.tick, rfl, rfl⟩
    | true =>
      simp only [Bool.not_true, Bool.false_eq_true, if_false]
      obtain ⟨f1, h1, p1⟩ := loadOAuthToken_frame w
      cases h : LoadOAuthToken w with
      | mk r w1 =>
        rw [h] at h1
        simp only at h1
        cases r with
        | error e => exact ⟨f1, w.tick, h1, p1⟩
        | ok token =>
          simp only [OAuthToken.IsExpired, timeNow]
          refine ⟨f1, w.tick + 1, ?_, p1⟩
          cases ((w1.clock w1.tick).Add (5 * Minute)).After token.ExpiresAt <;> simp [h1]

/-- What `getValidOAuthToken` sends: nothing, or the one token request `req`;
and how it ends when the answer to that request is not a 200 response. -/
theorem getValid_cases (c : ProofClient) (w : World) :
    (c.getValidOAuthToken w).2.sent = w.sent ∨
    ∃ req, (c.getValidOAuthToken w).2.sent = w.sent ++ [req] ∧
      ((∀ status body, w.server w.sent req ≠ .response status body) ∨
       (∃ status body, w.server w.sent req = .response status body ∧ status ≠ 200 ∧
          (c.getValidOAuthToken w).1 = .error ("error getting OAuth token: " ++
            ("OAuth authentication failed (status " ++ FormatInt status ++ "): " ++ body)) ∧
          persistedToken (c.getValidOAuthToken w).2.file = persistedToken w.file) ∨
       (∃ body, w.server w.sent req = .response 200 body)) := by
  obtain ⟨f0, t0, h0, p0⟩ := shouldRefresh_frame c.config w
  unfold ProofClient.getValidOAuthToken
  cases hsr : ShouldRefreshToken c.config w with
  | mk r0 w0 =>
    rw [hsr] at h0
    simp only at h0
    have hsent : w0.sent = w.sent := by rw [h0]
    have hserver : w0.server = w.server := by rw [h0]
    have hfile : persistedToken w0.file = persistedToken w.file := by rw [h0]; exact p0
    clear h0
    cases r0 with
    | error e => left; exact hsent
    | ok b =>
      cases b with
      | false =>
        left
        obtain ⟨f1, h1, _⟩ := loadOAuthToken_frame w0
        simp only [h1, hsent]
      | true =>
        simp only
        rcases authenticate_cases c w0 with ⟨e, he⟩ | ⟨req, hc⟩
        · left; simp only [he, hsent]
        · right
          refine ⟨req, ?_⟩
          rcases hc with ⟨e, he, hne⟩ | ⟨status, body, hsv, hne, he⟩ | ⟨body, hsv, he⟩
          · rw [hsent, hserver] at hne
            exact ⟨by simp only [he, hsent], Or.inl hne⟩
          · rw [hsent, hserver] at hsv
            refine ⟨by simp only [he, hsent], Or.inr (Or.inl ⟨status, body, hsv, hne, ?_, ?_⟩)⟩
            · simp only [he]
            · simp only [he]
              exact hfile
          · rw [hsent, hserver] at hsv
            refine ⟨?_, Or.inr (Or.inr ⟨body, hsv⟩)⟩
            rw [he]
            obtain ⟨t2, h2⟩ := parse_frame body { w0 with sent := w0.sent ++ [req] }
            cases hp : ParseOAuthTokenResponse body { w0 with sent := w0.sent ++ [req] } with
            | mk r2 w2 =>
              rw [hp] at h2
              simp only at h2
              have hsent2 : w2.sent = w.sent ++ [req] := by rw [h2, ← hsent]
              clear h2
              cases r2 with
              | error e => exact hsent2
              | ok token =>
                simp only
                obtain ⟨f3, h3, _⟩ := saveOAuthToken_frame token w2
                cases hsv2 : SaveOAuthToken token w2 with
                | mk r3 w3 =>
                  rw [hsv2] at h3
                  simp only at h3
                  have hsent3 : w3.sent = w2.sent := by rw [h3]
                  cases r3 <;> simp only [hsent3, hsent2]

/-- C9. `AuthenticateOAuth` returns a token only after a request that the token
endpoint answered with status exactly 200. When the endpoint answers the token
request with any other status (201 or 204 as well), `AuthenticateOAuth` returns
the error `OAuth authentication failed (status N): body` with the status in
decimal and the body verbatim, having sent that one request and changed
nothing else; `getValidOAuthToken` then returns that error wrapped, leaves the
persisted token as it was, and in every case sends at most one token request. -/
theorem authenticateOAuth_status (c : ProofClient) (w : World) :
    (∀ tok w1, c.AuthenticateOAuth w = (.ok tok, w1) →
      ∃ req body, w1.sent = w.sent ++ [req] ∧ w.server w.sent req = .response 200 body) ∧
    (∀ req status body, (c.AuthenticateOAuth w).2.sent = w.sent ++ [req] →
      w.server w.sent req = .response status body → status ≠ 200 →
      c.AuthenticateOAuth w =
        (.error ("OAuth authentication failed (status " ++ FormatInt status ++ "): " ++ body),
          { w with sent := w.sent ++ [req] })) ∧
    (∀ req status body, (c.getValidOAuthToken w).2.sent = w.sent ++ [req] →
      w.server w.sent req = .response status body → status ≠ 200 →
      (c.getValidOAuthToken w).1 = .error ("error getting OAuth token: " ++
        ("OAuth authentication failed (status " ++ FormatInt status ++ "): " ++ body)) ∧
      persistedToken (c.getValidOAuthToken w).2.file = persistedToken w.file) ∧
    ((c.getValidOAuthToken w).2.sent = w.sent ∨
      ∃ req, (c.getValidOAuthToken w).2.sent = w.sent ++ [req]) := by
  refine ⟨?_, ?_, ?_, ?_⟩
  · intro tok w1 h
    rcases authenticate_cases c w with ⟨e, he⟩ | ⟨req, ⟨e, he, _⟩ | ⟨status, body, _, _, he⟩ | ⟨body, hsv, he⟩⟩
    · rw [he] at h; simp at h
    · rw [he] at h; simp at h
    · rw [he] at h; simp at h
    · refine ⟨req, body, ?_, hsv⟩
      obtain ⟨t, ht⟩ := parse_frame body { w with sent := w.sent ++ [req] }
      rw [← he, h] at ht
      simp only at ht
      rw [ht]
  · intro req status body hsent hsv hne
    rcases authenticate_cases c w with ⟨e, he⟩ | ⟨req1, hc⟩
    · rw [he] at hsent
      simp at hsent
    · have hreq : req1 = req := by
        rcases hc with ⟨e, he, _⟩ | ⟨_, _, _, _, he⟩ | ⟨body1, _, he⟩
        · rw [he] at hsent
          simpa using hsent
        · rw [he] at hsent
          simpa using hsent
        · obtain ⟨t, ht⟩ := parse_frame body1 { w with sent := w.sent ++ [req1] }
          rw [he, ht] at hsent
          simpa using hsent
      subst hreq
      rcases hc with ⟨e, _, hno⟩ | ⟨status1, body1, hsv1, _, he⟩ | ⟨body1, hsv1, _⟩
      · exact absurd hsv (hno status body)
      · rw [hsv] at hsv1
        simp only [HttpResult.response.injEq] at hsv1
        rw [hsv1.1, hsv1.2]
        exact he
      · rw [hsv] at hsv1
        simp only [HttpResult.response.injEq] at hsv1
        exact absurd hsv1.1 hne
  · intro req status body hsent hsv hne
    rcases getValid_cases c w with h0 | ⟨req1, h1, hc⟩
    · rw [h0] at hsent
      simp at hsent
    · have hreq : req1 = req := by
        rw [h1] at hsent
        simpa using hsent
      subst hreq
      rcases hc with hno | ⟨status1, body1, hsv1, _, he, hp⟩ | ⟨body1, hsv1⟩
      · exact absurd hsv (hno status body)
      · rw [hsv] at hsv1
        simp only [HttpResult.response.injEq] at hsv1
        rw [hsv1.1, hsv1.2]
        exact ⟨he, hp⟩
      · rw [hsv] at hsv1
        simp only [HttpResult.response.injEq] at hsv1
        exact absurd hsv1.1 hne
  · rcases getValid_cases c w with h0 | ⟨req1, h1, _⟩
    · left; exact h0
    · right; exact ⟨req1, h1⟩

/-- Witness of C9: in `sampleWorld 201` the token endpoint answers 201, and
`AuthenticateOAuth` returns the error with the status and the body. -/
theorem authenticateOAuth_status_witness :
    sampleClient.AuthenticateOAuth (sampleWorld 201) =
      (.error ("OAuth authentication failed (status " ++ FormatInt 201 ++ "): " ++ "token-body"),
        { sampleWorld 201 with sent := (sampleWorld 201).sent ++ [sampleTokenRequest] }) :=
  (authenticateOAuth_status sampleClient (sampleWorld 201)).2.1 sampleTokenRequest 201 "token-body"
    (by decide) (by decide) (by decide)

/-! ## A stored token that is still valid -/

theorem loadConfig_present {w : World} {d : ConfigDoc} (hhome : w.home = true)
    (hread : w.readable = true) (hfile : w.file = .present (.doc d)) :
    LoadConfig w = (.ok (unmarshalConfig d defaultConfig), w) := by
  unfold LoadConfig
  simp only [hhome, hread, hfile, Bool.not_true, Bool.false_eq_true, if_false]

theorem loadOAuthToken_present {w : World} {d : ConfigDoc} {tok : OAuthToken}
    (hhome : w.home = true) (hread : w.readable = true) (hfile : w.file = .present (.doc d))
    (htok : persistedToken w.file = some tok) : LoadOAuthToken w = (.ok tok, w) := by
  unfold LoadOAuthToken
  rw [loadConfig_present hhome hread hfile]
  rw [hfile] at htok
  simp only [persistedToken] at htok
  cases ht : d.oauth_token with
  | none => rw [ht] at htok; simp at htok
  | some t =>
    rw [ht, Option.map_some', Option.some.injEq] at htok
    simp only [unmarshalConfig, ht, htok]

theorem shouldRefresh_valid {config : Config} {oauth : OAuthConfig} {w : World} {d : ConfigDoc}
    {tok : OAuthToken} (ho : config.OAuth = some oauth) (he : oauth.Enabled = true)
    (hhome : w.home = true) (hread : w.readable = true) (hfile : w.file = .present (.doc d))
    (htok : persistedToken w.file = some tok) (hvalid : (tok.IsExpired w).1 = false) :
    ShouldRefreshToken config w = (.ok false, { w with tick := w.tick + 1 }) := by
  unfold ShouldRefreshToken
  rw [ho]
  simp only [he, Bool.not_true, Bool.false_eq_true, if_false]
  rw [loadOAuthToken_present hhome hread hfile htok]
  simp only
  cases hx : tok.IsExpired w with
  | mk b w1 =>
    rw [hx] at hvalid
    simp only at hvalid
    subst hvalid
    simp only
    have : w1 = (tok.IsExpired w).2 := by rw [hx]
    rw [this]
    rfl

theorem getValid_valid {c : ProofClient} {oauth : OAuthConfig} {w : World} {d : ConfigDoc}
    {tok : OAuthToken} (ho : c.config.OAuth = some oauth) (he : oauth.Enabled = true)
    (hhome : w.home = true) (hread : w.readable = true) (hfile : w.file = .present (.doc d))
    (htok : persistedToken w.file = some tok) (hvalid : (tok.IsExpired w).1 = false) :
    c.getValidOAuthToken w = (.ok tok, { w with tick := w.tick + 1 }) := by
  unfold ProofClient.getValidOAuthToken
  rw [shouldRefresh_valid ho he hhome hread hfile htok hvalid]
  simp only
  exact loadOAuthToken_present (w := { w with tick := w.tick + 1 }) hhome hread hfile htok

theorem header_values_set (h : Header) (k v k1 : String) :
    Header.Values (Header.Set h k v) k1 =
      if canonicalKey k1 = canonicalKey k then [v] else Header.Values h k1 := by
  unfold Header.Values Header.Set
  exact lookup_Set h (canonicalKey k) v (canonicalKey k1)

theorem newRequest_ok {w : World} {method url : String} {body : Option String} {req : HttpRequest}
    (h : newRequest w method url body = .ok req) :
    req.URL = url ∧ req.Body = body ∧ req.Header = [] := by
  unfold newRequest at h
  split_ifs at h
  all_goals
    simp only [Except.ok.injEq] at h
    rw [← h]
    exact ⟨rfl, rfl, rfl⟩

theorem bearer_header (h : Header) (token a b : String) :
    Header.Values (Header.Set (Header.Set (Header.Set h "Authorization" ("Bearer " ++ token))
      "Content-Type" a) "Accept" b) "Authorization" = ["Bearer " ++ token] := by
  have e1 : ¬ (canonicalKey "Authorization" = canonicalKey "Accept") := by decide
  have e2 : ¬ (canonicalKey "Authorization" = canonicalKey "Content-Type") := by decide
  rw [header_values_set, if_neg e1, header_values_set, if_neg e2, header_values_set, if_pos rfl]

/-- C10. When OAuth is enabled and the configuration file holds a token that is
not expired at the reading of the clock, `getValidOAuthToken` returns that
token, every field as stored, sends no request and leaves the file as it is
(only the clock has been read); and `Request` leaves the file as it is and
sends at most one request, the business request to the endpoint followed by
the path with `Authorization: Bearer` and the stored access token, hence no
token request. -/
theorem getValidOAuthToken_valid (c : ProofClient) (w : World) (oauth : OAuthConfig)
    (d : ConfigDoc) (tok : OAuthToken)
    (ho : c.config.OAuth = some oauth) (he : oauth.Enabled = true)
    (hhome : w.home = true) (hread : w.readable = true) (hfile : w.file = .present (.doc d))
    (htok : persistedToken w.file = some tok) (hvalid : (tok.IsExpired w).1 = false) :
    c.getValidOAuthToken w = (.ok tok, { w with tick := w.tick + 1 }) ∧
    (c.getValidOAuthToken w).2.sent = w.sent ∧ (c.getValidOAuthToken w).2.file = w.file ∧
    ∀ method path body opts,
      (c.Request method path body opts w).2.file = w.file ∧
      ((c.Request method path body opts w).2.sent = w.sent ∨
        ∃ req, (c.Request method path body opts w).2.sent = w.sent ++ [req] ∧
          req.URL = c.config.APIEndpoint ++ path ∧
          Header.Values req.Header "Authorization" = ["Bearer " ++ tok.AccessToken]) := by
  have hg := getValid_valid ho he hhome hread hfile htok hvalid
  refine ⟨hg, by rw [hg], by rw [hg], ?_⟩
  intro method path body opts
  unfold ProofClient.Request
  rcases body with _ | e | jsonBody <;> simp only
  · cases hn : newRequest w method (c.config.APIEndpoint ++ path) none with
    | error e => exact ⟨rfl, Or.inl rfl⟩
    | ok req =>
      obtain ⟨hurl, _, _⟩ := newRequest_ok hn
      simp only [ho, he, if_true, hg, httpDo]
      generalize w.server _ _ = res
      cases res with
      | failed e => exact ⟨rfl, Or.inr ⟨_, rfl, hurl, bearer_header _ _ _ _⟩⟩
      | unreadable st e => exact ⟨rfl, Or.inr ⟨_, rfl, hurl, bearer_header _ _ _ _⟩⟩
      | response status respBody =>
        simp only
        split <;> exact ⟨rfl, Or.inr ⟨_, rfl, hurl, bearer_header _ _ _ _⟩⟩
  · exact ⟨trivial, Or.inl trivial⟩
  · cases hn : newRequest w method (c.config.APIEndpoint ++ path) (some jsonBody) with
    | error e => exact ⟨rfl, Or.inl rfl⟩
    | ok req =>
      obtain ⟨hurl, _, _⟩ := newRequest_ok hn
      simp only [ho, he, if_true, hg, httpDo]
      generalize w.server _ _ = res
      cases res with
      | failed e => exact ⟨rfl, Or.inr ⟨_, rfl, hurl, bearer_header _ _ _ _⟩⟩
      | unreadable st e => exact ⟨rfl, Or.inr ⟨_, rfl, hurl, bearer_header _ _ _ _⟩⟩
      | response status respBody =>
        simp only
        split <;> exact ⟨rfl, Or.inr ⟨_, rfl, hurl, bearer_header _ _ _ _⟩⟩

/-- Witness of C10: in `sampleWorld` the stored token `tok_0` expires at 4600 s
and the clock reads 1000 s; `getValidOAuthToken` returns it and sends nothing. -/
theorem getValidOAuthToken_valid_witness :
    sampleClient.getValidOAuthToken (sampleWorld 200) =
      (.ok { sampleToken with AccessToken := "tok_0", ExpiresAt := ⟨4600 * Second, 0⟩ },
        { sampleWorld 200 with tick := (sampleWorld 200).tick + 1 }) :=
  (getValidOAuthToken_valid sampleClient (sampleWorld 200)
    { Enabled := true, ClientID := "id", ClientSecret := "secret", Scope := "" } sampleDoc
    { sampleToken with AccessToken := "tok_0", ExpiresAt := ⟨4600 * Second, 0⟩ }
    rfl rfl rfl rfl rfl rfl (by decide)).1

/-! ## `AuthenticateOAuth` and `Request`, step by step -/

theorem newRequest_eq {w : World} {method url : String} (body : Option String)
    (hm : validMethod method = true) (hu : w.urlParses url = true) :
    newRequest w method url body =
      .ok { Method := if method = "" then "GET" else method, URL := url, Body := body, Header := [],
            Timeout := 0 } := by
  unfold newRequest
  simp only [hm, hu, Bool.not_true, Bool.false_eq_true, if_false]

theorem authenticate_eq {c : ProofClient} {oreq : OAuthRequest} (w : World)
    (hp : PrepareOAuthTokenRequest c.config = .ok oreq) (hu : w.urlParses oreq.URL = true) :
    c.AuthenticateOAuth w =
      match w.server w.sent (tokenRequestOf c oreq) with
      | .failed e =>
        (.error ("error making OAuth request: " ++ e),
          { w with sent := w.sent ++ [tokenRequestOf c oreq] })
      | .unreadable _ e =>
        (.error ("error reading OAuth response: " ++ e),
          { w with sent := w.sent ++ [tokenRequestOf c oreq] })
      | .response status respBody =>
        if status ≠ 200 then
          (.error ("OAuth authentication failed (status " ++ FormatInt status ++ "): " ++ respBody),
            { w with sent := w.sent ++ [tokenRequestOf c oreq] })
        else ParseOAuthTokenResponse respBody { w with sent := w.sent ++ [tokenRequestOf c oreq] } := by
  unfold ProofClient.AuthenticateOAuth tokenRequestOf
  rw [hp]
  simp only
  rw [newRequest_eq (some oreq.FormData) (by decide) hu]
  have hm : (if "POST" = "" then "GET" else "POST") = "POST" := by decide
  simp only [httpDo, hm]
  generalize w.server w.sent _ = res
  cases res with
  | failed e => rfl
  | unreadable st e => rfl
  | response status respBody =>
    simp only
    split
    · rfl
    · generalize ParseOAuthTokenResponse respBody _ = pr
      obtain ⟨r, w2⟩ := pr
      cases r <;> rfl

theorem request_marshal_error (c : ProofClient) (method path : String)
    (body : Option (Except String String)) (opts : List (Option RequestOptions)) (w : World)
    {e : String} (hb : bodyReaderOf body = .error e) :
    c.Request method path body opts w = (.error ("failed to marshal request body: " ++ e), w) := by
  unfold ProofClient.Request
  rcases body with _ | e1 | jsonBody
  · simp [bodyReaderOf] at hb
  · simp only [bodyReaderOf, Except.error.injEq] at hb
    rw [hb]
  · simp [bodyReaderOf] at hb

theorem request_create_error (c : ProofClient) (method path : String)
    (body : Option (Except String String)) (opts : List (Option RequestOptions)) (w : World)
    {br : Option String} {e : String} (hb : bodyReaderOf body = .ok br)
    (hn : newRequest w method (c.config.APIEndpoint ++ path) br = .error e) :
    c.Request method path body opts w = (.error ("failed to create request: " ++ e), w) := by
  unfold ProofClient.Request
  rcases body with _ | e1 | jsonBody
  · simp only [bodyReaderOf, Except.ok.injEq] at hb
    subst hb
    simp only [hn]
  · simp [bodyReaderOf] at hb
  · simp only [bodyReaderOf, Except.ok.injEq] at hb
    subst hb
    simp only [hn]

theorem request_eq_apikey (c : ProofClient) (method path : String)
    (body : Option (Except String String)) (opts : List (Option RequestOptions)) (w : World)
    {br : Option String} (hoff : oauthEnabled c.config = false) (hb : bodyReaderOf body = .ok br)
    (hm : validMethod method = true) (hu : w.urlParses (c.config.APIEndpoint ++ path) = true) :
    c.Request method path body opts w =
      (requestOutcome (w.server w.sent (businessRequest c method path br "ApiKey" c.apiKey opts)),
        { w with sent := w.sent ++ [businessRequest c method path br "ApiKey" c.apiKey opts] }) := by
  have hoff1 : (match c.config.OAuth with
      | some oauth => oauth.Enabled
      | none => false) = false := hoff
  unfold ProofClient.Request businessRequest contentTypeOf acceptOf
  rcases body with _ | e1 | jsonBody
  · simp only [bodyReaderOf, Except.ok.injEq] at hb
    subst hb
    simp only [newRequest_eq _ hm hu, hoff1, Bool.false_eq_true, if_false, httpDo]
    generalize w.server w.sent _ = res
    cases res with
    | failed e => rfl
    | unreadable st e => rfl
    | response status respBody =>
      simp only [requestOutcome]
      split <;> rfl
  · simp [bodyReaderOf] at hb
  · simp only [bodyReaderOf, Except.ok.injEq] at hb
    subst hb
    simp only [newRequest_eq _ hm hu, hoff1, Bool.false_eq_true, if_false, httpDo]
    generalize w.server w.sent _ = res
    cases res with
    | failed e => rfl
    | unreadable st e => rfl
    | response status respBody =>
      simp only [requestOutcome]
      split <;> rfl

theorem request_eq_oauth (c : ProofClient) (method path : String)
    (body : Option (Except String String)) (opts : List (Option RequestOptions)) (w : World)
    {br : Option String} (hon : oauthEnabled c.config = true) (hb : bodyReaderOf body = .ok br)
    (hm : validMethod method = true) (hu : w.urlParses (c.config.APIEndpoint ++ path) = true) :
    c.Request method path body opts w =
      match c.getValidOAuthToken w with
      | (.error e, w1) => (.error ("failed to get OAuth token: " ++ e), w1)
      | (.ok token, w1) =>
        (requestOutcome (w1.server w1.sent
            (businessRequest c method path br "Authorization" ("Bearer " ++ token.AccessToken) opts)),
          { w1 with sent := w1.sent ++
            [businessRequest c method path br "Authorization" ("Bearer " ++ token.AccessToken) opts] }) := by
  have hon1 : (match c.config.OAuth with
      | some oauth => oauth.Enabled
      | none => false) = true := hon
  unfold ProofClient.Request businessRequest contentTypeOf acceptOf
  rcases body with _ | e1 | jsonBody
  · simp only [bodyReaderOf, Except.ok.injEq] at hb
    subst hb
    simp only [newRequest_eq _ hm hu, hon1, if_true]
    generalize c.getValidOAuthToken w = gv
    obtain ⟨r, w1⟩ := gv
    cases r with
    | error e => rfl
    | ok token =>
      simp only [httpDo]
      generalize w1.server w1.sent _ = res
      cases res with
      | failed e => rfl
      | unreadable st e => rfl
      | response status respBody =>
        simp only [requestOutcome]
        split <;> rfl
  · simp [bodyReaderOf] at hb
  · simp only [bodyReaderOf, Except.ok.injEq] at hb
    subst hb
    simp only [newRequest_eq _ hm hu, hon1, if_true]
    generalize c.getValidOAuthToken w = gv
    obtain ⟨r, w1⟩ := gv
    cases r with
    | error e => rfl
    | ok token =>
      simp only [httpDo]
      generalize w1.server w1.sent _ = res
      cases res with
      | failed e => rfl
      | unreadable st e => rfl
      | response status respBody =>
        simp only [requestOutcome]
        split <;> rfl

/-! ## What loading and saving do to the stored token -/

theorem loadOAuthToken_ok {w w1 : World} {tok : OAuthToken} (h : LoadOAuthToken w = (.ok tok, w1)) :
    persistedToken w.file = some tok ∧ w1 = w := by
  rcases w with ⟨home, readable, writable, oserr, file, env, clock, tick, server, sent, urlParses, jsonToken⟩
  cases home
  · simp [LoadOAuthToken, LoadConfig] at h
  · cases file with
    | noDir => cases writable <;> simp [LoadOAuthToken, LoadConfig, marshalConfig, defaultConfig] at h
    | noFile => cases writable <;> simp [LoadOAuthToken, LoadConfig, marshalConfig, defaultConfig] at h
    | present content =>
      cases readable
      · simp [LoadOAuthToken, LoadConfig] at h
      · cases content with
        | garbage => simp [LoadOAuthToken, LoadConfig] at h
        | doc d =>
          simp only [LoadOAuthToken, LoadConfig, Bool.not_true, Bool.false_eq_true, if_false,
            unmarshalConfig, defaultConfig] at h
          cases ht : d.oauth_token with
          | none => simp [ht] at h
          | some t =>
            simp only [ht, Prod.mk.injEq, Except.ok.injEq] at h
            exact ⟨by simp [persistedToken, ht, h.1], h.2.symm⟩

theorem jsonTime_whole {t : Time} (h : t.offset % 60 = 0) : jsonTime t = t := by
  have e : Int.tdiv t.offset 60 * 60 = t.offset :=
    Int.tdiv_mul_cancel (Int.dvd_of_emod_eq_zero h)
  rcases t with ⟨ns, offset⟩
  simp only at e
  simp only [jsonTime, e, sub_self, zero_mul, add_zero]

theorem jsonTime_offset (t : Time) : (jsonTime t).offset % 60 = 0 := by
  simp only [jsonTime]
  exact Int.mul_emod_left _ _

theorem storedToken_whole {tok : OAuthToken} (h : tok.ExpiresAt.offset % 60 = 0) :
    storedToken tok = tok := by
  unfold storedToken
  rw [jsonTime_whole h]

theorem storedToken_idem (tok : OAuthToken) : storedToken (storedToken tok) = storedToken tok :=
  storedToken_whole (jsonTime_offset tok.ExpiresAt)

theorem marshalConfig_token {cfg : Config} {d : ConfigDoc} (h : marshalConfig cfg = .ok d) :
    d.oauth_token = cfg.OAuthToken.map storedToken := by
  unfold marshalConfig at h
  cases ht : cfg.OAuthToken with
  | none =>
    simp only [ht, Except.ok.injEq] at h
    rw [← h]
    rfl
  | some tok =>
    simp only [ht] at h
    split at h
    · simp only [Except.ok.injEq] at h
      rw [← h]
      rfl
    · simp at h

theorem saveConfig_ok {cfg : Config} {w w1 : World} (h : SaveConfig cfg w = (none, w1)) :
    ∃ d, marshalConfig cfg = .ok d ∧ w1 = { w with file := .present (.doc d) } := by
  rcases w with ⟨home, readable, writable, oserr, file, env, clock, tick, server, sent, urlParses, jsonToken⟩
  cases home
  · simp [SaveConfig] at h
  · cases hm : marshalConfig cfg with
    | error e => cases file <;> cases writable <;> simp [SaveConfig, hm] at h
    | ok d =>
      refine ⟨d, rfl, ?_⟩
      cases writable
      · cases file <;> simp [SaveConfig, hm] at h
      · cases file <;> simp [SaveConfig, hm] at h <;> exact h.symm

theorem saveOAuthToken_ok {token : OAuthToken} {w w1 : World}
    (h : SaveOAuthToken token w = (none, w1)) :
    persistedToken w1.file = some (storedToken token) ∧ ∃ f, w1 = { w with file := f } := by
  unfold SaveOAuthToken at h
  obtain ⟨f1, h1, _⟩ := loadConfig_frame w
  cases hl : LoadConfig w with
  | mk r wl =>
    rw [hl] at h h1
    simp only at h1
    cases r with
    | error e => simp at h
    | ok config =>
      simp only at h
      cases hs : SaveConfig { config with OAuthToken := some token } wl with
      | mk r2 w2 =>
        rw [hs] at h
        cases r2 with
        | some e => simp at h
        | none =>
          simp only [Prod.mk.injEq, true_and] at h
          obtain ⟨d, hd, hw⟩ := saveConfig_ok hs
          have ht := marshalConfig_token hd
          simp only at ht
          rw [← h, hw, h1]
          refine ⟨?_, _, rfl⟩
          show Option.map storedToken d.oauth_token = some (storedToken token)
          rw [ht, Option.map_some', Option.map_some', storedToken_idem]

theorem shouldRefresh_due {config : Config} {w : World} (hon : oauthEnabled config = true)
    (hdue : persistedToken w.file = none ∨
      ∃ tok, persistedToken w.file = some tok ∧ (tok.IsExpired w).1 = true) :
    ∃ f t, ShouldRefreshToken config w = (.ok true, { w with file := f, tick := t }) ∧
      persistedToken f = persistedToken w.file := by
  obtain ⟨f1, h1, p1⟩ := loadOAuthToken_frame w
  unfold oauthEnabled at hon
  unfold ShouldRefreshToken
  cases ho : config.OAuth with
  | none => simp [ho] at hon
  | some oauth =>
    simp only [ho] at hon
    simp only [hon, Bool.not_true, Bool.false_eq_true, if_false]
    cases hl : LoadOAuthToken w with
    | mk r w1 =>
      rw [hl] at h1
      simp only at h1
      cases r with
      | error e => exact ⟨f1, w.tick, by rw [h1], p1⟩
      | ok token =>
        obtain ⟨hp, hw⟩ := loadOAuthToken_ok hl
        subst hw
        rcases hdue with hnone | ⟨tok, htok, hexp⟩
        · rw [hnone] at hp
          simp at hp
        · rw [htok] at hp
          simp only [Option.some.injEq] at hp
          subst hp
          simp only
          cases hx : tok.IsExpired w1 with
          | mk b w2 =>
            rw [hx] at hexp
            simp only at hexp
            subst hexp
            simp only
            have hw2 : w2 = (tok.IsExpired w1).2 := by rw [hx]
            refine ⟨w1.file, w1.tick + 1, ?_, rfl⟩
            rw [hw2]
            rfl

/-! ## A refresh that is due -/

theorem saveOAuthToken_unwritable (token : OAuthToken) {w : World} (h : w.writable = false) :
    ∃ e, (SaveOAuthToken token w).1 = some e := by
  rcases w with ⟨home, readable, writable, oserr, file, env, clock, tick, server, sent, urlParses, jsonToken⟩
  simp only at h
  subst h
  cases home
  · exact ⟨_, rfl⟩
  · cases file with
    | noDir => exact ⟨_, rfl⟩
    | noFile => exact ⟨_, rfl⟩
    | present content =>
      cases readable
      · exact ⟨_, rfl⟩
      · cases content with
        | garbage => exact ⟨_, rfl⟩
        | doc d =>
          simp only [SaveOAuthToken, LoadConfig, Bool.not_true, Bool.false_eq_true, if_false,
            SaveConfig]
          cases marshalConfig { unmarshalConfig d defaultConfig with OAuthToken := some token } <;>
            simp

/-- When a refresh is due and the token request can be built,
`getValidOAuthToken` sends exactly the token request; it returns either an
error, or the token that the endpoint answered with status 200, after having
stored it in the configuration file. -/
theorem getValid_refresh {c : ProofClient} {oreq : OAuthRequest} {w : World}
    (hon : oauthEnabled c.config = true) (hp : PrepareOAuthTokenRequest c.config = .ok oreq)
    (hu : w.urlParses oreq.URL = true)
    (hdue : persistedToken w.file = none ∨
      ∃ tok, persistedToken w.file = some tok ∧ (tok.IsExpired w).1 = true) :
    ∃ f t, (c.getValidOAuthToken w).2 =
        { w with file := f, tick := t, sent := w.sent ++ [tokenRequestOf c oreq] } ∧
      ((∃ e, (c.getValidOAuthToken w).1 = .error e) ∨
       ∃ token, (c.getValidOAuthToken w).1 = .ok token ∧
         persistedToken f = some (storedToken token) ∧ w.writable = true ∧
         ∃ (respBody : String) (decoded : OAuthToken) (now : Time), w.server w.sent (tokenRequestOf c oreq) = .response 200 respBody ∧
           w.jsonToken respBody = .ok decoded ∧
           token = { decoded with ExpiresAt := now.Add (expiresInDuration decoded.ExpiresIn) }) := by
  obtain ⟨f0, t0, hsr, _⟩ := @shouldRefresh_due c.config w hon hdue
  unfold ProofClient.getValidOAuthToken
  rw [hsr]
  simp only
  rw [authenticate_eq { w with file := f0, tick := t0 } hp hu]
  simp only
  cases hs : w.server w.sent (tokenRequestOf c oreq) with
  | failed e => exact ⟨f0, t0, rfl, Or.inl ⟨_, rfl⟩⟩
  | unreadable st e => exact ⟨f0, t0, rfl, Or.inl ⟨_, rfl⟩⟩
  | response status respBody =>
    simp only
    by_cases h200 : status = 200
    · subst h200
      simp only [ne_eq, not_true_eq_false, if_false, ParseOAuthTokenResponse]
      cases hj : w.jsonToken respBody with
      | error e => exact ⟨f0, t0, rfl, Or.inl ⟨_, rfl⟩⟩
      | ok decoded =>
        simp only [timeNow]
        cases hsave : SaveOAuthToken
            { decoded with ExpiresAt := (w.clock t0).Add (expiresInDuration decoded.ExpiresIn) }
            { w with file := f0, tick := t0 + 1, sent := w.sent ++ [tokenRequestOf c oreq] } with
        | mk r w3 =>
          cases r with
          | some e =>
            obtain ⟨f3, h3, _⟩ := saveOAuthToken_frame
              { decoded with ExpiresAt := (w.clock t0).Add (expiresInDuration decoded.ExpiresIn) }
              { w with file := f0, tick := t0 + 1, sent := w.sent ++ [tokenRequestOf c oreq] }
            rw [hsave] at h3
            simp only at h3
            exact ⟨f3, t0 + 1, h3, Or.inl ⟨_, rfl⟩⟩
          | none =>
            obtain ⟨hpt, f3, h3⟩ := saveOAuthToken_ok hsave
            have hwr : w.writable = true := by
              cases hwb : w.writable with
              | true => rfl
              | false =>
                obtain ⟨e, he⟩ := @saveOAuthToken_unwritable
                  { decoded with
                    ExpiresAt := (w.clock t0).Add (expiresInDuration decoded.ExpiresIn) }
                  { w with file := f0, tick := t0 + 1, sent := w.sent ++ [tokenRequestOf c oreq] }
                  hwb
                rw [hsave] at he
                simp at he
            refine ⟨w3.file, t0 + 1, ?_,
              Or.inr ⟨_, rfl, hpt, hwr, respBody, decoded, w.clock t0, rfl, hj, rfl⟩⟩
            simp only
            rw [h3]
    · simp only [ne_eq, h200, not_false_eq_true, if_true]
      exact ⟨f0, t0, rfl, Or.inl ⟨_, rfl⟩⟩

theorem shouldRefresh_due_env {config : Config} {w : World} (hon : oauthEnabled config = true)
    (hdue : persistedToken w.file = none ∨
      ∃ tok, persistedToken w.file = some tok ∧ (tok.IsExpired w).1 = true)
    (hhome : w.home = true) (hread : w.readable = true) (hwrite : w.writable = true)
    (hfile : w.file ≠ .present .garbage) :
    ∃ d t, (t = w.tick ∨ t = w.tick + 1) ∧
      ShouldRefreshToken config w = (.ok true, { w with file := .present (.doc d), tick := t }) := by
  unfold oauthEnabled at hon
  cases ho : config.OAuth with
  | none => simp [ho] at hon
  | some oauth =>
    simp only [ho] at hon
    rcases w with ⟨home, readable, writable, oserr, file, env, clock, tick, server, sent, urlParses, jsonToken⟩
    simp only at hhome hread hwrite hfile hdue
    subst hhome hread hwrite
    cases file with
    | noDir =>
      refine ⟨defaultDoc, tick, Or.inl rfl, ?_⟩
      simp [ShouldRefreshToken, ho, hon, LoadOAuthToken, LoadConfig, marshalConfig, defaultConfig,
        defaultDoc]
    | noFile =>
      refine ⟨defaultDoc, tick, Or.inl rfl, ?_⟩
      simp [ShouldRefreshToken, ho, hon, LoadOAuthToken, LoadConfig, marshalConfig, defaultConfig,
        defaultDoc]
    | present content =>
      cases content with
      | garbage => exact absurd rfl hfile
      | doc d =>
        cases ht : d.oauth_token with
        | none =>
          refine ⟨d, tick, Or.inl rfl, ?_⟩
          simp [ShouldRefreshToken, ho, hon, LoadOAuthToken, LoadConfig, unmarshalConfig, ht,
            defaultConfig]
        | some tok =>
          refine ⟨d, tick + 1, Or.inr rfl, ?_⟩
          rcases hdue with hnone | ⟨tok1, htok1, hexp⟩
          · simp [persistedToken, ht] at hnone
          · simp only [persistedToken, ht, Option.map_some', Option.some.injEq] at htok1
            rw [← htok1] at hexp
            simp only [ShouldRefreshToken, ho, hon, LoadOAuthToken, LoadConfig, unmarshalConfig, ht,
              Bool.not_true, Bool.false_eq_true, if_false]
            cases hx : (storedToken tok).IsExpired ⟨true, true, true, oserr, .present (.doc d), env,
                clock, tick, server, sent, urlParses, jsonToken⟩ with
            | mk b w2 =>
              rw [hx] at hexp
              simp only at hexp
              subst hexp
              simp only
              have hw2 : w2 = ((storedToken tok).IsExpired ⟨true, true, true, oserr,
                  .present (.doc d), env, clock, tick, server, sent, urlParses, jsonToken⟩).2 := by
                rw [hx]
              rw [hw2]
              rfl

theorem saveOAuthToken_eq (token : OAuthToken) {w : World} {d0 : ConfigDoc}
    (hhome : w.home = true) (hread : w.readable = true) (hwrite : w.writable = true)
    (hfile : w.file = .present (.doc d0)) (hmar : timeMarshals token.ExpiresAt = true) :
    ∃ d, SaveOAuthToken token w = (none, { w with file := .present (.doc d) }) ∧
      d.oauth_token = some (storedToken token) := by
  rcases w with ⟨home, readable, writable, oserr, file, env, clock, tick, server, sent, urlParses, jsonToken⟩
  simp only at hhome hread hwrite hfile
  subst hhome hread hwrite hfile
  simp only [SaveOAuthToken, LoadConfig, Bool.not_true, Bool.false_eq_true, if_false, SaveConfig,
    marshalConfig, hmar, if_true]
  simp

/-- When a refresh is due, the endpoint answers 200 with a token and the
configuration file can be read and written, `getValidOAuthToken` returns that
token, with its expiry counted from the reading of the clock, and stores it. -/
theorem getValid_refresh_ok {c : ProofClient} {oreq : OAuthRequest} {w : World}
    {respBody : String} {decoded : OAuthToken}
    (hon : oauthEnabled c.config = true) (hp : PrepareOAuthTokenRequest c.config = .ok oreq)
    (hu : w.urlParses oreq.URL = true)
    (hdue : persistedToken w.file = none ∨
      ∃ tok, persistedToken w.file = some tok ∧ (tok.IsExpired w).1 = true)
    (hs : w.server w.sent (tokenRequestOf c oreq) = .response 200 respBody)
    (hj : w.jsonToken respBody = .ok decoded)
    (hhome : w.home = true) (hread : w.readable = true) (hwrite : w.writable = true)
    (hfile : w.file ≠ .present .garbage)
    (hmar : ∀ n, n = w.tick ∨ n = w.tick + 1 →
      timeMarshals ((w.clock n).Add (expiresInDuration decoded.ExpiresIn)) = true) :
    ∃ n d, (n = w.tick ∨ n = w.tick + 1) ∧
      d.oauth_token = some (storedToken
        { decoded with ExpiresAt := (w.clock n).Add (expiresInDuration decoded.ExpiresIn) }) ∧
      c.getValidOAuthToken w =
        (.ok { decoded with ExpiresAt := (w.clock n).Add (expiresInDuration decoded.ExpiresIn) },
          { w with file := .present (.doc d), tick := n + 1,
                   sent := w.sent ++ [tokenRequestOf c oreq] }) := by
  obtain ⟨d0, t0, ht0, hsr⟩ := shouldRefresh_due_env hon hdue hhome hread hwrite hfile
  obtain ⟨d, hsave, hd⟩ := @saveOAuthToken_eq
    { decoded with ExpiresAt := (w.clock t0).Add (expiresInDuration decoded.ExpiresIn) }
    { w with file := .present (.doc d0), tick := t0 + 1, sent := w.sent ++ [tokenRequestOf c oreq] }
    d0 hhome hread hwrite rfl (hmar t0 ht0)
  refine ⟨t0, d, ht0, hd, ?_⟩
  unfold ProofClient.getValidOAuthToken
  rw [hsr]
  simp only
  rw [authenticate_eq { w with file := .present (.doc d0), tick := t0 } hp hu]
  simp only [hs, ne_eq, not_true_eq_false, if_false, ParseOAuthTokenResponse, hj, timeNow, hsave]

/-- C11, the claim as stated fails: with OAuth enabled and the stored token
expired, a call to `Request` whose URL `http.NewRequest` rejects (the path ends
in the invalid escape `%zz`) sends no token request at all, and so does a call
by a client whose client secret is empty; the claim wants exactly one token
request in both. -/
theorem request_refresh_counterexample :
    oauthEnabled sampleClient.config = true ∧ oauthEnabled noSecretClient.config = true ∧
    (∃ tok, persistedToken badURLWorld.file = some tok ∧ (tok.IsExpired badURLWorld).1 = true) ∧
    (∃ tok, persistedToken expiredWorld.file = some tok ∧ (tok.IsExpired expiredWorld).1 = true) ∧
    (sampleClient.Request "GET" "/v1/transactions/%zz" none [] badURLWorld).2.sent = [] ∧
    (noSecretClient.Request "GET" "/v1/transactions" none [] expiredWorld).2.sent = [] := by
  refine ⟨by decide, by decide, ⟨_, rfl, by decide⟩, ⟨_, rfl, by decide⟩, by decide, by decide⟩

/-- C11, amended. When OAuth is enabled with a client id and secret (the token
request can be prepared), `http.NewRequest` accepts the token URL and the
business request (its body marshals, its method and URL are accepted), and the
stored token is absent or expired, one call to `Request` sends exactly one
token request and sends it first. Either the call then fails with
`failed to get OAuth token` and sends nothing else, or the endpoint answered
200 with a token, that token is stored as the `oauth_token` of the
configuration file (its expiry as the JSON text keeps it), and the business
request follows with `Authorization: Bearer` and the access token of that
token. The call fails in that way whenever the token endpoint does not answer
200, and whenever the configuration file cannot be written. It takes the
second course whenever the endpoint answers 200 with a body that decodes to a
token and the configuration file can be read and written: the business request
then carries the access token of the body, the token stored is the decoded one
with its expiry counted from the reading of the clock, and the call returns
what the answer to the business request gives. -/
theorem request_refresh (c : ProofClient) (oreq : OAuthRequest) (w : World)
    (method path : String) (body : Option (Except String String)) (br : Option String)
    (opts : List (Option RequestOptions))
    (hon : oauthEnabled c.config = true) (hp : PrepareOAuthTokenRequest c.config = .ok oreq)
    (hu1 : w.urlParses oreq.URL = true) (hb : bodyReaderOf body = .ok br)
    (hm : validMethod method = true) (hu2 : w.urlParses (c.config.APIEndpoint ++ path) = true)
    (hdue : persistedToken w.file = none ∨
      ∃ tok, persistedToken w.file = some tok ∧ (tok.IsExpired w).1 = true) :
    (((c.Request method path body opts w).2.sent = w.sent ++ [tokenRequestOf c oreq] ∧
        ∃ e, (c.Request method path body opts w).1 = .error ("failed to get OAuth token: " ++ e)) ∨
      ∃ token,
        (c.Request method path body opts w).2.sent = w.sent ++ [tokenRequestOf c oreq,
          businessRequest c method path br "Authorization" ("Bearer " ++ token.AccessToken) opts] ∧
        persistedToken (c.Request method path body opts w).2.file = some (storedToken token) ∧
        ∃ (respBody : String) (decoded : OAuthToken) (now : Time),
          w.server w.sent (tokenRequestOf c oreq) = .response 200 respBody ∧
          w.jsonToken respBody = .ok decoded ∧
          token = { decoded with ExpiresAt := now.Add (expiresInDuration decoded.ExpiresIn) }) ∧
    ((∀ respBody, w.server w.sent (tokenRequestOf c oreq) ≠ .response 200 respBody) →
      (c.Request method path body opts w).2.sent = w.sent ++ [tokenRequestOf c oreq] ∧
      ∃ e, (c.Request method path body opts w).1 = .error ("failed to get OAuth token: " ++ e)) ∧
    (w.writable = false →
      (c.Request method path body opts w).2.sent = w.sent ++ [tokenRequestOf c oreq] ∧
      ∃ e, (c.Request method path body opts w).1 = .error ("failed to get OAuth token: " ++ e)) ∧
    (∀ (respBody : String) (decoded : OAuthToken),
      w.server w.sent (tokenRequestOf c oreq) = .response 200 respBody →
      w.jsonToken respBody = .ok decoded →
      w.home = true → w.readable = true → w.writable = true → w.file ≠ .present .garbage →
      (∀ n, n = w.tick ∨ n = w.tick + 1 →
        timeMarshals ((w.clock n).Add (expiresInDuration decoded.ExpiresIn)) = true) →
      ∃ n, (n = w.tick ∨ n = w.tick + 1) ∧
        (c.Request method path body opts w).2.sent = w.sent ++ [tokenRequestOf c oreq,
          businessRequest c method path br "Authorization" ("Bearer " ++ decoded.AccessToken)
            opts] ∧
        persistedToken (c.Request method path body opts w).2.file = some (storedToken
          { decoded with ExpiresAt := (w.clock n).Add (expiresInDuration decoded.ExpiresIn) }) ∧
        (c.Request method path body opts w).1 =
          requestOutcome (w.server (w.sent ++ [tokenRequestOf c oreq])
            (businessRequest c method path br "Authorization" ("Bearer " ++ decoded.AccessToken)
              opts))) := by
  have hreq := request_eq_oauth c method path body opts w hon hb hm hu2
  obtain ⟨f, t, hw, hres⟩ := getValid_refresh hon hp hu1 hdue
  have hcases : ((c.Request method path body opts w).2.sent = w.sent ++ [tokenRequestOf c oreq] ∧
        ∃ e, (c.Request method path body opts w).1 = .error ("failed to get OAuth token: " ++ e)) ∨
      ∃ token,
        (c.Request method path body opts w).2.sent = w.sent ++ [tokenRequestOf c oreq,
          businessRequest c method path br "Authorization" ("Bearer " ++ token.AccessToken) opts] ∧
        persistedToken (c.Request method path body opts w).2.file = some (storedToken token) ∧
        w.writable = true ∧
        ∃ (respBody : String) (decoded : OAuthToken) (now : Time),
          w.server w.sent (tokenRequestOf c oreq) = .response 200 respBody ∧
          w.jsonToken respBody = .ok decoded ∧
          token = { decoded with ExpiresAt := now.Add (expiresInDuration decoded.ExpiresIn) } := by
    rw [hreq]
    cases hg : c.getValidOAuthToken w with
    | mk r w1 =>
      rw [hg] at hw hres
      simp only at hw hres
      cases r with
      | error e =>
        left
        simp only
        exact ⟨by rw [hw], e, rfl⟩
      | ok token =>
        right
        rcases hres with ⟨e, he⟩ | ⟨token1, ht, hpt, hwr, hrest⟩
        · simp at he
        · simp only [Except.ok.injEq] at ht
          subst ht
          refine ⟨token, ?_, ?_, hwr, hrest⟩
          · simp only [hw, List.append_assoc, List.singleton_append]
          · simp only [hw]
            exact hpt
  refine ⟨?_, ?_, ?_, ?_⟩
  · rcases hcases with h | ⟨token, h1, h2, _, h3⟩
    · exact Or.inl h
    · exact Or.inr ⟨token, h1, h2, h3⟩
  · intro hno
    rcases hcases with h | ⟨token, _, _, _, respBody, _, _, hs, _⟩
    · exact h
    · exact absurd hs (hno respBody)
  · intro hwf
    rcases hcases with h | ⟨token, _, _, hwr, _⟩
    · exact h
    · rw [hwf] at hwr
      exact absurd hwr Bool.false_ne_true
  · intro respBody decoded hs hj hhome hread hwrite hfile hmar
    obtain ⟨n, d, hn, hd, hg⟩ :=
      getValid_refresh_ok hon hp hu1 hdue hs hj hhome hread hwrite hfile hmar
    refine ⟨n, hn, ?_⟩
    rw [hreq, hg]
    simp only [List.append_assoc, List.singleton_append, persistedToken, hd, true_and,
      Option.map_some', storedToken_idem]

/-- Witness of C11 (amended): in `expiredWorld` the stored token of
`sampleClient` is expired, the endpoint answers 200 with a token and the file
can be written; the call sends the token request, stores the new token, sends
the business request with `Bearer tok_1` and returns the body of its answer. -/
theorem request_refresh_witness :
    ∃ n, (n = expiredWorld.tick ∨ n = expiredWorld.tick + 1) ∧
      (sampleClient.Request "GET" "/v1/transactions" none [] expiredWorld).2.sent =
        expiredWorld.sent ++ [tokenRequestOf sampleClient sampleOAuthRequest,
          businessRequest sampleClient "GET" "/v1/transactions" none "Authorization"
            ("Bearer " ++ sampleToken.AccessToken) []] ∧
      persistedToken (sampleClient.Request "GET" "/v1/transactions" none [] expiredWorld).2.file =
        some (storedToken { sampleToken with
          ExpiresAt := (expiredWorld.clock n).Add (expiresInDuration sampleToken.ExpiresIn) }) ∧
      (sampleClient.Request "GET" "/v1/transactions" none [] expiredWorld).1 =
        requestOutcome (expiredWorld.server
          (expiredWorld.sent ++ [tokenRequestOf sampleClient sampleOAuthRequest])
          (businessRequest sampleClient "GET" "/v1/transactions" none "Authorization"
            ("Bearer " ++ sampleToken.AccessToken) [])) :=
  (request_refresh sampleClient sampleOAuthRequest expiredWorld "GET" "/v1/transactions" none none []
    (by decide) (by decide) (by decide) rfl (by decide) (by decide)
    (Or.inr ⟨_, rfl, by decide⟩)).2.2.2 "token-body" sampleToken rfl rfl rfl rfl rfl (by decide)
    (by intro n hn; rcases hn with h | h <;> subst h <;> decide)

/-! ## The forced refresh -/

theorem testOAuth_sent {c : ProofClient} {oreq : OAuthRequest} (w : World)
    (hp : PrepareOAuthTokenRequest c.config = .ok oreq) (hu : w.urlParses oreq.URL = true) :
    ∃ f t, (c.TestOAuthAuthentication w).2 =
      { w with file := f, tick := t, sent := w.sent ++ [tokenRequestOf c oreq] } := by
  unfold ProofClient.TestOAuthAuthentication
  rw [authenticate_eq w hp hu]
  cases hs : w.server w.sent (tokenRequestOf c oreq) with
  | failed e => exact ⟨w.file, w.tick, rfl⟩
  | unreadable st e => exact ⟨w.file, w.tick, rfl⟩
  | response status respBody =>
    simp only
    by_cases h200 : status = 200
    · subst h200
      simp only [ne_eq, not_true_eq_false, if_false, ParseOAuthTokenResponse]
      cases hj : w.jsonToken respBody with
      | error e => exact ⟨w.file, w.tick, rfl⟩
      | ok decoded =>
        simp only [timeNow]
        obtain ⟨f3, h3, _⟩ := saveOAuthToken_frame
          { decoded with ExpiresAt := (w.clock w.tick).Add (expiresInDuration decoded.ExpiresIn) }
          { w with tick := w.tick + 1, sent := w.sent ++ [tokenRequestOf c oreq] }
        cases hsave : SaveOAuthToken
            { decoded with ExpiresAt := (w.clock w.tick).Add (expiresInDuration decoded.ExpiresIn) }
            { w with tick := w.tick + 1, sent := w.sent ++ [tokenRequestOf c oreq] } with
        | mk r w3 =>
          rw [hsave] at h3
          simp only at h3
          cases r <;> exact ⟨f3, w.tick + 1, h3⟩
    · simp only [ne_eq, h200, not_false_eq_true, if_true]
      exact ⟨w.file, w.tick, rfl⟩

theorem testOAuth_persists {c : ProofClient} {w w1 : World} {tok : OAuthToken}
    (h : c.TestOAuthAuthentication w = (.ok tok, w1)) :
    persistedToken w1.file = some (storedToken tok) := by
  unfold ProofClient.TestOAuthAuthentication at h
  cases ha : c.AuthenticateOAuth w with
  | mk r wa =>
    rw [ha] at h
    cases r with
    | error e => simp at h
    | ok token =>
      simp only at h
      cases hs : SaveOAuthToken token wa with
      | mk r2 w2 =>
        rw [hs] at h
        cases r2 with
        | some e => simp at h
        | none =>
          simp only [Prod.mk.injEq, Except.ok.injEq] at h
          rw [← h.1, ← h.2]
          exact (saveOAuthToken_ok hs).1

/-- C12, the claim as stated fails: with OAuth enabled and an empty client
secret, `TestOAuthAuthentication` returns the error of
`PrepareOAuthTokenRequest` and sends no token request. And where the clock
stands in a zone 19815 seconds east of UTC, the call succeeds and the token
stored is not the token returned: the JSON text keeps the zone to the minute,
so the expiry stored is 15 seconds later, in the zone 19800 seconds east. -/
theorem testOAuth_counterexample :
    oauthEnabled noSecretClient.config = true ∧
    (noSecretClient.TestOAuthAuthentication expiredWorld).1 =
      .error "error testing OAuth authentication: OAuth client ID and secret are required" ∧
    (noSecretClient.TestOAuthAuthentication expiredWorld).2.sent = [] ∧
    (sampleClient.TestOAuthAuthentication oddZoneWorld).1 =
      .ok { sampleToken with ExpiresAt := ⟨4600 * Second, 19815⟩ } ∧
    persistedToken (sampleClient.TestOAuthAuthentication oddZoneWorld).2.file =
      some { sampleToken with ExpiresAt := ⟨4615 * Second, 19800⟩ } := by
  refine ⟨by decide, by decide, by decide, ?_, ?_⟩
  · set_option maxRecDepth 20000 in decide
  · set_option maxRecDepth 20000 in decide

/-- C12, amended. When the token request can be prepared (OAuth enabled, client
id and secret not empty) and `http.NewRequest` accepts the token URL,
`TestOAuthAuthentication` sends exactly one token request on every call,
whatever token the configuration file holds, so two successive calls send two;
after each successful call the stored `oauth_token` is the token that the call
returned, as a whole, with its expiry as the JSON text keeps it: the same
time when the zone of the expiry has an offset of whole minutes. -/
theorem testOAuth_forced (c : ProofClient) (oreq : OAuthRequest) (w : World)
    (hp : PrepareOAuthTokenRequest c.config = .ok oreq) (hu : w.urlParses oreq.URL = true) :
    (c.TestOAuthAuthentication w).2.sent = w.sent ++ [tokenRequestOf c oreq] ∧
    (c.TestOAuthAuthentication (c.TestOAuthAuthentication w).2).2.sent =
      w.sent ++ [tokenRequestOf c oreq, tokenRequestOf c oreq] ∧
    (∀ tok w1, c.TestOAuthAuthentication w = (.ok tok, w1) →
      persistedToken w1.file = some (storedToken tok) ∧
      (tok.ExpiresAt.offset % 60 = 0 → persistedToken w1.file = some tok)) ∧
    (∀ tok w2, c.TestOAuthAuthentication (c.TestOAuthAuthentication w).2 = (.ok tok, w2) →
      persistedToken w2.file = some (storedToken tok) ∧
      (tok.ExpiresAt.offset % 60 = 0 → persistedToken w2.file = some tok)) := by
  obtain ⟨f, t, h1⟩ := testOAuth_sent w hp hu
  have hu2 : (c.TestOAuthAuthentication w).2.urlParses oreq.URL = true := by rw [h1]; exact hu
  obtain ⟨f2, t2, h2⟩ := testOAuth_sent (c.TestOAuthAuthentication w).2 hp hu2
  have hper : ∀ (w0 : World) tok w1, c.TestOAuthAuthentication w0 = (.ok tok, w1) →
      persistedToken w1.file = some (storedToken tok) ∧
      (tok.ExpiresAt.offset % 60 = 0 → persistedToken w1.file = some tok) := by
    intro w0 tok w1 h
    have hp1 := testOAuth_persists h
    refine ⟨hp1, fun hz => ?_⟩
    rw [hp1, storedToken_whole hz]
  refine ⟨by rw [h1], ?_, hper w, hper _⟩
  rw [h2]
  simp only
  rw [h1]
  simp

/-- Witness of C12 (amended): `sampleClient` in `sampleWorld 200`, where the
stored token is still valid, sends the token request all the same. -/
theorem testOAuth_forced_witness :
    (sampleClient.TestOAuthAuthentication (sampleWorld 200)).2.sent =
      (sampleWorld 200).sent ++ [tokenRequestOf sampleClient sampleOAuthRequest] :=
  (testOAuth_forced sampleClient sampleOAuthRequest (sampleWorld 200) (by decide) (by decide)).1

/-! ## The business request -/

theorem newRequest_cases (w : World) (method url : String) (body : Option String) :
    (∃ e, newRequest w method url body = .error e) ∨
      (validMethod method = true ∧ w.urlParses url = true) := by
  unfold newRequest
  by_cases hm : validMethod method = true
  · by_cases hu : w.urlParses url = true
    · right; exact ⟨hm, hu⟩
    · left; simp [hm, hu]
  · left; simp [hm]

/-- `Request`, once its request is built: the authentication step, then the one
call of `httpClient.Do` and the classification of its outcome. -/
theorem request_eq (c : ProofClient) (method path : String)
    (body : Option (Except String String)) (opts : List (Option RequestOptions)) (w : World)
    {br : Option String} (hb : bodyReaderOf body = .ok br)
    (hm : validMethod method = true) (hu : w.urlParses (c.config.APIEndpoint ++ path) = true) :
    c.Request method path body opts w =
      match authStep c w with
      | (.error e, w1) => (.error e, w1)
      | (.ok (k, v), w1) =>
        (requestOutcome (w1.server w1.sent (businessRequest c method path br k v opts)),
          { w1 with sent := w1.sent ++ [businessRequest c method path br k v opts] }) := by
  unfold authStep
  cases hon : oauthEnabled c.config with
  | false =>
    rw [request_eq_apikey c method path body opts w hon hb hm hu]
    simp
  | true =>
    rw [request_eq_oauth c method path body opts w hon hb hm hu]
    simp only [if_true]
    generalize c.getValidOAuthToken w = gv
    obtain ⟨r, w1⟩ := gv
    cases r <;> rfl

/-- A call of `Request` that does not get to build its request returns an error
and leaves the world as it is. -/
theorem request_early (c : ProofClient) (method path : String)
    (body : Option (Except String String)) (opts : List (Option RequestOptions)) (w : World)
    (h : ¬ ∃ br, bodyReaderOf body = .ok br ∧ validMethod method = true ∧
      w.urlParses (c.config.APIEndpoint ++ path) = true) :
    ∃ e, c.Request method path body opts w = (.error e, w) := by
  cases hb : bodyReaderOf body with
  | error e => exact ⟨_, request_marshal_error c method path body opts w hb⟩
  | ok br =>
    rcases newRequest_cases w method (c.config.APIEndpoint ++ path) br with ⟨e, he⟩ | ⟨hm, hu⟩
    · exact ⟨_, request_create_error c method path body opts w hb he⟩
    · exact absurd ⟨br, hb, hm, hu⟩ h

theorem header_values_nil (k : String) : Header.Values [] k = [] := rfl

theorem business_contentType (c : ProofClient) (method path : String) (br : Option String)
    (k v : String) (opts : List (Option RequestOptions)) :
    Header.Values (businessRequest c method path br k v opts).Header "Content-Type" =
      [contentTypeOf opts] := by
  have e1 : ¬ (canonicalKey "Content-Type" = canonicalKey "Accept") := by decide
  unfold businessRequest
  simp only
  rw [header_values_set, if_neg e1, header_values_set, if_pos rfl]

theorem business_accept (c : ProofClient) (method path : String) (br : Option String)
    (k v : String) (opts : List (Option RequestOptions)) :
    Header.Values (businessRequest c method path br k v opts).Header "Accept" = [acceptOf opts] := by
  unfold businessRequest
  simp only
  rw [header_values_set, if_pos rfl]

theorem business_apikey (c : ProofClient) (method path : String) (br : Option String)
    (v : String) (opts : List (Option RequestOptions)) :
    Header.Values (businessRequest c method path br "ApiKey" v opts).Header "ApiKey" = [v] ∧
    Header.Values (businessRequest c method path br "ApiKey" v opts).Header "Authorization" = [] := by
  have e1 : ¬ (canonicalKey "ApiKey" = canonicalKey "Accept") := by decide
  have e2 : ¬ (canonicalKey "ApiKey" = canonicalKey "Content-Type") := by decide
  have e3 : ¬ (canonicalKey "Authorization" = canonicalKey "Accept") := by decide
  have e4 : ¬ (canonicalKey "Authorization" = canonicalKey "Content-Type") := by decide
  have e5 : ¬ (canonicalKey "Authorization" = canonicalKey "ApiKey") := by decide
  unfold businessRequest
  simp only
  constructor
  · rw [header_values_set, if_neg e1, header_values_set, if_neg e2, header_values_set, if_pos rfl]
  · rw [header_values_set, if_neg e3, header_values_set, if_neg e4, header_values_set, if_neg e5]
    rfl

theorem business_bearer (c : ProofClient) (method path : String) (br : Option String)
    (v : String) (opts : List (Option RequestOptions)) :
    Header.Values (businessRequest c method path br "Authorization" v opts).Header "Authorization" =
      [v] ∧
    Header.Values (businessRequest c method path br "Authorization" v opts).Header "ApiKey" = [] := by
  have e1 : ¬ (canonicalKey "ApiKey" = canonicalKey "Accept") := by decide
  have e2 : ¬ (canonicalKey "ApiKey" = canonicalKey "Content-Type") := by decide
  have e3 : ¬ (canonicalKey "Authorization" = canonicalKey "Accept") := by decide
  have e4 : ¬ (canonicalKey "Authorization" = canonicalKey "Content-Type") := by decide
  have e5 : ¬ (canonicalKey "ApiKey" = canonicalKey "Authorization") := by decide
  unfold businessRequest
  simp only
  constructor
  · rw [header_values_set, if_neg e3, header_values_set, if_neg e4, header_values_set, if_pos rfl]
  · rw [header_values_set, if_neg e1, header_values_set, if_neg e2, header_values_set, if_neg e5]
    rfl

/-- C13. For every client with OAuth disabled and the API key `k`, a call of
`Request` sends nothing or exactly one request; every request it sends carries
the header `ApiKey` with the one value `k` and no `Authorization` header; and
it sends its request whenever the request can be built. -/
theorem request_apikey_mode (c : ProofClient) (k : String) (hk : c.apiKey = k)
    (hoff : oauthEnabled c.config = false) (method path : String)
    (body : Option (Except String String)) (opts : List (Option RequestOptions)) (w : World) :
    ((c.Request method path body opts w).2.sent = w.sent ∨
      ∃ br, (c.Request method path body opts w).2.sent =
        w.sent ++ [businessRequest c method path br "ApiKey" k opts]) ∧
    (∀ req, req ∈ (c.Request method path body opts w).2.sent → req ∈ w.sent ∨
      (Header.Values req.Header "ApiKey" = [k] ∧ Header.Values req.Header "Authorization" = [])) ∧
    (∀ br, bodyReaderOf body = .ok br → validMethod method = true →
      w.urlParses (c.config.APIEndpoint ++ path) = true →
      (c.Request method path body opts w).2.sent =
        w.sent ++ [businessRequest c method path br "ApiKey" k opts]) := by
  have hsend : ∀ br, bodyReaderOf body = .ok br → validMethod method = true →
      w.urlParses (c.config.APIEndpoint ++ path) = true →
      (c.Request method path body opts w).2.sent =
        w.sent ++ [businessRequest c method path br "ApiKey" k opts] := by
    intro br hb hm hu
    rw [request_eq_apikey c method path body opts w hoff hb hm hu, hk]
  have hcases : (c.Request method path body opts w).2.sent = w.sent ∨
      ∃ br, (c.Request method path body opts w).2.sent =
        w.sent ++ [businessRequest c method path br "ApiKey" k opts] := by
    by_cases h : ∃ br, bodyReaderOf body = .ok br ∧ validMethod method = true ∧
        w.urlParses (c.config.APIEndpoint ++ path) = true
    · obtain ⟨br, hb, hm, hu⟩ := h
      exact Or.inr ⟨br, hsend br hb hm hu⟩
    · obtain ⟨e, he⟩ := request_early c method path body opts w h
      left
      rw [he]
  refine ⟨hcases, ?_, hsend⟩
  intro req hreq
  rcases hcases with h | ⟨br, h⟩
  · left
    rw [h] at hreq
    exact hreq
  · rw [h] at hreq
    rcases List.mem_append.1 hreq with h1 | h1
    · left; exact h1
    · right
      rw [List.mem_singleton] at h1
      rw [h1]
      exact business_apikey c method path br k opts

/-- Witness of C13: `noOAuthClient`, whose key is `key_1`, sends its request
with `ApiKey: key_1`. -/
theorem request_apikey_mode_witness :
    (noOAuthClient.Request "GET" "/v1/transactions" none [] (sampleWorld 200)).2.sent =
      (sampleWorld 200).sent ++
        [businessRequest noOAuthClient "GET" "/v1/transactions" none "ApiKey" "key_1" []] :=
  (request_apikey_mode noOAuthClient "key_1" rfl (by decide) "GET" "/v1/transactions" none []
    (sampleWorld 200)).2.2 none rfl (by decide) (by decide)

/-! ## Which requests the token functions send -/

theorem authenticate_not_sent {c : ProofClient} (w : World)
    (h : ¬ ∃ oreq, PrepareOAuthTokenRequest c.config = .ok oreq ∧ w.urlParses oreq.URL = true) :
    ∃ e, c.AuthenticateOAuth w = (.error e, w) := by
  unfold ProofClient.AuthenticateOAuth
  cases hp : PrepareOAuthTokenRequest c.config with
  | error e => exact ⟨e, rfl⟩
  | ok oreq =>
    simp only
    rcases newRequest_cases w "POST" oreq.URL (some oreq.FormData) with ⟨e, he⟩ | ⟨_, hu⟩
    · rw [he]
      exact ⟨_, rfl⟩
    · exact absurd ⟨oreq, hp, hu⟩ h

theorem testOAuth_sent_cases (c : ProofClient) (w : World) :
    (c.TestOAuthAuthentication w).2.sent = w.sent ∨
      ∃ oreq, PrepareOAuthTokenRequest c.config = .ok oreq ∧
        (c.TestOAuthAuthentication w).2.sent = w.sent ++ [tokenRequestOf c oreq] := by
  by_cases h : ∃ oreq, PrepareOAuthTokenRequest c.config = .ok oreq ∧ w.urlParses oreq.URL = true
  · obtain ⟨oreq, hp, hu⟩ := h
    obtain ⟨f, t, hw⟩ := testOAuth_sent w hp hu
    exact Or.inr ⟨oreq, hp, by rw [hw]⟩
  · obtain ⟨e, he⟩ := authenticate_not_sent (c := c) w h
    left
    unfold ProofClient.TestOAuthAuthentication
    rw [he]

theorem getValid_sent_cases (c : ProofClient) (w : World) :
    (c.getValidOAuthToken w).2.sent = w.sent ∨
      ∃ oreq, PrepareOAuthTokenRequest c.config = .ok oreq ∧
        (c.getValidOAuthToken w).2.sent = w.sent ++ [tokenRequestOf c oreq] := by
  obtain ⟨f0, t0, h0, _⟩ := shouldRefresh_frame c.config w
  unfold ProofClient.getValidOAuthToken
  cases hsr : ShouldRefreshToken c.config w with
  | mk r0 w0 =>
    rw [hsr] at h0
    simp only at h0
    have hsent : w0.sent = w.sent := by rw [h0]
    cases r0 with
    | error e => left; exact hsent
    | ok b =>
      cases b with
      | false =>
        left
        obtain ⟨f1, h1, _⟩ := loadOAuthToken_frame w0
        simp only [h1, hsent]
      | true =>
        simp only
        have hworld : (match c.AuthenticateOAuth w0 with
            | (.error e, w2) => (Except.error ("error getting OAuth token: " ++ e), w2)
            | (.ok token, w2) =>
              match SaveOAuthToken token w2 with
              | (some e, w3) => (Except.error ("error saving OAuth token: " ++ e), w3)
              | (none, w3) => (Except.ok token, w3)).2 = (c.TestOAuthAuthentication w0).2 := by
          unfold ProofClient.TestOAuthAuthentication
          generalize c.AuthenticateOAuth w0 = a
          obtain ⟨r, w2⟩ := a
          cases r with
          | error e => rfl
          | ok token => simp only
        rw [hworld]
        rcases testOAuth_sent_cases c w0 with h | ⟨oreq, hp, h⟩
        · left; rw [h, hsent]
        · right; exact ⟨oreq, hp, by rw [h, hsent]⟩

theorem prepare_headers {config : Config} {oreq : OAuthRequest}
    (h : PrepareOAuthTokenRequest config = .ok oreq) :
    ∃ a, oreq.Headers = [("Accept", "application/json"), ("Authorization", a),
      ("Content-Type", "application/x-www-form-urlencoded")] := by
  unfold PrepareOAuthTokenRequest at h
  cases ho : config.OAuth with
  | none => simp [ho] at h
  | some oauth =>
    simp only [ho] at h
    split_ifs at h
    all_goals
      simp only [Except.ok.injEq] at h
      rw [← h]
      exact ⟨_, rfl⟩

theorem token_request_no_apikey {c : ProofClient} {oreq : OAuthRequest}
    (h : PrepareOAuthTokenRequest c.config = .ok oreq) :
    Header.Values (tokenRequestOf c oreq).Header "ApiKey" = [] := by
  obtain ⟨a, ha⟩ := prepare_headers h
  have e1 : ¬ (canonicalKey "ApiKey" = canonicalKey "Accept") := by decide
  have e2 : ¬ (canonicalKey "ApiKey" = canonicalKey "Content-Type") := by decide
  have e3 : ¬ (canonicalKey "ApiKey" = canonicalKey "Authorization") := by decide
  unfold tokenRequestOf
  simp only [ha, List.foldl_cons, List.foldl_nil]
  rw [header_values_set, if_neg e2, header_values_set, if_neg e3, header_values_set, if_neg e1]
  rfl

/-- C14. When OAuth is enabled in the configuration of the client, whatever API
key the client, the environment or the configuration file hold: once
`getValidOAuthToken` has returned a token, `Request` sends its request with
`Authorization` equal to `Bearer ` followed by the access token of that token
and without an `ApiKey` header; and no request sent during the call, the token
request included, carries an `ApiKey` header. -/
theorem request_bearer_mode (c : ProofClient) (hon : oauthEnabled c.config = true)
    (method path : String) (body : Option (Except String String))
    (opts : List (Option RequestOptions)) (w : World) :
    (∀ br, bodyReaderOf body = .ok br → validMethod method = true →
      w.urlParses (c.config.APIEndpoint ++ path) = true →
      ∀ token w1, c.getValidOAuthToken w = (.ok token, w1) →
        (c.Request method path body opts w).2.sent = w1.sent ++
          [businessRequest c method path br "Authorization" ("Bearer " ++ token.AccessToken) opts] ∧
        Header.Values (businessRequest c method path br "Authorization"
          ("Bearer " ++ token.AccessToken) opts).Header "Authorization" =
            ["Bearer " ++ token.AccessToken] ∧
        Header.Values (businessRequest c method path br "Authorization"
          ("Bearer " ++ token.AccessToken) opts).Header "ApiKey" = []) ∧
    (∀ req, req ∈ (c.Request method path body opts w).2.sent → req ∈ w.sent ∨
      Header.Values req.Header "ApiKey" = []) := by
  constructor
  · intro br hb hm hu token w1 hg
    rw [request_eq_oauth c method path body opts w hon hb hm hu, hg]
    exact ⟨rfl, business_bearer c method path br _ opts⟩
  · intro req hreq
    have hgv : ∀ r, r ∈ (c.getValidOAuthToken w).2.sent → r ∈ w.sent ∨
        Header.Values r.Header "ApiKey" = [] := by
      intro r hr
      rcases getValid_sent_cases c w with h | ⟨oreq, hp, h⟩
      · left; rw [h] at hr; exact hr
      · rw [h] at hr
        rcases List.mem_append.1 hr with h1 | h1
        · left; exact h1
        · right
          rw [List.mem_singleton] at h1
          rw [h1]
          exact token_request_no_apikey hp
    by_cases h : ∃ br, bodyReaderOf body = .ok br ∧ validMethod method = true ∧
        w.urlParses (c.config.APIEndpoint ++ path) = true
    · obtain ⟨br, hb, hm, hu⟩ := h
      rw [request_eq_oauth c method path body opts w hon hb hm hu] at hreq
      cases hg : c.getValidOAuthToken w with
      | mk r w1 =>
        rw [hg] at hreq hgv
        simp only at hgv
        cases r with
        | error e => exact hgv req hreq
        | ok token =>
          simp only at hreq
          rcases List.mem_append.1 hreq with h1 | h1
          · exact hgv req h1
          · right
            rw [List.mem_singleton] at h1
            rw [h1]
            exact (business_bearer c method path br _ opts).2
    · obtain ⟨e, he⟩ := request_early c method path body opts w h
      left
      rw [he] at hreq
      exact hreq

/-- Witness of C14: `sampleClient` with the valid stored token `tok_0` sends its
request with `Authorization: Bearer tok_0`. -/
theorem request_bearer_mode_witness :
    (sampleClient.Request "GET" "/v1/transactions" none [] (sampleWorld 200)).2.sent =
        ({ sampleWorld 200 with tick := 1 } : World).sent ++
          [businessRequest sampleClient "GET" "/v1/transactions" none "Authorization"
            ("Bearer " ++ "tok_0") []] ∧
      Header.Values (businessRequest sampleClient "GET" "/v1/transactions" none "Authorization"
        ("Bearer " ++ "tok_0") []).Header "Authorization" = ["Bearer " ++ "tok_0"] ∧
      Header.Values (businessRequest sampleClient "GET" "/v1/transactions" none "Authorization"
        ("Bearer " ++ "tok_0") []).Header "ApiKey" = [] :=
  (request_bearer_mode sampleClient (by decide) "GET" "/v1/transactions" none [] (sampleWorld 200)).1
    none rfl (by decide) (by decide)
    { sampleToken with AccessToken := "tok_0", ExpiresAt := ⟨4600 * Second, 0⟩ }
    { sampleWorld 200 with tick := 1 } (by rfl)

/-! ## Content negotiation and the classification of responses -/

/-- C15. For every call of `Request` that gets to send its request, the
`Content-Type` header of that request is the `ContentType` of the first options
value when that value is there, not nil and has a non-empty `ContentType`, and
`application/json` otherwise; the `Accept` header follows the same rule with
the field `Accept`, whatever the `ContentType` is. -/
theorem request_content_negotiation (c : ProofClient) (method path : String)
    (body : Option (Except String String)) (br : Option String)
    (opts : List (Option RequestOptions)) (w w1 : World) (k v : String)
    (hb : bodyReaderOf body = .ok br) (hm : validMethod method = true)
    (hu : w.urlParses (c.config.APIEndpoint ++ path) = true)
    (ha : authStep c w = (.ok (k, v), w1)) :
    (c.Request method path body opts w).2.sent =
      w1.sent ++ [businessRequest c method path br k v opts] ∧
    (∀ o rest, opts = some o :: rest → o.ContentType ≠ "" →
      Header.Values (businessRequest c method path br k v opts).Header "Content-Type" =
        [o.ContentType]) ∧
    ((opts = [] ∨ (∃ rest, opts = none :: rest) ∨
        ∃ o rest, opts = some o :: rest ∧ o.ContentType = "") →
      Header.Values (businessRequest c method path br k v opts).Header "Content-Type" =
        ["application/json"]) ∧
    (∀ o rest, opts = some o :: rest → o.Accept ≠ "" →
      Header.Values (businessRequest c method path br k v opts).Header "Accept" = [o.Accept]) ∧
    ((opts = [] ∨ (∃ rest, opts = none :: rest) ∨
        ∃ o rest, opts = some o :: rest ∧ o.Accept = "") →
      Header.Values (businessRequest c method path br k v opts).Header "Accept" =
        ["application/json"]) := by
  refine ⟨?_, ?_, ?_, ?_, ?_⟩
  · rw [request_eq c method path body opts w hb hm hu, ha]
  · intro o rest ho hne
    rw [business_contentType, ho]
    simp [contentTypeOf, firstOption, hne]
  · intro h
    rw [business_contentType]
    rcases h with h | ⟨rest, h⟩ | ⟨o, rest, h, he⟩
    · rw [h]; rfl
    · rw [h]; rfl
    · rw [h]; simp [contentTypeOf, firstOption, he]
  · intro o rest ho hne
    rw [business_accept, ho]
    simp [acceptOf, firstOption, hne]
  · intro h
    rw [business_accept]
    rcases h with h | ⟨rest, h⟩ | ⟨o, rest, h, he⟩
    · rw [h]; rfl
    · rw [h]; rfl
    · rw [h]; simp [acceptOf, firstOption, he]

/-- Witness of C15: with the options of the SCIM surface, the request of
`noOAuthClient` carries `Content-Type: application/scim+json`. -/
theorem request_content_negotiation_witness :
    Header.Values (businessRequest noOAuthClient "GET" "/scim/v2/Users" none "ApiKey" "key_1"
      [some ⟨"application/scim+json", "application/scim+json"⟩]).Header "Content-Type" =
        ["application/scim+json"] :=
  (request_content_negotiation noOAuthClient "GET" "/scim/v2/Users" none none
    [some ⟨"application/scim+json", "application/scim+json"⟩] (sampleWorld 200) (sampleWorld 200)
    "ApiKey" "key_1" rfl (by decide) (by decide) (by rfl)).2.1
    ⟨"application/scim+json", "application/scim+json"⟩ [] rfl (by decide)

/-- C16. For every response that `Request` receives to its request, with status
`s` and a body, `Request` succeeds if and only if `200 ≤ s < 300`, and on
success it returns the body of the response, unchanged. -/
theorem request_success_iff (c : ProofClient) (method path : String)
    (body : Option (Except String String)) (br : Option String)
    (opts : List (Option RequestOptions)) (w w1 : World) (k v : String)
    (status : Int) (respBody : String)
    (hb : bodyReaderOf body = .ok br) (hm : validMethod method = true)
    (hu : w.urlParses (c.config.APIEndpoint ++ path) = true)
    (ha : authStep c w = (.ok (k, v), w1))
    (hs : w1.server w1.sent (businessRequest c method path br k v opts) =
      .response status respBody) :
    ((∃ out, (c.Request method path body opts w).1 = .ok out) ↔ 200 ≤ status ∧ status < 300) ∧
    (200 ≤ status ∧ status < 300 → (c.Request method path body opts w).1 = .ok respBody) ∧
    (∀ out, (c.Request method path body opts w).1 = .ok out → out = respBody) := by
  rw [request_eq c method path body opts w hb hm hu, ha]
  simp only [hs, requestOutcome]
  by_cases h : status < 200 ∨ status ≥ 300
  · simp only [h, if_true]
    refine ⟨⟨fun ⟨_, e⟩ => by simp at e, fun hr => by omega⟩, fun hr => by omega, ?_⟩
    intro out e
    simp at e
  · simp only [h, if_false]
    refine ⟨⟨fun _ => by omega, fun _ => ⟨respBody, rfl⟩⟩, fun _ => trivial, ?_⟩
    intro out e
    simp only [Except.ok.injEq] at e
    exact e.symm

/-- Witness of C16: the server of `sampleWorld 200` answers 200 and the body
`token-body`, which `Request` returns. -/
theorem request_success_iff_witness :
    (noOAuthClient.Request "GET" "/v1/transactions" none [] (sampleWorld 200)).1 =
      .ok "token-body" :=
  (request_success_iff noOAuthClient "GET" "/v1/transactions" none none [] (sampleWorld 200)
    (sampleWorld 200) "ApiKey" "key_1" 200 "token-body" rfl (by decide) (by decide) (by rfl)
    (by rfl)).2.1 (by decide)

/-- C17. For every response to its request with a status below 200 or at least
300, `Request` returns no bytes but the error whose text is `API error (status `,
the status in decimal, `): ` and the body of the response, unchanged. -/
theorem request_api_error (c : ProofClient) (method path : String)
    (body : Option (Except String String)) (br : Option String)
    (opts : List (Option RequestOptions)) (w w1 : World) (k v : String)
    (status : Int) (respBody : String)
    (hb : bodyReaderOf body = .ok br) (hm : validMethod method = true)
    (hu : w.urlParses (c.config.APIEndpoint ++ path) = true)
    (ha : authStep c w = (.ok (k, v), w1))
    (hs : w1.server w1.sent (businessRequest c method path br k v opts) =
      .response status respBody)
    (hout : status < 200 ∨ 300 ≤ status) :
    (c.Request method path body opts w).1 =
      .error ("API error (status " ++ FormatInt status ++ "): " ++ respBody) := by
  rw [request_eq c method path body opts w hb hm hu, ha]
  simp only [hs, requestOutcome]
  have h : status < 200 ∨ status ≥ 300 := hout
  simp only [h, if_true]

/-- Witness of C17: the server of `sampleWorld 404` answers 404 and the body
`token-body`; `Request` returns `API error (status 404): token-body`. -/
theorem request_api_error_witness :
    (noOAuthClient.Request "GET" "/v1/transactions" none [] (sampleWorld 404)).1 =
      .error ("API error (status " ++ FormatInt 404 ++ "): " ++ "token-body") :=
  request_api_error noOAuthClient "GET" "/v1/transactions" none none [] (sampleWorld 404)
    (sampleWorld 404) "ApiKey" "key_1" 404 "token-body" rfl (by decide) (by decide) (by rfl)
    (by rfl) (by decide)

/-! ## Resolving the credentials -/

/-- C18. For every non-empty value of `PROOF_API_KEY`, `GetAPIKey` returns that
value without error, whatever the configuration file holds, and leaves the
world as it is: it does not load the configuration. -/
theorem getAPIKey_env (w : World) (h : w.envAPIKey ≠ "") :
    GetAPIKey w = (.ok w.envAPIKey, w) := by
  unfold GetAPIKey
  simp only [ne_eq, h, not_false_eq_true, if_true]

/-- Witness of C18: with `PROOF_API_KEY=abc` and no configuration file,
`GetAPIKey` returns `abc` and no file is created. -/
theorem getAPIKey_env_witness : GetAPIKey envWorld = (.ok "abc", envWorld) :=
  getAPIKey_env envWorld (by decide)

theorem loadConfig_again {w w1 : World} {config : Config} (h : LoadConfig w = (.ok config, w1)) :
    LoadConfig w1 = (.ok config, w1) ∨
      (w1.readable = false ∧ config.APIKey = "" ∧ ∃ e, LoadConfig w1 = (.error e, w1)) := by
  rcases w with ⟨home, readable, writable, oserr, file, env, clock, tick, server, sent, urlParses, jsonToken⟩
  cases home
  · simp [LoadConfig] at h
  · cases file with
    | noDir =>
      cases writable
      · simp [LoadConfig] at h
      · simp only [LoadConfig, Bool.not_true, Bool.false_eq_true, if_false, marshalConfig,
          defaultConfig, Prod.mk.injEq, Except.ok.injEq] at h
        obtain ⟨hc, hw⟩ := h
        subst hc hw
        cases readable
        · right; exact ⟨rfl, rfl, _, rfl⟩
        · left; rfl
    | noFile =>
      cases writable
      · simp [LoadConfig, marshalConfig, defaultConfig] at h
      · simp only [LoadConfig, Bool.not_true, Bool.false_eq_true, if_false, marshalConfig,
          defaultConfig, Prod.mk.injEq, Except.ok.injEq] at h
        obtain ⟨hc, hw⟩ := h
        subst hc hw
        cases readable
        · right; exact ⟨rfl, rfl, _, rfl⟩
        · left; rfl
    | present content =>
      cases readable
      · simp [LoadConfig] at h
      · cases content with
        | garbage => simp [LoadConfig] at h
        | doc d =>
          simp only [LoadConfig, Bool.not_true, Bool.false_eq_true, if_false, Prod.mk.injEq,
            Except.ok.injEq] at h
          obtain ⟨hc, hw⟩ := h
          subst hc hw
          left; rfl

theorem loadConfig_env {w w1 : World} {r : Except String Config} (h : LoadConfig w = (r, w1)) :
    w1.envAPIKey = w.envAPIKey := by
  obtain ⟨f, hf, _⟩ := loadConfig_frame w
  rw [h] at hf
  simp only at hf
  rw [hf]

theorem getAPIKey_nonempty {w : World} (h : w.envAPIKey ≠ "") :
    GetAPIKey w = (.ok w.envAPIKey, w) := by
  unfold GetAPIKey
  simp only [ne_eq, h, not_false_eq_true, if_true]

theorem newProofClient_unfold {w w1 : World} {config : Config}
    (hl : LoadConfig w = (.ok config, w1)) :
    NewProofClient w =
      if oauthEnabled config then
        (.ok { config := config, timeout := config.Timeout, apiKey := "", oauthToken := none }, w1)
      else
        match GetAPIKey w1 with
        | (.error e, w2) => (.error ("failed to get API key: " ++ e), w2)
        | (.ok apiKey, w2) =>
          (.ok { config := config, timeout := config.Timeout, apiKey := apiKey, oauthToken := none },
            w2) := by
  unfold NewProofClient oauthEnabled
  rw [hl]

/-- C19. Given a configuration that loads, `NewProofClient` fails if and only if
OAuth is not enabled, `PROOF_API_KEY` is unset or empty, and the loaded
`api_key` is empty, and it then fails with `API key not found`. When OAuth is
enabled it succeeds with an empty API key, without looking for one; when OAuth
is not enabled the key of the client is the value of the environment variable
if that is not empty, and the loaded `api_key` otherwise. -/
theorem newProofClient_credentials (w w1 : World) (config : Config)
    (hl : LoadConfig w = (.ok config, w1)) :
    ((∃ e, (NewProofClient w).1 = .error e) ↔
      (oauthEnabled config = false ∧ w.envAPIKey = "" ∧ config.APIKey = "")) ∧
    (oauthEnabled config = true →
      NewProofClient w =
        (.ok { config := config, timeout := config.Timeout, apiKey := "", oauthToken := none }, w1)) ∧
    (oauthEnabled config = false → w.envAPIKey ≠ "" →
      NewProofClient w =
        (.ok { config := config, timeout := config.Timeout, apiKey := w.envAPIKey,
               oauthToken := none }, w1)) ∧
    (oauthEnabled config = false → w.envAPIKey = "" → config.APIKey ≠ "" →
      NewProofClient w =
        (.ok { config := config, timeout := config.Timeout, apiKey := config.APIKey,
               oauthToken := none }, w1)) ∧
    (oauthEnabled config = false → w.envAPIKey = "" → config.APIKey = "" → w1.readable = true →
      NewProofClient w =
        (.error ("failed to get API key: " ++
          "API key not found. Set PROOF_API_KEY environment variable or run 'proof config set-api-key'"),
          w1)) := by
  have henv := loadConfig_env hl
  have hun := newProofClient_unfold hl
  have hon : oauthEnabled config = true →
      NewProofClient w =
        (.ok { config := config, timeout := config.Timeout, apiKey := "", oauthToken := none }, w1) := by
    intro h
    rw [hun, h]
    rfl
  have henvkey : oauthEnabled config = false → w.envAPIKey ≠ "" →
      NewProofClient w =
        (.ok { config := config, timeout := config.Timeout, apiKey := w.envAPIKey,
               oauthToken := none }, w1) := by
    intro h he
    rw [hun, h, getAPIKey_nonempty (by rw [henv]; exact he), henv]
    rfl
  have hfile : oauthEnabled config = false → w.envAPIKey = "" → config.APIKey ≠ "" →
      NewProofClient w =
        (.ok { config := config, timeout := config.Timeout, apiKey := config.APIKey,
               oauthToken := none }, w1) := by
    intro h he hk
    rw [hun, h]
    rcases loadConfig_again hl with h2 | ⟨_, hk2, _⟩
    · simp only [Bool.false_eq_true, if_false, GetAPIKey, henv, he, ne_eq, not_true_eq_false, h2, hk]
    · exact absurd hk2 hk
  have hnone : oauthEnabled config = false → w.envAPIKey = "" → config.APIKey = "" →
      ∃ e, NewProofClient w = (.error e, w1) ∧ (w1.readable = true → e = "failed to get API key: " ++
        "API key not found. Set PROOF_API_KEY environment variable or run 'proof config set-api-key'") := by
    intro h he hk
    rw [hun, h]
    rcases loadConfig_again hl with h2 | ⟨hr, _, e2, h2⟩
    · refine ⟨_, ?_, fun _ => rfl⟩
      simp only [Bool.false_eq_true, if_false, GetAPIKey, henv, he, ne_eq, not_true_eq_false, h2, hk,
        if_true]
    · refine ⟨"failed to get API key: " ++ ("error loading config: " ++ e2), ?_, ?_⟩
      · simp only [Bool.false_eq_true, if_false, GetAPIKey, henv, he, ne_eq, not_true_eq_false, h2]
      · intro hr2
        rw [hr] at hr2
        simp at hr2
  refine ⟨⟨?_, ?_⟩, hon, henvkey, hfile, ?_⟩
  · rintro ⟨e, he⟩
    cases ho : oauthEnabled config with
    | true => rw [hon ho] at he; simp at he
    | false =>
      by_cases h1 : w.envAPIKey = ""
      · by_cases h2 : config.APIKey = ""
        · exact ⟨rfl, h1, h2⟩
        · rw [hfile ho h1 h2] at he; simp at he
      · rw [henvkey ho h1] at he; simp at he
  · rintro ⟨ho, h1, h2⟩
    obtain ⟨e, he, _⟩ := hnone ho h1 h2
    exact ⟨e, by rw [he]⟩
  · intro ho h1 h2 hr
    obtain ⟨e, he, ht⟩ := hnone ho h1 h2
    rw [he, ht hr]

/-- Witness of C19: in `sampleWorld 200` the configuration loads with OAuth
enabled, and `NewProofClient` returns a client with an empty API key. -/
theorem newProofClient_credentials_witness :
    NewProofClient (sampleWorld 200) =
      (.ok { config := unmarshalConfig sampleDoc defaultConfig,
             timeout := (unmarshalConfig sampleDoc defaultConfig).Timeout, apiKey := "",
             oauthToken := none }, sampleWorld 200) :=
  (newProofClient_credentials (sampleWorld 200) (sampleWorld 200)
    (unmarshalConfig sampleDoc defaultConfig) (by rfl)).2.1 (by decide)

/-! ## Reading and the configuration file -/

/-- C20, the claim as stated fails: in `freshWorld` no configuration file
exists; after `LoadConfig`, after `GetAPIKey` and after `LoadOAuthToken` the
file exists and holds the default configuration. -/
theorem read_creates_file_counterexample :
    freshWorld.file = .noFile ∧
    (LoadConfig freshWorld).2.file = .present (.doc defaultDoc) ∧
    (GetAPIKey freshWorld).2.file = .present (.doc defaultDoc) ∧
    (LoadOAuthToken freshWorld).2.file = .present (.doc defaultDoc) ∧
    (LoadConfig freshWorld).2.file ≠ freshWorld.file := by
  decide

theorem getAPIKey_world (w : World) : (GetAPIKey w).2 = w ∨ (GetAPIKey w).2 = (LoadConfig w).2 := by
  unfold GetAPIKey
  by_cases h : w.envAPIKey = ""
  · right
    simp only [ne_eq, h, not_true_eq_false, if_false]
    generalize LoadConfig w = l
    obtain ⟨r, w1⟩ := l
    cases r with
    | error e => rfl
    | ok config =>
      simp only
      split <;> rfl
  · left
    simp only [ne_eq, h, not_false_eq_true, if_true]

/-- C20, amended. Reading credentials or configuration (`LoadConfig`,
`GetAPIKey`, `LoadOAuthToken`) leaves the world as it is whenever a
configuration file exists, and `GetAPIKey` leaves it as it is whenever
`PROOF_API_KEY` is not empty. When no configuration file exists yet (and the
home directory resolves and can be written to), `LoadConfig` creates it with
the default configuration, and so do `LoadOAuthToken` and, with
`PROOF_API_KEY` empty, `GetAPIKey`. -/
theorem read_frame (w : World) :
    (∀ content, w.file = .present content →
      (LoadConfig w).2 = w ∧ (GetAPIKey w).2 = w ∧ (LoadOAuthToken w).2 = w) ∧
    (w.envAPIKey ≠ "" → (GetAPIKey w).2 = w) ∧
    (w.home = true → w.writable = true → (w.file = .noDir ∨ w.file = .noFile) →
      (LoadConfig w).2.file = .present (.doc defaultDoc) ∧
      (LoadOAuthToken w).2.file = .present (.doc defaultDoc) ∧
      (w.envAPIKey = "" → (GetAPIKey w).2.file = .present (.doc defaultDoc))) := by
  refine ⟨?_, ?_, ?_⟩
  · intro content hc
    have hload : (LoadConfig w).2 = w := by
      rcases w with ⟨home, readable, writable, oserr, file, env, clock, tick, server, sent, urlParses,
        jsonToken⟩
      simp only at hc
      subst hc
      cases home
      · rfl
      · cases readable
        · rfl
        · cases content <;> rfl
    refine ⟨hload, ?_, by rw [loadOAuthToken_world, hload]⟩
    rcases getAPIKey_world w with h | h
    · exact h
    · rw [h, hload]
  · intro h
    rw [getAPIKey_nonempty h]
  · intro hh hw hf
    have hload : (LoadConfig w).2.file = .present (.doc defaultDoc) := by
      rcases w with ⟨home, readable, writable, oserr, file, env, clock, tick, server, sent, urlParses,
        jsonToken⟩
      simp only at hh hw hf
      subst hh hw
      rcases hf with hf | hf <;> subst hf <;> rfl
    refine ⟨hload, by rw [loadOAuthToken_world, hload], ?_⟩
    intro he
    have : (GetAPIKey w).2 = (LoadConfig w).2 := by
      unfold GetAPIKey
      simp only [ne_eq, he, not_true_eq_false, if_false]
      generalize LoadConfig w = l
      obtain ⟨r, w1⟩ := l
      cases r with
      | error e => rfl
      | ok config =>
        simp only
        split <;> rfl
    rw [this, hload]

/-- Witness of C20 (amended): in `sampleWorld 200` the configuration file exists
and `LoadConfig` leaves the world as it is. -/
theorem read_frame_witness : (LoadConfig (sampleWorld 200)).2 = sampleWorld 200 :=
  ((read_frame (sampleWorld 200)).1 (.doc sampleDoc) rfl).1

/-! ## The error of the token request -/

/-- C27. `PrepareOAuthTokenRequest` returns an error, and with it no request, if
and only if the configuration has no OAuth section, or OAuth is not enabled, or
the client id is empty, or the client secret is empty; in every other case it
returns a request and no error. -/
theorem prepareOAuthTokenRequest_error_iff (config : Config) :
    ((∃ e, PrepareOAuthTokenRequest config = .error e) ↔
      (config.OAuth = none ∨ ∃ o, config.OAuth = some o ∧
        (o.Enabled = false ∨ o.ClientID = "" ∨ o.ClientSecret = ""))) ∧
    ((∃ req, PrepareOAuthTokenRequest config = .ok req) ↔
      ∃ o, config.OAuth = some o ∧ o.Enabled = true ∧ o.ClientID ≠ "" ∧ o.ClientSecret ≠ "") := by
  unfold PrepareOAuthTokenRequest
  cases ho : config.OAuth with
  | none => simp
  | some o =>
    simp only [Option.some.injEq, exists_eq_left', false_or]
    cases he : o.Enabled with
    | false => simp
    | true =>
      by_cases hid : o.ClientID = ""
      · simp [hid]
      · by_cases hsec : o.ClientSecret = ""
        · simp [hsec]
        · simp [hid, hsec]

/-! ## Saving and loading the configuration -/

theorem loadConfig_fixed {w : World} {c : Config} (h : LoadConfig w = (.ok c, w)) :
    w.home = true ∧ w.readable = true ∧
      ∃ d, w.file = .present (.doc d) ∧ c = unmarshalConfig d defaultConfig := by
  rcases w with ⟨home, readable, writable, oserr, file, env, clock, tick, server, sent, urlParses, jsonToken⟩
  cases home
  · simp [LoadConfig] at h
  · cases file with
    | noDir => cases writable <;> simp [LoadConfig, marshalConfig, defaultConfig] at h
    | noFile => cases writable <;> simp [LoadConfig, marshalConfig, defaultConfig] at h
    | present content =>
      cases readable
      · simp [LoadConfig] at h
      · cases content with
        | garbage => simp [LoadConfig] at h
        | doc d =>
          simp only [LoadConfig, Bool.not_true, Bool.false_eq_true, if_false, Prod.mk.injEq,
            Except.ok.injEq, and_true] at h
          exact ⟨rfl, rfl, d, rfl, h.symm⟩

theorem marshalConfig_of_time {c : Config}
    (h : ∀ t, c.OAuthToken = some t → timeMarshals t.ExpiresAt = true) :
    marshalConfig c = .ok
      { api_endpoint := some c.APIEndpoint, timeout := some c.Timeout, oauth := c.OAuth,
        api_key := (if c.APIKey = "" then none else some c.APIKey),
        oauth_token := c.OAuthToken.map storedToken } := by
  unfold marshalConfig
  cases ht : c.OAuthToken with
  | none => rfl
  | some tok =>
    simp only [h tok ht, if_true]
    rfl

theorem marshalConfig_ok {c : Config} {d : ConfigDoc} (h : marshalConfig c = .ok d) :
    d =
      { api_endpoint := some c.APIEndpoint, timeout := some c.Timeout, oauth := c.OAuth,
        api_key := (if c.APIKey = "" then none else some c.APIKey),
        oauth_token := c.OAuthToken.map storedToken } := by
  unfold marshalConfig at h
  cases ht : c.OAuthToken with
  | none =>
    simp only [ht, Except.ok.injEq] at h
    rw [← h]
    rfl
  | some tok =>
    simp only [ht] at h
    split at h
    · simp only [Except.ok.injEq] at h
      rw [← h]
      rfl
    · simp at h

theorem unmarshal_marshal {c : Config} {d : ConfigDoc} (h : marshalConfig c = .ok d) :
    unmarshalConfig d defaultConfig = storedConfig c := by
  rw [marshalConfig_ok h]
  rcases c with ⟨ep, tmo, oauth, key, tok⟩
  unfold unmarshalConfig defaultConfig storedConfig
  simp only [Option.getD_some, Config.mk.injEq, true_and]
  refine ⟨?_, ?_, ?_⟩
  · cases oauth <;> rfl
  · by_cases hk : key = ""
    · simp [hk]
    · simp [hk]
  · cases tok with
    | none => rfl
    | some t =>
      show some (storedToken (storedToken t)) = some (storedToken t)
      rw [storedToken_idem]

theorem storedConfig_whole {c : Config}
    (h : ∀ t, c.OAuthToken = some t → t.ExpiresAt.offset % 60 = 0) : storedConfig c = c := by
  rcases c with ⟨ep, tmo, oauth, key, tok⟩
  cases tok with
  | none => rfl
  | some t =>
    simp only [storedConfig, Option.map_some', Config.mk.injEq, Option.some.injEq, true_and]
    exact storedToken_whole (h t rfl)

theorem saveConfig_eq {c : Config} {d : ConfigDoc} {w : World} (hhome : w.home = true)
    (hwrite : w.writable = true) (hm : marshalConfig c = .ok d) :
    SaveConfig c w = (none, { w with file := .present (.doc d) }) := by
  rcases w with ⟨home, readable, writable, oserr, file, env, clock, tick, server, sent, urlParses, jsonToken⟩
  simp only at hhome hwrite
  subst hhome hwrite
  cases file <;> simp [SaveConfig, hm]

theorem load_after_save {c : Config} {w w1 : World} (hsave : SaveConfig c w = (none, w1))
    (hread : w.readable = true) : LoadConfig w1 = (.ok (storedConfig c), w1) := by
  obtain ⟨d, hd, hw⟩ := saveConfig_ok hsave
  have hhome : w.home = true := by
    cases hh : w.home with
    | true => rfl
    | false => simp [SaveConfig, hh] at hsave
  subst hw
  have h := @loadConfig_present { w with file := .present (.doc d) } d hhome hread rfl
  rw [h, unmarshal_marshal hd]

/-- C23, the claim as stated fails: the configuration of `sampleClient` with a
token that expires at 4600 s in a zone 19815 seconds east of UTC is saved
without error, and loading then returns another configuration: the JSON text
keeps the zone to the minute, so the expiry loaded is 4615 s in the zone 19800
seconds east. -/
theorem saveConfig_loadConfig_counterexample :
    (SaveConfig { sampleClient.config with
        OAuthToken := some { sampleToken with ExpiresAt := ⟨4600 * Second, 19815⟩ } }
      (sampleWorld 200)).1 = none ∧
    (LoadConfig (SaveConfig { sampleClient.config with
        OAuthToken := some { sampleToken with ExpiresAt := ⟨4600 * Second, 19815⟩ } }
      (sampleWorld 200)).2).1 =
      .ok { sampleClient.config with
        OAuthToken := some { sampleToken with ExpiresAt := ⟨4615 * Second, 19800⟩ } } ∧
    (LoadConfig (SaveConfig { sampleClient.config with
        OAuthToken := some { sampleToken with ExpiresAt := ⟨4600 * Second, 19815⟩ } }
      (sampleWorld 200)).2).1 ≠
      .ok { sampleClient.config with
        OAuthToken := some { sampleToken with ExpiresAt := ⟨4600 * Second, 19815⟩ } } := by
  decide

/-- C23, amended. For every configuration `c`: `SaveConfig(c)` returns no error
when the home directory is known, the file can be written and the expiry of
the token of `c`, if it has one, has a year in 0..9999 and a zone offset below
24 hours; whenever `SaveConfig(c)` has returned no error, `LoadConfig` then
returns `c` with the expiry of its token as the JSON text keeps it (the zone
offset cut to whole minutes, the instant later by the seconds cut off), all
other fields equal; so it returns `c` itself, equal in `api_endpoint`,
`timeout`, `api_key`, the nested OAuth configuration and the nested token,
when `c` has no token or the zone of its expiry has an offset of whole
minutes. -/
theorem saveConfig_loadConfig (c : Config) (w : World) (hread : w.readable = true) :
    (w.home = true → w.writable = true →
      (∀ t, c.OAuthToken = some t → timeMarshals t.ExpiresAt = true) →
      (SaveConfig c w).1 = none) ∧
    ((SaveConfig c w).1 = none →
      LoadConfig (SaveConfig c w).2 = (.ok (storedConfig c), (SaveConfig c w).2)) ∧
    ((SaveConfig c w).1 = none →
      (∀ t, c.OAuthToken = some t → t.ExpiresAt.offset % 60 = 0) →
      LoadConfig (SaveConfig c w).2 = (.ok c, (SaveConfig c w).2)) := by
  have hload : (SaveConfig c w).1 = none →
      LoadConfig (SaveConfig c w).2 = (.ok (storedConfig c), (SaveConfig c w).2) := by
    intro hnone
    have hsave : SaveConfig c w = (none, (SaveConfig c w).2) := by
      rw [← hnone]
    exact load_after_save hsave hread
  refine ⟨?_, hload, ?_⟩
  · intro hhome hwrite htime
    rw [saveConfig_eq hhome hwrite (marshalConfig_of_time htime)]
  · intro hnone hwhole
    rw [hload hnone, storedConfig_whole hwhole]

/-- Witness of C23 (amended): in `sampleWorld`, saving the configuration of
`sampleClient` with the API key `key_1`, whose token expires in the zone of
UTC, and then loading returns that configuration. -/
theorem saveConfig_loadConfig_witness :
    LoadConfig (SaveConfig { sampleClient.config with APIKey := "key_1" } (sampleWorld 200)).2 =
      (.ok { sampleClient.config with APIKey := "key_1" },
        (SaveConfig { sampleClient.config with APIKey := "key_1" } (sampleWorld 200)).2) :=
  (saveConfig_loadConfig { sampleClient.config with APIKey := "key_1" } (sampleWorld 200) rfl).2.2
    (by decide) (by intro t ht; cases ht; decide)

/-! ## The commands that write the configuration -/

theorem loadConfig_whole {w : World} {c : Config} (h : LoadConfig w = (.ok c, w)) :
    ∀ t, c.OAuthToken = some t → t.ExpiresAt.offset % 60 = 0 := by
  obtain ⟨_, _, d, _, hc⟩ := loadConfig_fixed h
  intro t ht
  rw [hc] at ht
  simp only [unmarshalConfig, defaultConfig] at ht
  cases hd : d.oauth_token with
  | none => rw [hd] at ht; simp at ht
  | some t0 =>
    rw [hd] at ht
    simp only [Option.some.injEq] at ht
    rw [← ht]
    exact jsonTime_offset t0.ExpiresAt

theorem write_config {w : World} {c : Config} (c1 : Config) (hload : LoadConfig w = (.ok c, w))
    (hwrite : w.writable = true) (hsame : c1.OAuthToken = c.OAuthToken)
    (htime : ∀ t, c1.OAuthToken = some t → timeMarshals t.ExpiresAt = true) :
    ∃ d, marshalConfig c1 = .ok d ∧
      SaveConfig c1 w = (none, { w with file := .present (.doc d) }) ∧
      LoadConfig { w with file := .present (.doc d) } =
        (.ok c1, { w with file := .present (.doc d) }) := by
  obtain ⟨hhome, hread, _⟩ := loadConfig_fixed hload
  have hm := marshalConfig_of_time htime
  have hs := saveConfig_eq hhome hwrite hm
  have hl := load_after_save hs hread
  rw [storedConfig_whole (fun t ht => loadConfig_whole hload t (hsame ▸ ht))] at hl
  exact ⟨_, hm, hs, hl⟩

/-- C21. For every persisted configuration `c` (the configuration that
`LoadConfig` reads from the file), `disable-oauth` succeeds when the file can
be written, and the configuration persisted afterwards is `c` with the
`Enabled` flag of its OAuth section set to false: `client_id`, `client_secret`,
`scope`, `api_key`, `api_endpoint`, `timeout` and `oauth_token` are those of
`c`, and a configuration without an OAuth section stays without one. The
expiry of a stored token is taken to be a time that JSON can hold, as every
time read from the file is. -/
theorem disableOAuth_frame (w : World) (c : Config)
    (hload : LoadConfig w = (.ok c, w)) (hwrite : w.writable = true)
    (htime : ∀ t, c.OAuthToken = some t → timeMarshals t.ExpiresAt = true) :
    ∃ w1, configDisableOAuthCmd w = (none, w1) ∧
      LoadConfig w1 =
        (.ok { c with OAuth := c.OAuth.map (fun o => { o with Enabled := false }) }, w1) ∧
      (c.OAuth = none → LoadConfig w1 = (.ok c, w1)) := by
  rcases c with ⟨ep, tmo, oauth, key, tok⟩
  cases oauth with
  | none =>
    obtain ⟨d, _, hs, hl⟩ := write_config _ hload hwrite rfl htime
    simp only [configDisableOAuthCmd, hload, hs]
    exact ⟨_, rfl, hl, fun _ => hl⟩
  | some o =>
    obtain ⟨d, _, hs, hl⟩ := write_config
      { APIEndpoint := ep, Timeout := tmo, OAuth := some { o with Enabled := false },
        APIKey := key, OAuthToken := tok } hload hwrite rfl htime
    simp only [configDisableOAuthCmd, hload, hs]
    exact ⟨_, rfl, hl, fun h => by simp at h⟩

/-- Witness of C21: in `sampleWorld`, whose file has OAuth enabled with the
client `id`, `disable-oauth` succeeds and leaves the flag false, the rest as it
was. -/
theorem disableOAuth_frame_witness :
    ∃ w1, configDisableOAuthCmd (sampleWorld 200) = (none, w1) ∧
      LoadConfig w1 =
        (.ok { sampleClient.config with
          OAuth := sampleClient.config.OAuth.map (fun o => { o with Enabled := false }) }, w1) ∧
      (sampleClient.config.OAuth = none → LoadConfig w1 = (.ok sampleClient.config, w1)) :=
  disableOAuth_frame (sampleWorld 200) sampleClient.config rfl rfl
    (by intro t ht; cases ht; decide)

theorem authStep_oauth {cl : ProofClient} (hon : oauthEnabled cl.config = true) (w2 w3 : World)
    (kv : String × String) (h : authStep cl w2 = (.ok kv, w3)) :
    ∃ token : OAuthToken, kv = ("Authorization", "Bearer " ++ token.AccessToken) := by
  unfold authStep at h
  simp only [hon, if_true] at h
  cases hg : cl.getValidOAuthToken w2 with
  | mk r w4 =>
    rw [hg] at h
    cases r with
    | error e => simp at h
    | ok token =>
      simp only [Prod.mk.injEq, Except.ok.injEq] at h
      exact ⟨token, h.1.symm⟩

/-- C22. For every persisted configuration `c` and every key `k`, `SaveAPIKey(k)`
succeeds when the file can be written, and the configuration persisted
afterwards is `c` with `api_key` set to `k`: the OAuth section with its enabled
flag, the stored token, the endpoint and the timeout are those of `c`. When
OAuth is enabled in `c`, the client that `NewProofClient` builds afterwards
holds no API key, and every header that the authentication step of its
requests sets is `Authorization: Bearer ...`, never `ApiKey`. -/
theorem saveAPIKey_frame (w : World) (c : Config) (k : String)
    (hload : LoadConfig w = (.ok c, w)) (hwrite : w.writable = true)
    (htime : ∀ t, c.OAuthToken = some t → timeMarshals t.ExpiresAt = true) :
    ∃ w1, SaveAPIKey k w = (none, w1) ∧
      LoadConfig w1 = (.ok { c with APIKey := k }, w1) ∧
      (oauthEnabled c = true →
        NewProofClient w1 =
          (.ok { config := { c with APIKey := k }, timeout := c.Timeout, apiKey := "",
                 oauthToken := none }, w1) ∧
        ∀ (w2 w3 : World) (kv : String × String),
          authStep { config := { c with APIKey := k }, timeout := c.Timeout, apiKey := "",
                     oauthToken := none } w2 = (.ok kv, w3) →
          ∃ token : OAuthToken, kv = ("Authorization", "Bearer " ++ token.AccessToken)) := by
  obtain ⟨d, _, hs, hl⟩ := write_config { c with APIKey := k } hload hwrite rfl htime
  refine ⟨_, ?_, hl, ?_⟩
  · simp only [SaveAPIKey, hload, hs]
  · intro hon
    have hon1 : oauthEnabled { c with APIKey := k } = true := hon
    refine ⟨?_, fun w2 w3 kv h => authStep_oauth hon1 w2 w3 kv h⟩
    rw [newProofClient_unfold hl]
    simp only [hon1, if_true]

/-- Witness of C22: in `sampleWorld`, whose file has OAuth enabled,
`SaveAPIKey("key_9")` stores the key and leaves OAuth enabled. -/
theorem saveAPIKey_frame_witness :
    ∃ w1, SaveAPIKey "key_9" (sampleWorld 200) = (none, w1) ∧
      LoadConfig w1 = (.ok { sampleClient.config with APIKey := "key_9" }, w1) ∧
      (oauthEnabled sampleClient.config = true →
        NewProofClient w1 =
          (.ok { config := { sampleClient.config with APIKey := "key_9" },
                 timeout := sampleClient.config.Timeout, apiKey := "", oauthToken := none }, w1) ∧
        ∀ (w2 w3 : World) (kv : String × String),
          authStep { config := { sampleClient.config with APIKey := "key_9" },
                     timeout := sampleClient.config.Timeout, apiKey := "",
                     oauthToken := none } w2 = (.ok kv, w3) →
          ∃ token : OAuthToken, kv = ("Authorization", "Bearer " ++ token.AccessToken)) :=
  saveAPIKey_frame (sampleWorld 200) sampleClient.config "key_9" rfl rfl
    (by intro t ht; cases ht; decide)

/-- C29. For every persisted configuration `c`, `set-oauth` with client id `i`,
secret `s` and scope `p` succeeds when the file can be written, and the
configuration persisted afterwards is `c` with its OAuth section enabled and
holding exactly `i`, `s` and `p`: `oauth_token`, `api_key`, `api_endpoint` and
`timeout` are those of `c`. So, in every later state with that file, a client
with the new configuration that asks for a token while the stored one, got
under the previous credentials, is not yet expired, is given the stored token,
and no request is sent. -/
theorem setOAuth_frame (w : World) (c : Config) (i s p : String)
    (hload : LoadConfig w = (.ok c, w)) (hwrite : w.writable = true)
    (htime : ∀ t, c.OAuthToken = some t → timeMarshals t.ExpiresAt = true) :
    ∃ w1, configSetOAuthCmd i s p w = (none, w1) ∧
      LoadConfig w1 =
        (.ok { c with OAuth := some { Enabled := true, ClientID := i, ClientSecret := s,
                                      Scope := p } }, w1) ∧
      ∀ (cl : ProofClient) (tok : OAuthToken) (w2 : World),
        cl.config = { c with OAuth := some { Enabled := true, ClientID := i, ClientSecret := s,
                                             Scope := p } } →
        c.OAuthToken = some tok → w2.home = true → w2.readable = true → w2.file = w1.file →
        (tok.IsExpired w2).1 = false →
        cl.getValidOAuthToken w2 = (.ok tok, { w2 with tick := w2.tick + 1 }) ∧
        (cl.getValidOAuthToken w2).2.sent = w2.sent := by
  obtain ⟨d, hm, hs, hl⟩ := write_config
    { c with OAuth := some { Enabled := true, ClientID := i, ClientSecret := s, Scope := p } }
    hload hwrite rfl htime
  have hcmd : configSetOAuthCmd i s p w = (none, { w with file := .present (.doc d) }) := by
    rcases c with ⟨ep, tmo, oauth, key, tk⟩
    cases oauth <;> simp only [configSetOAuthCmd, hload] <;> rw [hs]
  refine ⟨_, hcmd, hl, ?_⟩
  intro cl tok w2 hcl htok hhome hread hfile hvalid
  have hd : persistedToken w2.file = some tok := by
    rw [hfile]
    show Option.map storedToken d.oauth_token = some tok
    rw [marshalConfig_token hm]
    show Option.map storedToken (Option.map storedToken c.OAuthToken) = some tok
    rw [htok, Option.map_some', Option.map_some', storedToken_idem,
      storedToken_whole (loadConfig_whole hload tok htok)]
  have ho : cl.config.OAuth =
      some { Enabled := true, ClientID := i, ClientSecret := s, Scope := p } := by rw [hcl]
  have hg := getValid_valid ho rfl hhome hread hfile hd hvalid
  exact ⟨hg, by rw [hg]⟩

/-- Witness of C29: in `sampleWorld`, `set-oauth id2 secret2` succeeds; the
token `tok_0` stays in the file. -/
theorem setOAuth_frame_witness :
    ∃ w1, configSetOAuthCmd "id2" "secret2" "" (sampleWorld 200) = (none, w1) ∧
      LoadConfig w1 =
        (.ok { sampleClient.config with
          OAuth := some { Enabled := true, ClientID := "id2", ClientSecret := "secret2",
                          Scope := "" } }, w1) ∧
      ∀ (cl : ProofClient) (tok : OAuthToken) (w2 : World),
        cl.config = { sampleClient.config with
          OAuth := some { Enabled := true, ClientID := "id2", ClientSecret := "secret2",
                          Scope := "" } } →
        sampleClient.config.OAuthToken = some tok → w2.home = true → w2.readable = true →
        w2.file = w1.file → (tok.IsExpired w2).1 = false →
        cl.getValidOAuthToken w2 = (.ok tok, { w2 with tick := w2.tick + 1 }) ∧
        (cl.getValidOAuthToken w2).2.sent = w2.sent :=
  setOAuth_frame (sampleWorld 200) sampleClient.config "id2" "secret2" "" rfl rfl
    (by intro t ht; cases ht; decide)

/-! ## A token that is expired from the start -/

theorem parse_ok {body : String} {w : World} {decoded : OAuthToken}
    (hj : w.jsonToken body = .ok decoded) :
    ParseOAuthTokenResponse body w =
      (.ok { decoded with
          ExpiresAt := (w.clock w.tick).Add (expiresInDuration decoded.ExpiresIn) },
        { w with tick := w.tick + 1 }) := by
  unfold ParseOAuthTokenResponse
  rw [hj]
  rfl

/-- C28, the claim as stated fails: a body whose `expires_in` is -9223372037
seconds, which is less than 300, is accepted, and the returned token is not
expired at the next reading of the clock; the 64-bit duration has wrapped and
the expiry lies about 292 years after the reading. -/
theorem parsed_token_counterexample :
    ∃ tok w1,
      ParseOAuthTokenResponse "token-body"
        { sampleWorld 200 with
          jsonToken := fun _ => .ok { sampleToken with ExpiresIn := -9223372037 } } =
        (.ok tok, w1) ∧
      tok.ExpiresIn = -9223372037 ∧ tok.ExpiresIn < 300 ∧
      (tok.IsExpired w1).1 = false := by
  refine ⟨_, _, rfl, ?_, ?_, ?_⟩ <;> decide

/-- C28, amended. For every token that `ParseOAuthTokenResponse` produces from a
body whose `expires_in` is less than 300 seconds and not below -9223372036
seconds (a missing `expires_in` decodes to zero), `IsExpired` is true at every
reading of the clock that is not before the reading at parse time; so, in every
such state in which that token is the stored one, `ShouldRefreshToken` reports
a refresh as due for a configuration with OAuth enabled. -/
theorem parsed_token_expired (body : String) (w : World) (decoded : OAuthToken)
    (hj : w.jsonToken body = .ok decoded)
    (hlo : -9223372036 ≤ decoded.ExpiresIn) (hhi : decoded.ExpiresIn < 300) :
    ∃ tok w1, ParseOAuthTokenResponse body w = (.ok tok, w1) ∧
      tok.ExpiresIn = decoded.ExpiresIn ∧
      ∀ w2 : World, (w.clock w.tick).ns ≤ (w2.clock w2.tick).ns →
        (tok.IsExpired w2).1 = true ∧
        ∀ config : Config, oauthEnabled config = true → persistedToken w2.file = some tok →
          (ShouldRefreshToken config w2).1 = .ok true := by
  refine ⟨_, _, parse_ok hj, rfl, ?_⟩
  intro w2 hlater
  have hexp : (OAuthToken.IsExpired { decoded with
      ExpiresAt := (w.clock w.tick).Add (expiresInDuration decoded.ExpiresIn) } w2).1 = true := by
    rw [isExpired_eq, expiresInDuration_of_range _ hlo (by omega)]
    simp only [Time.Add, decide_eq_true_eq]
    omega
  refine ⟨hexp, ?_⟩
  intro config hon hstored
  obtain ⟨f, t, hs, _⟩ := @shouldRefresh_due config w2 hon (Or.inr ⟨_, hstored, hexp⟩)
  rw [hs]

/-- Witness of C28 (amended): a body whose `expires_in` is 299 seconds, parsed
when the clock of `sampleWorld` reads 1000 s, gives a token that is expired at
the next reading. -/
theorem parsed_token_expired_witness :
    ∃ tok w1,
      ParseOAuthTokenResponse "token-body"
        { sampleWorld 200 with jsonToken := fun _ => .ok { sampleToken with ExpiresIn := 299 } } =
        (.ok tok, w1) ∧
      tok.ExpiresIn = 299 ∧
      ∀ w2 : World, ((sampleWorld 200).clock 0).ns ≤ (w2.clock w2.tick).ns →
        (tok.IsExpired w2).1 = true ∧
        ∀ config : Config, oauthEnabled config = true → persistedToken w2.file = some tok →
          (ShouldRefreshToken config w2).1 = .ok true :=
  parsed_token_expired "token-body"
    { sampleWorld 200 with jsonToken := fun _ => .ok { sampleToken with ExpiresIn := 299 } }
    { sampleToken with ExpiresIn := 299 } rfl (by decide) (by decide)

/-! ## The upload of a file -/

theorem addDocument_eq (env : UploadEnv) (cl : ProofClient) (transactionID filePath : String)
    (request : Option AddDocumentRequest) {w w1 w2 : World} {config : Config} {size : Int}
    {content apiKey : String}
    (hl : LoadConfig w = (.ok config, w1))
    (hf : env.file filePath = .readable size content)
    (hu : w1.urlParses (config.APIEndpoint ++ TransactionsEndpoint ++ "/" ++ transactionID ++
      "/documents") = true)
    (hk : GetAPIKey w1 = (.ok apiKey, w2)) :
    AddDocument env cl transactionID filePath request w =
      (uploadOutcome (w2.server w2.sent
          (uploadRequest env config transactionID filePath request size content apiKey)),
        { w2 with sent := w2.sent ++
          [uploadRequest env config transactionID filePath request size content apiKey] }) := by
  have hv : validMethod "POST" = true := by decide
  unfold AddDocument
  simp only [hl, hf, newRequest, hv, hu, Bool.not_true, Bool.false_eq_true, if_false, hk, httpDo]
  have e1 : ¬ ("POST" = "") := by decide
  simp only [e1, if_false]
  unfold uploadRequest
  generalize w2.server _ _ = res
  cases res with
  | failed e => rfl
  | unreadable status e =>
    simp only [uploadOutcome]
    split <;> rfl
  | response status respBody =>
    simp only [uploadOutcome]
    split <;> rfl

theorem uploadTimeout_eq (size : Int) (h0 : 0 ≤ size) (hmax : size < 94447329351680) :
    uploadTimeout size = (30 + size / 10240) * Second := by
  unfold uploadTimeout
  have e1 : Int.tdiv (Int.tdiv size 1024) 10 = size / 10240 := by
    rw [Int.tdiv_eq_ediv h0 (by decide), Int.tdiv_eq_ediv (by omega) (by decide)]
    omega
  rw [e1, wrapInt64_of_range]
  · ring
  · unfold Second; omega
  · unfold Second; omega

/-- C24, the claim as stated fails: for a file of 94447329351680 bytes the
number of seconds, 9223372037, times `time.Second` overflows the 64-bit
duration; the timeout is not 30 + floor(n/10240) seconds, it is negative, below
30 seconds and below the timeout of an empty file. -/
theorem uploadTimeout_counterexample :
    uploadTimeout 94447329351680 ≠ (30 + 94447329351680 / 10240) * Second ∧
    uploadTimeout 94447329351680 = -9223372036709551616 ∧
    uploadTimeout 94447329351680 < 30 * Second ∧
    uploadTimeout 94447329351680 < uploadTimeout 0 := by
  decide

/-- C24, amended. For every file size `n` with `0 ≤ n < 94447329351680` bytes,
`AddDocument`, when it gets to send its request, sends it with a timeout of
`30 + n/1024/10` seconds, both divisions integer divisions; that timeout is
`30 + floor(n/10240)` seconds, is not below 30 seconds, and is not below the
timeout for any smaller size. -/
theorem addDocument_timeout (env : UploadEnv) (cl : ProofClient) (transactionID filePath : String)
    (request : Option AddDocumentRequest) (w w1 w2 : World) (config : Config) (n : Int)
    (content apiKey : String)
    (hl : LoadConfig w = (.ok config, w1))
    (hf : env.file filePath = .readable n content)
    (hu : w1.urlParses (config.APIEndpoint ++ TransactionsEndpoint ++ "/" ++ transactionID ++
      "/documents") = true)
    (hk : GetAPIKey w1 = (.ok apiKey, w2))
    (h0 : 0 ≤ n) (hmax : n < 94447329351680) :
    (AddDocument env cl transactionID filePath request w).2.sent = w2.sent ++
      [uploadRequest env config transactionID filePath request n content apiKey] ∧
    (uploadRequest env config transactionID filePath request n content apiKey).Timeout =
      (30 + n / 1024 / 10) * Second ∧
    (uploadRequest env config transactionID filePath request n content apiKey).Timeout =
      (30 + n / 10240) * Second ∧
    30 * Second ≤
      (uploadRequest env config transactionID filePath request n content apiKey).Timeout ∧
    ∀ m : Int, 0 ≤ m → m ≤ n →
      (uploadRequest env config transactionID filePath request m content apiKey).Timeout ≤
        (uploadRequest env config transactionID filePath request n content apiKey).Timeout := by
  have ht : ∀ m : Int, 0 ≤ m → m < 94447329351680 →
      (uploadRequest env config transactionID filePath request m content apiKey).Timeout =
        (30 + m / 10240) * Second := fun m hm0 hm => uploadTimeout_eq m hm0 hm
  refine ⟨?_, ?_, ht n h0 hmax, ?_, ?_⟩
  · rw [addDocument_eq env cl transactionID filePath request hl hf hu hk]
  · rw [ht n h0 hmax]
    have e : n / 1024 / 10 = n / 10240 := by omega
    rw [e]
  · rw [ht n h0 hmax]
    have hq : 0 ≤ n / 10240 := by omega
    have hs : (0 : Int) ≤ Second := by decide
    nlinarith
  · intro m hm0 hmn
    rw [ht n h0 hmax, ht m hm0 (by omega)]
    have hq : m / 10240 ≤ n / 10240 := by omega
    have hs : (0 : Int) ≤ Second := by decide
    nlinarith

/-- Witness of C24 (amended): the file `deed.pdf` of 20480 bytes is sent with a
timeout of 32 seconds. -/
theorem addDocument_timeout_witness :
    (uploadRequest sampleUploadEnv sampleClient.config "tx_1" "deed.pdf" none 20480 "%PDF-1.7"
      "abc").Timeout = (30 + 20480 / 10240) * Second :=
  (addDocument_timeout sampleUploadEnv noOAuthClient "tx_1" "deed.pdf" none (uploadWorld 200)
    (uploadWorld 200) (uploadWorld 200) sampleClient.config 20480 "%PDF-1.7" "abc" rfl rfl
    (by decide) rfl (by decide) (by decide)).2.2.1

/-- C25, the failing input: the server answers the upload with the status 204,
which lies in [200, 300); `AddDocument` fails with `API request failed with
status 204`, where `Request`, the executor behind every other call of the
program (`AddExternalDocument` among them), returns the body for the same
answer to a request to the same path. -/
theorem addDocument_status_counterexample :
    (200 : Int) ≤ 204 ∧ (204 : Int) < 300 ∧
    (AddDocument sampleUploadEnv noOAuthClient "tx_1" "deed.pdf" none (uploadWorld 204)).1 =
      .error "API request failed with status 204: token-body" ∧
    (noOAuthClient.Request "POST" "/mortgage/v2/transactions/tx_1/documents" none []
      (uploadWorld 204)).1 = .ok "token-body" := by
  refine ⟨by decide, by decide, ?_, ?_⟩
  · rw [@addDocument_eq sampleUploadEnv noOAuthClient "tx_1" "deed.pdf" none (uploadWorld 204)
      (uploadWorld 204) (uploadWorld 204) sampleClient.config 20480 "%PDF-1.7" "abc"
      rfl rfl (by decide) rfl]
    decide
  · decide

/-- C25, what the code does. For every response that `AddDocument` receives to
its request, with status `s` and a body, `AddDocument` succeeds if and only if
`s` is 200 or 201, and then returns the raw body; for every other status, the
other codes of [200, 300) among them, it fails with the error `API request
failed with status `, the status in decimal, `: ` and the body. -/
theorem addDocument_status (env : UploadEnv) (cl : ProofClient) (transactionID filePath : String)
    (request : Option AddDocumentRequest) (w w1 w2 : World) (config : Config) (n : Int)
    (content apiKey : String) (status : Int) (respBody : String)
    (hl : LoadConfig w = (.ok config, w1))
    (hf : env.file filePath = .readable n content)
    (hu : w1.urlParses (config.APIEndpoint ++ TransactionsEndpoint ++ "/" ++ transactionID ++
      "/documents") = true)
    (hk : GetAPIKey w1 = (.ok apiKey, w2))
    (hs : w2.server w2.sent
      (uploadRequest env config transactionID filePath request n content apiKey) =
        .response status respBody) :
    ((∃ out, (AddDocument env cl transactionID filePath request w).1 = .ok out) ↔
      status = 200 ∨ status = 201) ∧
    (status = 200 ∨ status = 201 →
      (AddDocument env cl transactionID filePath request w).1 = .ok respBody) ∧
    (status ≠ 200 → status ≠ 201 →
      (AddDocument env cl transactionID filePath request w).1 =
        .error ("API request failed with status " ++ FormatInt status ++ ": " ++ respBody)) := by
  rw [addDocument_eq env cl transactionID filePath request hl hf hu hk]
  simp only [hs, uploadOutcome]
  by_cases h : status ≠ 200 ∧ status ≠ 201
  · rw [if_pos h]
    refine ⟨⟨fun ⟨_, e⟩ => by simp at e, fun hr => by omega⟩, fun hr => by omega, fun _ _ => rfl⟩
  · rw [if_neg h]
    refine ⟨⟨fun _ => by omega, fun _ => ⟨respBody, rfl⟩⟩, fun _ => rfl, ?_⟩
    intro h1 h2
    exact absurd ⟨h1, h2⟩ h

/-- Witness of C25: the server of `uploadWorld 201` answers 201 and
the body `token-body`, which `AddDocument` returns. -/
theorem addDocument_status_witness :
    (AddDocument sampleUploadEnv noOAuthClient "tx_1" "deed.pdf" none (uploadWorld 201)).1 =
      .ok "token-body" :=
  (addDocument_status sampleUploadEnv noOAuthClient "tx_1" "deed.pdf" none (uploadWorld 201)
    (uploadWorld 201) (uploadWorld 201) sampleClient.config 20480 "%PDF-1.7" "abc" 201
    "token-body" rfl rfl (by decide) rfl rfl).2.1 (by decide)

/-! ## The operations of the SCIM patch command -/

theorem splitLoop_none (sep : Char) (n : Nat) (s : List Char) (h : sep ∉ s) :
    splitLoop sep n s = [s] := by
  cases n with
  | zero => rfl
  | succ n => simp only [splitLoop, h, if_false]

theorem takeWhile_sep (sep : Char) (a rest : List Char) (h : sep ∉ a) :
    (a ++ sep :: rest).takeWhile (fun c => c ≠ sep) = a := by
  induction a with
  | nil => simp [List.takeWhile]
  | cons x xs ih =>
    have hx : x ≠ sep := fun e => h (by rw [e]; exact List.mem_cons_self _ _)
    have hxs : sep ∉ xs := fun e => h (List.mem_cons_of_mem _ e)
    have ih1 := ih hxs
    simp only [ne_eq] at ih1
    simp only [List.cons_append, List.takeWhile, ne_eq, hx, not_false_eq_true, decide_True]
    exact congrArg (fun l => x :: l) ih1

theorem dropWhile_sep (sep : Char) (a rest : List Char) (h : sep ∉ a) :
    (a ++ sep :: rest).dropWhile (fun c => c ≠ sep) = sep :: rest := by
  induction a with
  | nil => simp [List.dropWhile]
  | cons x xs ih =>
    have hx : x ≠ sep := fun e => h (by rw [e]; exact List.mem_cons_self _ _)
    have hxs : sep ∉ xs := fun e => h (List.mem_cons_of_mem _ e)
    have ih1 := ih hxs
    simp only [ne_eq] at ih1
    simp only [List.cons_append, List.dropWhile, ne_eq, hx, not_false_eq_true, decide_True]
    exact ih1

theorem splitLoop_cut (sep : Char) (n : Nat) (a rest : List Char) (h : sep ∉ a) :
    splitLoop sep (n + 1) (a ++ sep :: rest) = a :: splitLoop sep n rest := by
  have hm : sep ∈ a ++ sep :: rest := by simp
  simp only [splitLoop, hm, if_true, takeWhile_sep sep a rest h, dropWhile_sep sep a rest h,
    List.drop_succ_cons, List.drop_zero]

theorem utf8Char_pos (c : Char) : 0 < (utf8Char c).length := by
  simp only [utf8Char]
  split_ifs <;> simp

theorem bytes_length (cs : List Char) : cs.length ≤ (cs.flatMap utf8Char).length := by
  induction cs with
  | nil => simp
  | cons c cs ih =>
    simp only [List.flatMap_cons, List.length_cons, List.length_append]
    have := utf8Char_pos c
    omega

theorem splitN_one (s : String) (h : ':' ∉ s.data) : SplitN s ':' 3 = [s] := by
  unfold SplitN
  simp only [OfNat.ofNat_ne_zero, if_false, splitLoop_none ':' _ s.data h, List.map_cons,
    List.map_nil]

theorem splitN_two (a b : List Char) (ha : ':' ∉ a) (hb : ':' ∉ b) :
    SplitN (String.mk (a ++ ':' :: b)) ':' 3 = [String.mk a, String.mk b] := by
  unfold SplitN
  simp only [OfNat.ofNat_ne_zero, if_false]
  have hlen : 1 ≤ (bytesOf (String.mk (a ++ ':' :: b))).length := by
    have := bytes_length (a ++ ':' :: b)
    simp only [List.length_append, List.length_cons] at this
    show 1 ≤ ((a ++ ':' :: b).flatMap utf8Char).length
    omega
  have hcut : ∀ k, splitLoop ':' (k + 1) (a ++ ':' :: b) = [a, b] := by
    intro k
    rw [splitLoop_cut ':' k a b ha, splitLoop_none ':' k b hb]
  by_cases hc : 3 > (bytesOf (String.mk (a ++ ':' :: b))).length + 1
  · simp only [hc, if_true]
    have e : (bytesOf (String.mk (a ++ ':' :: b))).length + 1 - 1 =
        ((bytesOf (String.mk (a ++ ':' :: b))).length - 1) + 1 := by omega
    rw [e, hcut]
    rfl
  · simp only [hc, if_false]
    rw [hcut 1]
    rfl

theorem splitN_three (a b c : List Char) (ha : ':' ∉ a) (hb : ':' ∉ b) :
    SplitN (String.mk (a ++ ':' :: (b ++ ':' :: c))) ':' 3 =
      [String.mk a, String.mk b, String.mk c] := by
  unfold SplitN
  simp only [OfNat.ofNat_ne_zero, if_false]
  have hlen : 2 ≤ (bytesOf (String.mk (a ++ ':' :: (b ++ ':' :: c)))).length := by
    have := bytes_length (a ++ ':' :: (b ++ ':' :: c))
    simp only [List.length_append, List.length_cons] at this
    show 2 ≤ ((a ++ ':' :: (b ++ ':' :: c)).flatMap utf8Char).length
    omega
  have hc : ¬ (3 > (bytesOf (String.mk (a ++ ':' :: (b ++ ':' :: c)))).length + 1) := by omega
  simp only [hc, if_false]
  rw [splitLoop_cut ':' 1 a _ ha, splitLoop_cut ':' 0 b c hb]
  rfl

theorem patchOperations_sticky (unmarshal : String → Except String Any) (ops : List String)
    (e : String) :
    ops.foldl (fun acc op =>
      match acc with
      | .error e => .error e
      | .ok patchOps =>
        match patchOperation unmarshal op with
        | .error e => .error e
        | .ok patchOp => .ok (patchOps ++ [patchOp])) (Except.error e) = .error e := by
  induction ops with
  | nil => rfl
  | cons op ops ih => exact ih

theorem patchOperations_reject (unmarshal : String → Except String Any) (ops : List String)
    (s : String) (hs : s ∈ ops) (hbad : ∃ e, patchOperation unmarshal s = .error e)
    (acc : Except String (List PatchOperation)) :
    ∃ e, ops.foldl (fun acc op =>
      match acc with
      | .error e => .error e
      | .ok patchOps =>
        match patchOperation unmarshal op with
        | .error e => .error e
        | .ok patchOp => .ok (patchOps ++ [patchOp])) acc = .error e := by
  induction ops generalizing acc with
  | nil => simp at hs
  | cons op ops ih =>
    simp only [List.foldl_cons]
    cases acc with
    | error e0 => exact ⟨e0, patchOperations_sticky unmarshal ops e0⟩
    | ok patchOps =>
      rcases List.mem_cons.mp hs with h | h
      · subst h
        obtain ⟨e, he⟩ := hbad
        simp only [he]
        exact ⟨e, patchOperations_sticky unmarshal ops e⟩
      · exact ih h _

theorem csvFields_plain : ∀ (f field : List Char), ',' ∉ f →
    csvFields field f = [String.mk (field.reverse ++ f)]
  | [], field, _ => by simp [csvFields]
  | c :: f, field, h => by
    have hc : ¬ (c = ',') := fun e => h (by rw [e]; exact List.mem_cons_self _ _)
    have hf : ',' ∉ f := fun e => h (List.mem_cons_of_mem _ e)
    rw [csvFields, if_neg hc, csvFields_plain f (c :: field) hf]
    simp

theorem csvFields_cut : ∀ (f field rest : List Char), ',' ∉ f →
    csvFields field (f ++ ',' :: rest) = String.mk (field.reverse ++ f) :: csvFields [] rest
  | [], field, rest, _ => by simp [csvFields]
  | c :: f, field, rest, h => by
    have hc : ¬ (c = ',') := fun e => h (by rw [e]; exact List.mem_cons_self _ _)
    have hf : ',' ∉ f := fun e => h (List.mem_cons_of_mem _ e)
    rw [List.cons_append, csvFields, if_neg hc, csvFields_cut f (c :: field) rest hf]
    simp

theorem csvFields_join : ∀ (as : List String) (a : String) (field : List Char),
    ',' ∉ a.data → (∀ x ∈ as, ',' ∉ x.data) →
    csvFields field (a.data ++ as.flatMap (fun x => ',' :: x.data)) =
      String.mk (field.reverse ++ a.data) :: as
  | [], a, field, ha, _ => by
    rw [List.flatMap_nil, List.append_nil]
    exact csvFields_plain _ _ ha
  | b :: bs, a, field, ha, h => by
    rw [List.flatMap_cons, List.cons_append, csvFields_cut _ _ _ ha,
      csvFields_join bs b [] (h b (List.mem_cons_self _ _))
        (fun x hx => h x (List.mem_cons_of_mem _ hx))]
    rfl

theorem intercalate_go_data : ∀ (as : List String) (acc : String),
    (String.intercalate.go acc "," as).data = acc.data ++ as.flatMap (fun x => ',' :: x.data)
  | [], acc => by simp [String.intercalate.go]
  | a :: as, acc => by
    rw [String.intercalate.go, intercalate_go_data as, List.flatMap_cons]
    simp only [String.data_append, List.append_assoc]
    rfl

theorem plain_chars {a : String} (h : fieldNeedsQuotes a = false) :
    ∀ c ∈ a.data, c ≠ '\n' ∧ c ≠ '\r' ∧ c ≠ '"' ∧ c ≠ ',' := by
  unfold fieldNeedsQuotes at h
  split_ifs at h with h1 h2 h3
  · intro c hc
    rw [h1] at hc
    simp at hc
  · intro c hc
    simp only [List.any_eq_true, not_exists, not_and, decide_eq_true_eq, not_or] at h3
    have := h3 c hc
    tauto

theorem readAsCSV_plain {a : String} (hne : a ≠ "") (h : fieldNeedsQuotes a = false) :
    readAsCSV a = some [a] := by
  have hc := plain_chars h
  unfold readAsCSV
  rw [if_neg hne]
  have hany : ¬ (a.data.any (fun c => c = '"' ∨ c = '\r' ∨ c = '\n') = true) := by
    simp only [List.any_eq_true, not_exists, not_and, decide_eq_true_eq, not_or]
    intro c hmem
    have := hc c hmem
    tauto
  rw [if_neg hany, csvFields_plain _ _ (fun hm => (hc _ hm).2.2.2 rfl)]
  rfl

theorem foldl_Set : ∀ (args : List String) (s : StringSliceValue),
    (∀ a ∈ args, a ≠ "" ∧ fieldNeedsQuotes a = false) → (s.changed = false → s.value = []) →
    ∃ b, args.foldl (fun (s : Option StringSliceValue) val => s.bind (fun s => s.Set val)) (some s) =
      some { value := s.value ++ args, changed := b }
  | [], s, _, _ => ⟨s.changed, by simp⟩
  | a :: args, s, h, hs => by
    obtain ⟨hne, hq⟩ := h a (List.mem_cons_self _ _)
    have hset : s.Set a = some { value := s.value ++ [a], changed := true } := by
      unfold StringSliceValue.Set
      rw [readAsCSV_plain hne hq]
      cases hc : s.changed with
      | false => simp [hs hc]
      | true => simp
    rw [List.foldl_cons, Option.some_bind, hset]
    obtain ⟨b, hb⟩ := foldl_Set args { value := s.value ++ [a], changed := true }
      (fun x hx => h x (List.mem_cons_of_mem _ hx)) (fun hc => by simp at hc)
    refine ⟨b, ?_⟩
    rw [hb]
    simp

theorem operationFlag_plain (args : List String)
    (h : ∀ a ∈ args, a ≠ "" ∧ fieldNeedsQuotes a = false) : operationFlag args = some args := by
  obtain ⟨b, hb⟩ := foldl_Set args { value := [], changed := false } h (fun _ => rfl)
  unfold operationFlag
  rw [hb]
  simp only [List.nil_append, StringSliceValue.String, writeAsCSV]
  have hany : ¬ (args.any fieldNeedsQuotes = true) := by
    simp only [List.any_eq_true, not_exists, not_and]
    intro a ha
    rw [(h a ha).2]
    exact Bool.false_ne_true
  rw [if_neg hany]
  simp only
  have hstrip : ∀ str : String,
      String.mk ((("[" ++ str ++ "]").data.drop 1).dropLast) = str := by
    intro str
    apply String.ext
    simp only [String.data_append]
    show ((['['] ++ str.data ++ [']']).drop 1).dropLast = str.data
    simp
  unfold stringSliceConv
  simp only [hstrip]
  cases args with
  | nil => rfl
  | cons a as =>
    have hne := (h a (List.mem_cons_self _ _)).1
    have hdata : (String.intercalate "," (a :: as)).data =
        a.data ++ as.flatMap (fun x => ',' :: x.data) := by
      rw [String.intercalate, intercalate_go_data]
    have hlen : ¬ ((String.intercalate "," (a :: as)).length = 0) := by
      intro h0
      have h1 : (String.intercalate "," (a :: as)).data.length = 0 := h0
      rw [hdata, List.length_append] at h1
      have h2 : a.data = [] := List.length_eq_zero.1 (by omega)
      exact hne (String.ext h2)
    rw [if_neg hlen]
    unfold readAsCSV
    have hne2 : ¬ (String.intercalate "," (a :: as) = "") := by
      intro e
      rw [e] at hlen
      exact hlen rfl
    rw [if_neg hne2]
    have hany2 : ¬ ((String.intercalate "," (a :: as)).data.any
        (fun c => c = '"' ∨ c = '\r' ∨ c = '\n') = true) := by
      simp only [List.any_eq_true, not_exists, not_and, decide_eq_true_eq, not_or]
      intro c hmem
      rw [hdata, List.mem_append, List.mem_flatMap] at hmem
      rcases hmem with hm | ⟨x, hx, hm⟩
      · have := plain_chars (h a (List.mem_cons_self _ _)).2 c hm
        tauto
      · rcases List.mem_cons.1 hm with hm | hm
        · rw [hm]
          decide
        · have := plain_chars (h x (List.mem_cons_of_mem _ hx)).2 c hm
          tauto
    rw [if_neg hany2, hdata, csvFields_join as a []
      (fun hm => (plain_chars (h a (List.mem_cons_self _ _)).2 _ hm).2.2.2 rfl)
      (fun x hx hm => (plain_chars (h x (List.mem_cons_of_mem _ hx)).2 _ hm).2.2.2 rfl)]
    rfl

theorem patchOperations_loop (unmarshal : String → Except String Any) :
    ∀ (ops : List String) (acc res : List PatchOperation),
    ops.foldl (fun acc op =>
      match acc with
      | .error e => .error e
      | .ok patchOps =>
        match patchOperation unmarshal op with
        | .error e => .error e
        | .ok patchOp => .ok (patchOps ++ [patchOp])) (Except.ok acc) = .ok res ↔
      ∃ parsed, res = acc ++ parsed ∧
        List.Forall₂ (fun s po => patchOperation unmarshal s = .ok po) ops parsed
  | [], acc, res => by
    simp only [List.foldl_nil, Except.ok.injEq, List.forall₂_nil_left_iff, exists_eq_right,
      List.append_nil]
    exact eq_comm
  | op :: ops, acc, res => by
    rw [List.foldl_cons]
    cases hp : patchOperation unmarshal op with
    | error e =>
      simp only
      rw [patchOperations_sticky]
      constructor
      · intro h
        cases h
      · rintro ⟨parsed, _, hf⟩
        cases hf with
        | cons h1 _ => rw [hp] at h1; cases h1
    | ok po =>
      simp only
      rw [patchOperations_loop unmarshal ops (acc ++ [po]) res]
      constructor
      · rintro ⟨parsed, hres, hf⟩
        refine ⟨po :: parsed, ?_, List.Forall₂.cons hp hf⟩
        rw [hres, List.append_assoc]
        rfl
      · rintro ⟨parsed, hres, hf⟩
        cases hf with
        | cons h1 h2 =>
          rename_i po1 parsed1
          rw [hp, Except.ok.injEq] at h1
          subst h1
          refine ⟨parsed1, ?_, h2⟩
          rw [hres, List.append_assoc]
          rfl

theorem patchOperations_ok_iff (unmarshal : String → Except String Any) (ops : List String)
    (parsed : List PatchOperation) :
    patchOperations unmarshal ops = .ok parsed ↔
      ops ≠ [] ∧ List.Forall₂ (fun s po => patchOperation unmarshal s = .ok po) ops parsed := by
  unfold patchOperations
  by_cases h0 : ops.length = 0
  · rw [if_pos h0]
    constructor
    · intro h
      cases h
    · rintro ⟨hne, _⟩
      exact absurd (List.length_eq_zero.1 h0) hne
  · rw [if_neg h0, patchOperations_loop]
    simp only [List.nil_append, exists_eq_left', ne_eq]
    constructor
    · intro h
      exact ⟨fun e => h0 (by rw [e]; rfl), h⟩
    · intro h
      exact h.2

/-- C26, the failing input: `--operation replace:name:a,b`. The flag is a
`StringSlice`, which reads its argument as a CSV record, so the loop of the
command receives the two strings `replace:name:a` and `b`; the second has no
colon, and the command prints `invalid operation format` and exits, whatever
`json.Unmarshal` makes of `a`. Likewise `--operation replace:x:[1,2]`, whose
value is a JSON array. -/
theorem patchOperation_comma_counterexample :
    operationFlag ["replace:name:a,b"] = some ["replace:name:a", "b"] ∧
    (∀ unmarshal : String → Except String Any,
      patchOperations unmarshal ["replace:name:a", "b"] =
        .error "Error: invalid operation format: b. Expected format: op:path[:value]") ∧
    operationFlag ["replace:x:[1,2]"] = some ["replace:x:[1", "2]"] ∧
    (∀ unmarshal : String → Except String Any,
      patchOperations unmarshal ["replace:x:[1", "2]"] =
        .error "Error: invalid operation format: 2]. Expected format: op:path[:value]") := by
  have s1 : SplitN "replace:name:a" ':' 3 = ["replace", "name", "a"] := by decide
  have s2 : SplitN "b" ':' 3 = ["b"] := by decide
  have s3 : SplitN "replace:x:[1" ':' 3 = ["replace", "x", "[1"] := by decide
  have s4 : SplitN "2]" ':' 3 = ["2]"] := by decide
  have g : ∀ a b c : String, [a, b, c].getD 2 "" = c := fun _ _ _ => rfl
  have l3 : ∀ a b c : String, ¬ ([a, b, c].length < 2) := fun _ _ _ => by simp
  have l3e : ∀ a b c : String, [a, b, c].length = 3 := fun _ _ _ => rfl
  have l1 : ∀ a : String, [a].length < 2 := fun _ => by simp
  have l2 : ¬ (["replace:name:a", "b"].length = 0) := by simp
  have l4 : ¬ (["replace:x:[1", "2]"].length = 0) := by simp
  refine ⟨by decide, ?_, by decide, ?_⟩
  · intro unmarshal
    have p1 : ∃ po, patchOperation unmarshal "replace:name:a" = .ok po := by
      unfold patchOperation
      simp only [s1, l3, l3e, g, if_false, if_true]
      cases unmarshal "a" <;> exact ⟨_, rfl⟩
    have p2 : patchOperation unmarshal "b" =
        .error "Error: invalid operation format: b. Expected format: op:path[:value]" := by
      unfold patchOperation
      simp only [s2, l1, if_true]
      rfl
    obtain ⟨po, hpo⟩ := p1
    unfold patchOperations
    rw [if_neg l2]
    simp only [List.foldl_cons, List.foldl_nil, hpo, p2]
  · intro unmarshal
    have p1 : ∃ po, patchOperation unmarshal "replace:x:[1" = .ok po := by
      unfold patchOperation
      simp only [s3, l3, l3e, g, if_false, if_true]
      cases unmarshal "[1" <;> exact ⟨_, rfl⟩
    have p2 : patchOperation unmarshal "2]" =
        .error "Error: invalid operation format: 2]. Expected format: op:path[:value]" := by
      unfold patchOperation
      simp only [s4, l1, if_true]
      rfl
    obtain ⟨po, hpo⟩ := p1
    unfold patchOperations
    rw [if_neg l4]
    simp only [List.foldl_cons, List.foldl_nil, hpo, p2]

/-- C26, what holds of the command. For all strings `op` and `path` without a
colon and every string `value`, one iteration of the loop of the SCIM patch
command parses the string `op:path:value` into the operation with `Op = op`,
`Path = path` and, as `Value`, what `json.Unmarshal` decodes from `value` when
it accepts it and the string `value` itself otherwise, colons included; it
parses `op:path` into the operation with no value; for a string without a
colon it prints `invalid operation format` and exits, also when the string is
one of several. The loop succeeds exactly when the slice is not empty and
every iteration does, and then yields the operations of the iterations in
order. The flag hands the loop its arguments unchanged when each of them is
not empty and needs no quotes as a CSV field (no comma, double quote, carriage
return or line feed in it, no space at its start, not `\.`): so for such an
argument `op:path:value` the command builds the one operation above. -/
theorem patchOperation_parse (unmarshal : String → Except String Any) (op path value : String)
    (hop : ':' ∉ op.data) (hpath : ':' ∉ path.data) :
    patchOperation unmarshal (op ++ ":" ++ path ++ ":" ++ value) =
      .ok { Op := op, Path := path,
            Value := (match unmarshal value with
              | .ok jsonValue => jsonValue
              | .error _ => Any.string value) } ∧
    patchOperation unmarshal (op ++ ":" ++ path) = .ok { Op := op, Path := path, Value := .nil } ∧
    (∀ s : String, ':' ∉ s.data →
      patchOperation unmarshal s =
        .error ("Error: invalid operation format: " ++ s ++ ". Expected format: op:path[:value]") ∧
      ∀ ops : List String, s ∈ ops → ∃ e, patchOperations unmarshal ops = .error e) ∧
    (∀ (ops : List String) (parsed : List PatchOperation),
      patchOperations unmarshal ops = .ok parsed ↔
        ops ≠ [] ∧ List.Forall₂ (fun s po => patchOperation unmarshal s = .ok po) ops parsed) ∧
    (∀ args : List String, (∀ a ∈ args, a ≠ "" ∧ fieldNeedsQuotes a = false) →
      operationFlag args = some args) ∧
    (fieldNeedsQuotes (op ++ ":" ++ path ++ ":" ++ value) = false →
      operationFlag [op ++ ":" ++ path ++ ":" ++ value] =
        some [op ++ ":" ++ path ++ ":" ++ value] ∧
      patchOperations unmarshal [op ++ ":" ++ path ++ ":" ++ value] =
        .ok [{ Op := op, Path := path,
               Value := (match unmarshal value with
                 | .ok jsonValue => jsonValue
                 | .error _ => Any.string value) }]) := by
  have e3 : op ++ ":" ++ path ++ ":" ++ value =
      String.mk (op.data ++ ':' :: (path.data ++ ':' :: value.data)) := by
    apply String.ext
    simp only [String.data_append, List.append_assoc]
    rfl
  have e2 : op ++ ":" ++ path = String.mk (op.data ++ ':' :: path.data) := by
    apply String.ext
    simp only [String.data_append, List.append_assoc]
    rfl
  have hbad : ∀ s : String, ':' ∉ s.data → patchOperation unmarshal s =
      .error ("Error: invalid operation format: " ++ s ++ ". Expected format: op:path[:value]") := by
    intro s hs
    unfold patchOperation
    simp only [splitN_one s hs, List.length_singleton, Nat.one_lt_ofNat, if_true]
  have h3 : SplitN (op ++ ":" ++ path ++ ":" ++ value) ':' 3 = [op, path, value] := by
    rw [e3, splitN_three _ _ _ hop hpath]
  have h2 : SplitN (op ++ ":" ++ path) ':' 3 = [op, path] := by
    rw [e2, splitN_two _ _ hop hpath]
  have g0 : ∀ (a b : String) (l : List String), (a :: b :: l).getD 0 "" = a := fun _ _ _ => rfl
  have g1 : ∀ (a b : String) (l : List String), (a :: b :: l).getD 1 "" = b := fun _ _ _ => rfl
  have g2 : ∀ (a b c : String), [a, b, c].getD 2 "" = c := fun _ _ _ => rfl
  have l3 : ¬ ([op, path, value].length < 2) := by simp
  have l3e : [op, path, value].length = 3 := rfl
  have l2 : ¬ ([op, path].length < 2) := by simp
  have l2e : ¬ ([op, path].length = 3) := by simp
  have hone : patchOperation unmarshal (op ++ ":" ++ path ++ ":" ++ value) =
      .ok { Op := op, Path := path,
            Value := (match unmarshal value with
              | .ok jsonValue => jsonValue
              | .error _ => Any.string value) } := by
    unfold patchOperation
    simp only [h3, l3, l3e, if_false, if_true, g0, g1, g2]
    cases unmarshal value <;> rfl
  refine ⟨hone, ?_, ?_, patchOperations_ok_iff unmarshal, operationFlag_plain, ?_⟩
  · unfold patchOperation
    simp only [h2, l2, l2e, if_false, g0, g1]
  · intro s hs
    refine ⟨hbad s hs, ?_⟩
    intro ops hmem
    unfold patchOperations
    have hne : ¬ (ops.length = 0) := by
      intro h0
      rw [List.length_eq_zero] at h0
      rw [h0] at hmem
      simp at hmem
    simp only [hne, if_false]
    exact patchOperations_reject unmarshal ops s hmem ⟨_, hbad s hs⟩ _
  · intro hq
    have hne : op ++ ":" ++ path ++ ":" ++ value ≠ "" := by
      rw [e3]
      intro e
      have := congrArg String.data e
      simp at this
    refine ⟨operationFlag_plain _ ?_, ?_⟩
    · intro a ha
      rw [List.mem_singleton] at ha
      rw [ha]
      exact ⟨hne, hq⟩
    · rw [patchOperations_ok_iff]
      exact ⟨by simp, List.Forall₂.cons hone List.Forall₂.nil⟩

/-- Witness of C26: the command given `--operation add:externalId:urn:x`, whose
value is not JSON, builds the one operation `add` on `externalId` with the
string `urn:x`. -/
theorem patchOperation_parse_witness :
    operationFlag ["add" ++ ":" ++ "externalId" ++ ":" ++ "urn:x"] =
      some ["add" ++ ":" ++ "externalId" ++ ":" ++ "urn:x"] ∧
    patchOperations sampleUnmarshal ["add" ++ ":" ++ "externalId" ++ ":" ++ "urn:x"] =
      .ok [{ Op := "add", Path := "externalId",
             Value := (match sampleUnmarshal "urn:x" with
               | .ok jsonValue => jsonValue
               | .error _ => Any.string "urn:x") }] :=
  (patchOperation_parse sampleUnmarshal "add" "externalId" "urn:x" (by decide)
    (by decide)).2.2.2.2.2 (by decide)

/-! ## The document URL version of the notarization records -/

theorem formatUintAux_digits (fuel n : Nat) :
    ∀ c ∈ formatUintAux fuel n, ∃ d, d < 10 ∧ c = digitChar d := by
  induction fuel generalizing n with
  | zero =>
    intro c hc
    simp only [formatUintAux, List.mem_singleton] at hc
    exact ⟨n % 10, Nat.mod_lt _ (by decide), hc⟩
  | succ fuel ih =>
    intro c hc
    unfold formatUintAux at hc
    split at hc
    · rename_i hlt
      simp only [List.mem_singleton] at hc
      exact ⟨n, hlt, hc⟩
    · simp only [List.mem_append, List.mem_singleton] at hc
      rcases hc with hc | hc
      · exact ih _ c hc
      · exact ⟨n % 10, Nat.mod_lt _ (by decide), hc⟩

theorem escape_digit (d : Nat) (h : d < 10) :
    (utf8Char (digitChar d)).flatMap escapeByte = [digitChar d] := by
  interval_cases d <;> decide

theorem escape_digits (cs : List Char) (h : ∀ c ∈ cs, ∃ d, d < 10 ∧ c = digitChar d) :
    (cs.flatMap utf8Char).flatMap escapeByte = cs := by
  induction cs with
  | nil => rfl
  | cons c cs ih =>
    obtain ⟨d, hd, hc⟩ := h c (List.mem_cons_self _ _)
    simp only [List.flatMap_cons, List.flatMap_append]
    rw [ih (fun x hx => h x (List.mem_cons_of_mem _ hx)), hc, escape_digit d hd]
    rfl

theorem queryEscape_formatInt (v : Int) (h : 0 < v) : QueryEscape (FormatInt v) = FormatInt v := by
  have hn : ¬ (v < 0) := by omega
  unfold QueryEscape bytesOf FormatInt
  simp only [hn, if_false]
  rw [escape_digits (formatUint v.natAbs) (formatUintAux_digits _ _)]

theorem step_limit (q : Values) (limit : Int) :
    fieldStep q ⟨"Limit", true, "limit,omitempty", .int limit⟩ =
      if limit > 0 then Values.Set q "limit" (FormatInt limit) else q := by
  have e1 : stringsIndex "limit,omitempty" ',' = 5 := by decide
  have e2 : slicePrefix "limit,omitempty" 5 = "limit" := by decide
  simp [fieldStep, e1, e2]

theorem step_offset (q : Values) (offset : Int) :
    fieldStep q ⟨"Offset", true, "offset,omitempty", .int offset⟩ =
      if offset > 0 then Values.Set q "offset" (FormatInt offset) else q := by
  have e1 : stringsIndex "offset,omitempty" ',' = 6 := by decide
  have e2 : slicePrefix "offset,omitempty" 6 = "offset" := by decide
  simp [fieldStep, e1, e2]

theorem step_version (q : Values) (version : String) :
    fieldStep q ⟨"DocumentURLVersion", true, "document_url_version,omitempty", .string version⟩ =
      if version ≠ "" then Values.Set q "document_url_version" version else q := by
  have e1 : stringsIndex "document_url_version,omitempty" ',' = 20 := by decide
  have e2 : slicePrefix "document_url_version,omitempty" 20 = "document_url_version" := by decide
  simp [fieldStep, e1, e2]

theorem encode_version :
    Values.Encode [("document_url_version", ["v2"])] = "document_url_version=v2" := by
  decide

theorem encode_version_one (k x : String) (hk : stringLess "document_url_version" k = true) :
    Values.Encode [("document_url_version", ["v2"]), (k, [x])] =
      "document_url_version=v2" ++ "&" ++ QueryEscape k ++ "=" ++ QueryEscape x := by
  have hne : ¬ (k = "document_url_version") := by
    intro e
    rw [e, stringLess_irrefl] at hk
    exact Bool.false_ne_true hk
  have hkeys : Values.keys [("document_url_version", ["v2"]), (k, [x])] =
      ["document_url_version", k] := by
    apply keys_of_ascending
    unfold Ascending
    simp only [List.pairwise_cons, List.mem_singleton, forall_eq, List.not_mem_nil, false_implies,
      implies_true, List.Pairwise.nil, and_true]
    exact hk
  have e0 : encodePair "" "document_url_version" "v2" = "document_url_version=v2" := by decide
  unfold Values.Encode
  rw [hkeys]
  simp only [List.foldl_cons, List.foldl_nil, Values.lookup, if_true, hne, if_false, e0]
  exact encodePair_next _ _ _ (by decide)

theorem encode_version_two (k1 k2 x y : String)
    (h1 : stringLess "document_url_version" k1 = true) (h2 : stringLess k1 k2 = true) :
    Values.Encode [("document_url_version", ["v2"]), (k1, [x]), (k2, [y])] =
      "document_url_version=v2" ++ "&" ++ QueryEscape k1 ++ "=" ++ QueryEscape x ++ "&" ++
        QueryEscape k2 ++ "=" ++ QueryEscape y := by
  have h3 : stringLess "document_url_version" k2 = true := stringLess_trans h1 h2
  have hne1 : ¬ (k1 = "document_url_version") := by
    intro e
    rw [e, stringLess_irrefl] at h1
    exact Bool.false_ne_true h1
  have hne2 : ¬ (k2 = "document_url_version") := by
    intro e
    rw [e, stringLess_irrefl] at h3
    exact Bool.false_ne_true h3
  have hne3 : ¬ (k2 = k1) := by
    intro e
    rw [e, stringLess_irrefl] at h2
    exact Bool.false_ne_true h2
  have hkeys : Values.keys [("document_url_version", ["v2"]), (k1, [x]), (k2, [y])] =
      ["document_url_version", k1, k2] := by
    apply keys_of_ascending
    unfold Ascending
    simp only [List.pairwise_cons, List.mem_cons, List.mem_singleton, forall_eq_or_imp, forall_eq,
      List.not_mem_nil, false_implies, implies_true, List.Pairwise.nil, and_true]
    exact ⟨⟨h1, h3⟩, h2⟩
  have e0 : encodePair "" "document_url_version" "v2" = "document_url_version=v2" := by decide
  unfold Values.Encode
  rw [hkeys]
  simp only [List.foldl_cons, List.foldl_nil, Values.lookup, if_true, hne1, hne2, hne3, if_false, e0]
  rw [encodePair_next _ k1 x (by decide)]
  apply encodePair_next
  simp only [String.length_append]
  have : 0 < "document_url_version=v2".length := by decide
  omega

theorem records_map (limit offset : Int) (version : String) :
    Values.Set (BuildQueryParams (.ptrStruct (GetNotarizationRecordsParams limit offset version)))
        "document_url_version" DocumentURLVersion =
      ("document_url_version", ["v2"]) ::
        ((if limit > 0 then [("limit", [FormatInt limit])] else []) ++
          (if offset > 0 then [("offset", [FormatInt offset])] else [])) := by
  have a1 : stringLess "offset" "limit" = false := by decide
  have a2 : ¬ ("offset" = "limit") := by decide
  have a3 : stringLess "document_url_version" "limit" = true := by decide
  have a4 : stringLess "document_url_version" "offset" = true := by decide
  have hb : BuildQueryParams (.ptrStruct (GetNotarizationRecordsParams limit offset version)) =
      fieldStep (fieldStep (fieldStep [] ⟨"Limit", true, "limit,omitempty", .int limit⟩)
        ⟨"Offset", true, "offset,omitempty", .int offset⟩)
        ⟨"DocumentURLVersion", true, "document_url_version,omitempty", .string version⟩ := rfl
  rw [hb, step_version, step_offset, step_limit]
  unfold DocumentURLVersion
  by_cases hl : limit > 0 <;> by_cases ho : offset > 0 <;> by_cases hv : version = "" <;>
    simp [hl, ho, hv, Values.Set, a1, a2, a3, a4, stringLess_irrefl]

theorem record_map (version : String) :
    Values.Set (BuildQueryParams (.ptrStruct (GetNotarizationRecordParams version)))
        "document_url_version" DocumentURLVersion = [("document_url_version", ["v2"])] := by
  have hb : BuildQueryParams (.ptrStruct (GetNotarizationRecordParams version)) =
      fieldStep [] ⟨"DocumentURLVersion", true, "document_url_version,omitempty",
        .string version⟩ := rfl
  rw [hb, step_version]
  unfold DocumentURLVersion
  by_cases hv : version = "" <;> simp [hv, Values.Set, stringLess_irrefl]

theorem append_assoc3 (a b c : String) : a ++ b ++ c = a ++ (b ++ c) := by
  apply String.ext
  simp only [String.data_append, List.append_assoc]

theorem records_query (limit offset : Int) (version : String) :
    Values.Encode (Values.Set
        (BuildQueryParams (.ptrStruct (GetNotarizationRecordsParams limit offset version)))
        "document_url_version" DocumentURLVersion) =
      "document_url_version=v2" ++ (if limit > 0 then "&limit=" ++ FormatInt limit else "") ++
        (if offset > 0 then "&offset=" ++ FormatInt offset else "") := by
  have a3 : stringLess "document_url_version" "limit" = true := by decide
  have a4 : stringLess "document_url_version" "offset" = true := by decide
  have a5 : stringLess "limit" "offset" = true := by decide
  have q1 : QueryEscape "limit" = "limit" := by decide
  have q2 : QueryEscape "offset" = "offset" := by decide
  have e0 : ∀ s : String, s ++ "" = s := fun s => by
    apply String.ext
    simp [String.data_append]
  have c1 : ∀ s : String, "&limit=" ++ s = "&" ++ ("limit" ++ ("=" ++ s)) := fun s => by
    apply String.ext
    simp only [String.data_append]
    rfl
  have c2 : ∀ s : String, "&offset=" ++ s = "&" ++ ("offset" ++ ("=" ++ s)) := fun s => by
    apply String.ext
    simp only [String.data_append]
    rfl
  rw [records_map]
  by_cases hl : limit > 0 <;> by_cases ho : offset > 0
  · simp only [hl, ho, if_true, List.singleton_append]
    rw [encode_version_two _ _ _ _ a3 a5, q1, q2, queryEscape_formatInt _ hl,
      queryEscape_formatInt _ ho]
    simp only [append_assoc3, c1, c2]
  · simp only [hl, ho, if_true, if_false, List.append_nil]
    rw [encode_version_one _ _ a3, q1, queryEscape_formatInt _ hl, e0]
    simp only [append_assoc3, c1]
  · simp only [hl, ho, if_true, if_false, List.nil_append]
    rw [encode_version_one _ _ a4, q2, queryEscape_formatInt _ ho, e0]
    simp only [append_assoc3, c2]
  · simp only [hl, ho, if_false, List.append_nil]
    rw [encode_version, e0, e0]

/-- C30. For every value of the parameters — a nil pointer, or a struct with any
limit, offset and `document_url_version` — `GetNotarizationRecords` issues the
GET request whose path is `/v1/notarization_records?document_url_version=v2`
followed by `&limit=` and the limit when the limit is positive and by
`&offset=` and the offset when the offset is positive, and
`GetNotarizationRecord` issues the GET request whose path is
`/v1/notarization_records/`, the record id and `?document_url_version=v2`: the
query string is always there, it holds `document_url_version=v2` once, and the
`document_url_version` of the parameters does not appear in it. -/
theorem notarizationRecords_version (client : ProofClient) (recordID : String) (w : World) :
    (∀ (limit offset : Int) (version : String),
      GetNotarizationRecords client
          (.ptrStruct (GetNotarizationRecordsParams limit offset version)) w =
        client.Request "GET" ("/v1/notarization_records?document_url_version=v2" ++
          (if limit > 0 then "&limit=" ++ FormatInt limit else "") ++
          (if offset > 0 then "&offset=" ++ FormatInt offset else "")) none [] w) ∧
    GetNotarizationRecords client .ptrNil w =
      client.Request "GET" "/v1/notarization_records?document_url_version=v2" none [] w ∧
    (∀ version : String,
      GetNotarizationRecord client recordID (.ptrStruct (GetNotarizationRecordParams version)) w =
        client.Request "GET"
          ("/v1/notarization_records/" ++ recordID ++ "?document_url_version=v2") none [] w) ∧
    GetNotarizationRecord client recordID .ptrNil w =
      client.Request "GET"
        ("/v1/notarization_records/" ++ recordID ++ "?document_url_version=v2") none [] w := by
  have hnil : Values.Encode (Values.Set (BuildQueryParams .ptrNil) "document_url_version"
      DocumentURLVersion) = "document_url_version=v2" := by decide
  have c0 : ∀ s : String, "/v1/notarization_records?document_url_version=v2" ++ s =
      "/v1/notarization_records" ++ ("?" ++ ("document_url_version=v2" ++ s)) := fun s => by
    apply String.ext
    simp only [String.data_append]
    rfl
  have c1 : ("?document_url_version=v2" : String) = "?" ++ "document_url_version=v2" := by decide
  have c2 : ∀ s : String, "/v1/notarization_records/" ++ s =
      "/v1/notarization_records" ++ ("/" ++ s) := fun s => by
    apply String.ext
    simp only [String.data_append]
    rfl
  refine ⟨?_, ?_, ?_, ?_⟩
  · intro limit offset version
    unfold GetNotarizationRecords ProofClient.Get NotarizationRecordsEndpoint
    simp only [records_query, append_assoc3, c0]
  · unfold GetNotarizationRecords ProofClient.Get NotarizationRecordsEndpoint
    simp only [hnil]
    rfl
  · intro version
    unfold GetNotarizationRecord ProofClient.Get NotarizationRecordsEndpoint
    simp only [record_map, encode_version, c1, c2, append_assoc3]
  · unfold GetNotarizationRecord ProofClient.Get NotarizationRecordsEndpoint
    simp only [hnil, c1, c2, append_assoc3]

end ProofCli
